import Mathlib

/-!
Dirichlet-discrete sufficient statistics (`distributions/models/dd.hpp`).

A shallow embedding of `struct DirichletDiscrete<max_dim, count_t>`.

* `float` is an arbitrary type `F` with the arithmetic the code uses; the theorems take
  `F = ℝ`, and the numeric kernels `fast_log`, `fast_lgamma` (special.hpp) are parameters.
* `count_t` is the template default `uint32_t`: a natural number, every update reduced
  modulo `2 ^ 32`.  `size_t` is a natural number; the one subtraction is reduced modulo `2 ^ 64`.
* `Value` is `int`, hence `Int`.
* Fixed arrays `T x[max_dim]` and `std::vector<T>` are lists.  An access outside a list has
  no defined result in C++; the embedding makes that outcome explicit (`none`, `undefined`).
* A member that a struct does not declare has no value either: `classifier.count_sum`
  (source lines 298 and 313) is such a name, see `Classifier.count_sum`.
* `std::vector` allocation is assumed never to fail.
* The `rng_t &` arguments are unused by every function embedded here and are dropped.
-/

namespace Distributions

/-- Modulus of `count_t = uint32_t`. -/
def count_mod : Nat := 2 ^ 32

/-- Modulus of `size_t`. -/
def size_mod : Nat := 2 ^ 64

/-- Outcome of a `void` function that mutates an object of type `σ`: it returns with the new
object, or an assertion fails (the object as it was at that moment is kept), or it reaches an
access outside an array. -/
inductive Run (σ : Type) where
  | done (s : σ)
  | fault (msg : String) (s : σ)
  | undefined
deriving DecidableEq, Repr

/-- Outcome of a `const` function that returns a value. -/
inductive Val (α : Type) where
  | ret (a : α)
  | fault (msg : String)
  | undefined
deriving DecidableEq, Repr

/-- Modelled from the spec: the macro `DIST_ASSERT1(cond, message)` of
`distributions/common.hpp`, which is not among the sources.  Section 7 of the spec: a contract
violation fails immediately.  `fail` is the outcome of the failed assertion, `rest` the code
after the assertion. -/
def DIST_ASSERT1 {R : Type} (cond : Bool) (fail : R) (rest : R) : R :=
  if cond then rest else fail

/-- The model object: `int dim; float alphas[max_dim];`. -/
structure DirichletDiscrete (F : Type) where
  max_dim : Nat
  dim : Int
  alphas : List F
deriving DecidableEq, Repr

/-- Number of iterations of the loops `for (Value value = 0; value < dim; ++value)`. -/
def DirichletDiscrete.ndim {F : Type} (m : DirichletDiscrete F) : Nat :=
  m.dim.toNat

/-- The struct `Group`: `count_t counts[max_dim]`. -/
structure Group where
  counts : List Nat
deriving DecidableEq, Repr

/-- The struct `Scorer`. -/
structure Scorer (F : Type) where
  alpha_sum : F
  alphas : List F
deriving DecidableEq, Repr

/-- The struct `Classifier`. -/
structure Classifier (F : Type) where
  alpha_sum : F
  groups : List Group
  count_sums : List Nat
  scores : List (List F)
  scores_shift : List F
  is_stale : Bool
deriving DecidableEq, Repr

section Primitives

variable {α σ : Type}

/-- Read `xs[i]` with a signed index. -/
def index? (xs : List α) (i : Int) : Option α :=
  if 0 ≤ i then xs[i.toNat]? else none

/-- Write `xs[i] = a`. -/
def store? (xs : List α) (i : Nat) (a : α) : Option (List α) :=
  if i < xs.length then some (xs.set i a) else none

/-- Write `xs[i] = a` with a signed index. -/
def storeI? (xs : List α) (i : Int) (a : α) : Option (List α) :=
  if 0 ≤ i then store? xs i.toNat a else none

/-- The loop `for (i = 0; i < n; ++i) body`, where `body` may reach an access outside an
array (`none`). -/
def for_loop (n : Nat) (body : Nat → σ → Option σ) (s : σ) : Option σ :=
  match n with
  | 0 => some s
  | k + 1 => (for_loop k body s).bind (body k)

/-- The call `std::vector::resize(n)` / `resize(n, fill)`: keeps the first `n` elements and
appends copies of `fill` (the value-initialised element for the one-argument form). -/
def resize (xs : List α) (n : Nat) (fill : α) : List α :=
  xs.take n ++ List.replicate (n - xs.length) fill

/-- An outcome from an optional result: `none` is an access outside an array. -/
def Run.ofOption (o : Option σ) : Run σ :=
  match o with
  | some s => .done s
  | none => .undefined

/-- An outcome from an optional value. -/
def Val.ofOption (o : Option α) : Val α :=
  match o with
  | some a => .ret a
  | none => .undefined

end Primitives

section Kernels

variable {F : Type}

/-- Modelled from the spec: `vector_zero(size, data)` of vector_math.hpp, which is not among
the sources; section 6: zero-fill over a contiguous sequence of known length. -/
def vector_zero [Zero F] (size : Nat) (data : List F) : Option (List F) :=
  if size ≤ data.length then some (List.replicate size 0 ++ data.drop size) else none

/-- Modelled from the spec: `vector_log(size, data)` of vector_math.hpp, which is not among
the sources; section 6: elementwise log in place.  The logarithm is the parameter `log`. -/
def vector_log (log : F → F) (size : Nat) (data : List F) : Option (List F) :=
  if size ≤ data.length then some ((data.take size).map log ++ data.drop size) else none

/-- Modelled from the spec: `vector_add_subtract(size, io, in1, in2)` of vector_math.hpp,
which is not among the sources; section 6: `out[i] += a[i] − b[i]`. -/
def vector_add_subtract [Add F] [Sub F] (size : Nat) (io in1 in2 : List F) :
    Option (List F) :=
  if size ≤ io.length ∧ size ≤ in1.length ∧ size ≤ in2.length then
    some (List.zipWith (fun x d => x + d) (io.take size)
        (List.zipWith (fun a b => a - b) (in1.take size) (in2.take size)) ++ io.drop size)
  else none

end Kernels

section Code

variable {F : Type} [Zero F] [Add F] [Sub F] [Div F] [NatCast F]

/-- The value-initialised `Group` that `std::vector<Group>::resize` appends. -/
def Group.zero (m : DirichletDiscrete F) : Group :=
  ⟨List.replicate m.max_dim 0⟩

/-- Body of the loop at source lines 60-62. -/
def group_init_body (value : Nat) (group : Group) : Option Group := do
  let counts ← store? group.counts value 0
  some ⟨counts⟩

/-- Source lines 56-63. -/
def group_init (m : DirichletDiscrete F) (group : Group) : Option Group :=
  for_loop m.ndim group_init_body group

/-- Source lines 65-72. -/
def group_add_value (m : DirichletDiscrete F) (group : Group) (value : Int) : Run Group :=
  DIST_ASSERT1 (decide (value < m.dim)) (.fault "value out of bounds" group) <|
  Run.ofOption do
    let count ← index? group.counts value
    let counts ← storeI? group.counts value ((count + 1) % count_mod)
    some ⟨counts⟩

/-- Source lines 74-81. -/
def group_remove_value (m : DirichletDiscrete F) (group : Group) (value : Int) : Run Group :=
  DIST_ASSERT1 (decide (value < m.dim)) (.fault "value out of bounds" group) <|
  Run.ofOption do
    let count ← index? group.counts value
    let counts ← storeI? group.counts value ((count + count_mod - 1) % count_mod)
    some ⟨counts⟩

/-- Body of the loop at source lines 89-91. -/
def group_merge_body (source : Group) (value : Nat) (destin : Group) : Option Group := do
  let x ← destin.counts[value]?
  let y ← source.counts[value]?
  let counts ← store? destin.counts value ((x + y) % count_mod)
  some ⟨counts⟩

/-- Source lines 83-92.  `same_object` says whether `& destin == & source`. -/
def group_merge (m : DirichletDiscrete F) (destin source : Group) (same_object : Bool) :
    Run Group :=
  DIST_ASSERT1 (!same_object) (.fault "cannot merge with self" destin) <|
  Run.ofOption (for_loop m.ndim (group_merge_body source) destin)

/-- Body of the loop at source lines 135-139; the state is the local `alpha_sum` and the
scorer. -/
def scorer_init_body (m : DirichletDiscrete F) (group : Group) (value : Nat)
    (st : F × Scorer F) : Option (F × Scorer F) := do
  let a ← m.alphas[value]?
  let count ← group.counts[value]?
  let alpha := a + (Nat.cast count : F)
  let alphas ← store? st.2.alphas value alpha
  some (st.1 + alpha, { st.2 with alphas := alphas })

/-- Source lines 128-142. -/
def scorer_init (m : DirichletDiscrete F) (scorer : Scorer F) (group : Group) :
    Option (Scorer F) := do
  let st ← for_loop m.ndim (scorer_init_body m group) (0, scorer)
  some { st.2 with alpha_sum := st.1 }

/-- Source lines 144-151. -/
def scorer_eval (fast_log : F → F) (m : DirichletDiscrete F) (scorer : Scorer F)
    (value : Int) : Val F :=
  DIST_ASSERT1 (decide (value < m.dim)) (.fault "value out of bounds") <|
  Val.ofOption do
    let a ← index? scorer.alphas value
    some (fast_log (a / scorer.alpha_sum))

/-- Source lines 153-162.  `uninit` is the content of the local `Scorer scorer;` before
`scorer_init` writes it. -/
def score_value (fast_log : F → F) (m : DirichletDiscrete F) (uninit : Scorer F)
    (group : Group) (value : Int) : Val F :=
  DIST_ASSERT1 (decide (value < m.dim)) (.fault "value out of bounds") <|
  match scorer_init m uninit group with
  | some scorer => scorer_eval fast_log m scorer value
  | none => .undefined

/-- Body of the loop at source lines 172-178; the state is the locals `count_sum`,
`alpha_sum` and `score`. -/
def score_group_body (fast_lgamma : F → F) (m : DirichletDiscrete F) (group : Group)
    (value : Nat) (st : Nat × F × F) : Option (Nat × F × F) := do
  let count ← group.counts[value]?
  let alpha ← m.alphas[value]?
  some ((st.1 + count) % count_mod, st.2.1 + alpha,
    st.2.2 + (fast_lgamma (alpha + (Nat.cast count : F)) - fast_lgamma alpha))

/-- Source lines 164-183. -/
def score_group (fast_lgamma : F → F) (m : DirichletDiscrete F) (group : Group) :
    Option F := do
  let st ← for_loop m.ndim (score_group_body fast_lgamma m group) (0, 0, 0)
  some (st.2.2 + (fast_lgamma st.2.1 - fast_lgamma (st.2.1 + (Nat.cast st.1 : F))))

/-- Body of the loop at source lines 196-199. -/
def init_group_body (m : DirichletDiscrete F) (groupid : Nat) (c : Classifier F) :
    Option (Classifier F) := do
  let group ← c.groups[groupid]?
  let group ← group_init m group
  let groups ← store? c.groups groupid group
  let count_sums ← store? c.count_sums groupid 0
  some { c with groups := groups, count_sums := count_sums }

/-- Body of the loop at source lines 202-206. -/
def init_value_body (m : DirichletDiscrete F) (group_count : Nat) (value : Nat)
    (c : Classifier F) : Option (Classifier F) := do
  let a ← m.alphas[value]?
  let row ← c.scores[value]?
  let row ← vector_zero group_count (resize row group_count 0)
  let scores ← store? c.scores value row
  some { c with alpha_sum := c.alpha_sum + a, scores := scores }

/-- Source lines 188-208. -/
def classifier_init (m : DirichletDiscrete F) (c : Classifier F) (group_count : Nat) :
    Option (Classifier F) := do
  let c := { c with alpha_sum := 0 }
  let c := { c with groups := resize c.groups group_count (Group.zero m) }
  let c := { c with count_sums := resize c.count_sums group_count 0 }
  let c ← for_loop group_count (init_group_body m) c
  let c := { c with scores_shift := resize c.scores_shift group_count 0 }
  let shift ← vector_zero group_count c.scores_shift
  let c := { c with scores_shift := shift }
  let c ← for_loop m.ndim (init_value_body m group_count) c
  some { c with is_stale := false }

/-- Source lines 210-221. -/
def classifier_lazy_add_value (m : DirichletDiscrete F) (c : Classifier F) (groupid : Nat)
    (value : Int) : Run (Classifier F) :=
  DIST_ASSERT1 (decide (groupid < c.groups.length)) (.fault "groupid out of bounds" c) <|
  DIST_ASSERT1 (decide (value < m.dim)) (.fault "value out of bounds" c) <|
  match c.groups[groupid]? with
  | none => .undefined
  | some group =>
    match group_add_value m group value with
    | .done g => .done { c with groups := c.groups.set groupid g, is_stale := true }
    | .fault msg g => .fault msg { c with groups := c.groups.set groupid g }
    | .undefined => .undefined

/-- Body of the loop at source lines 230-233. -/
def refresh_resize_body (m : DirichletDiscrete F) (group_count : Nat) (value : Nat)
    (c : Classifier F) : Option (Classifier F) := do
  let a ← m.alphas[value]?
  let row ← c.scores[value]?
  let scores ← store? c.scores value (resize row group_count 0)
  some { c with alpha_sum := c.alpha_sum + a, scores := scores }

/-- Body of the loop at source lines 237-241; the state is the local `count_sum` and the
classifier. -/
def refresh_value_body (m : DirichletDiscrete F) (group : Group) (groupid : Nat) (value : Nat)
    (st : Nat × Classifier F) : Option (Nat × Classifier F) := do
  let count ← group.counts[value]?
  let a ← m.alphas[value]?
  let row ← st.2.scores[value]?
  let row ← store? row groupid (a + (Nat.cast count : F))
  let scores ← store? st.2.scores value row
  some ((st.1 + count) % count_mod, { st.2 with scores := scores })

/-- Body of the loop at source lines 234-244. -/
def refresh_group_body (m : DirichletDiscrete F) (groupid : Nat) (c : Classifier F) :
    Option (Classifier F) := do
  let group ← c.groups[groupid]?
  let st ← for_loop m.ndim (refresh_value_body m group groupid) (0, c)
  let count_sums ← store? st.2.count_sums groupid st.1
  let shift ← store? st.2.scores_shift groupid (st.2.alpha_sum + (Nat.cast st.1 : F))
  some { st.2 with count_sums := count_sums, scores_shift := shift }

/-- Body of the loop at source lines 246-248. -/
def refresh_log_body (log : F → F) (group_count : Nat) (value : Nat) (c : Classifier F) :
    Option (Classifier F) := do
  let row ← c.scores[value]?
  let row ← vector_log log group_count row
  let scores ← store? c.scores value row
  some { c with scores := scores }

/-- Source lines 223-250.  `log` is the logarithm of `vector_log`. -/
def classifier_refresh (log : F → F) (m : DirichletDiscrete F) (c : Classifier F) :
    Option (Classifier F) := do
  let group_count := c.groups.length
  let c := { c with scores_shift := resize c.scores_shift group_count 0 }
  let c := { c with alpha_sum := 0 }
  let c ← for_loop m.ndim (refresh_resize_body m group_count) c
  let c ← for_loop group_count (refresh_group_body m) c
  let shift ← vector_log log group_count c.scores_shift
  let c := { c with scores_shift := shift }
  let c ← for_loop m.ndim (refresh_log_body log group_count) c
  some { c with is_stale := false }

/-- Body of the loops at source lines 261-263 and 284-286. -/
def resize_scores_body (group_count : Nat) (value : Nat) (c : Classifier F) :
    Option (Classifier F) := do
  let row ← c.scores[value]?
  let scores ← store? c.scores value (resize row group_count 0)
  some { c with scores := scores }

/-- Source lines 252-264. -/
def classifier_add_group (m : DirichletDiscrete F) (c : Classifier F) :
    Option (Classifier F) := do
  let group_count := c.groups.length + 1
  let groups := resize c.groups group_count (Group.zero m)
  let back ← groups.getLast?
  let back ← group_init m back
  let groups ← store? groups (groups.length - 1) back
  let c := { c with groups := groups }
  let c := { c with count_sums := resize c.count_sums group_count 0 }
  let c := { c with scores_shift := resize c.scores_shift group_count 0 }
  for_loop m.ndim (resize_scores_body group_count) c

/-- Body of the loop at source lines 276-279. -/
def remove_move_body (groupid : Nat) (value : Nat) (c : Classifier F) :
    Option (Classifier F) := do
  let row ← c.scores[value]?
  let last ← row.getLast?
  let row ← store? row groupid last
  let scores ← store? c.scores value row
  some { c with scores := scores }

/-- Source lines 272-280: the block under `if (groupid != group_count)`. -/
def remove_move (m : DirichletDiscrete F) (c : Classifier F) (groupid : Nat) :
    Option (Classifier F) := do
  let a ← c.groups[groupid]?
  let b ← c.groups.getLast?
  let groups := (c.groups.set groupid b).set (c.groups.length - 1) a
  let count_sum ← c.count_sums.getLast?
  let count_sums ← store? c.count_sums groupid count_sum
  let shift ← c.scores_shift.getLast?
  let scores_shift ← store? c.scores_shift groupid shift
  for_loop m.ndim (remove_move_body groupid)
    { c with groups := groups, count_sums := count_sums, scores_shift := scores_shift }

/-- Source lines 266-287.  `groups.size() - 1` is a `size_t` subtraction. -/
def classifier_remove_group (m : DirichletDiscrete F) (c : Classifier F) (groupid : Nat) :
    Option (Classifier F) := do
  let group_count := (c.groups.length + size_mod - 1) % size_mod
  let c ← if groupid ≠ group_count then remove_move m c groupid else some c
  let c := { c with groups := resize c.groups group_count (Group.zero m) }
  let c := { c with count_sums := resize c.count_sums group_count 0 }
  let c := { c with scores_shift := resize c.scores_shift group_count 0 }
  for_loop m.ndim (resize_scores_body group_count) c

/-- The expression `classifier.count_sum` of source lines 298 and 313.  `struct Classifier`
(source lines 43-51) declares `alpha_sum`, `groups`, `count_sums`, `scores`, `scores_shift`
and `is_stale`; it has no member `count_sum`.  The expression is ill-formed, so a function
whose body contains it cannot be instantiated, and the expression has no value. -/
def Classifier.count_sum (_c : Classifier F) : Option (List Nat) :=
  none

/-- Source lines 289-302, statement by statement.  Line 298 reads and writes
`classifier.count_sum[groupid]`, which does not exist (`Classifier.count_sum`): the function
cannot be instantiated and no call of it returns.  The outcomes of the two assertions are
those of the statements as written. -/
def classifier_add_value (fast_log : F → F) (m : DirichletDiscrete F) (c : Classifier F)
    (groupid : Nat) (value : Int) : Run (Classifier F) :=
  DIST_ASSERT1 (decide (groupid < c.groups.length)) (.fault "groupid out of bounds" c) <|
  DIST_ASSERT1 (decide (value < m.dim)) (.fault "value out of bounds" c) <|
  Run.ofOption do
    let group ← c.groups[groupid]?
    let count0 ← index? group.counts value
    let count := (count0 + 1) % count_mod
    let counts ← storeI? group.counts value count
    let groups := c.groups.set groupid ⟨counts⟩
    let member ← c.count_sum
    let count_sum0 ← member[groupid]?
    let count_sum := (count_sum0 + 1) % count_mod
    let _ ← store? member groupid count_sum
    let a ← index? m.alphas value
    let row ← index? c.scores value
    let row ← store? row groupid (fast_log (a + (Nat.cast count : F)))
    let scores ← storeI? c.scores value row
    let shift ← store? c.scores_shift groupid (fast_log (c.alpha_sum + (Nat.cast count_sum : F)))
    some { c with groups := groups, scores := scores, scores_shift := shift }

/-- Source lines 304-317, statement by statement.  Line 313 reads and writes
`classifier.count_sum[groupid]`, which does not exist (`Classifier.count_sum`): as
`classifier_add_value`, the function cannot be instantiated and no call of it returns. -/
def classifier_remove_value (fast_log : F → F) (m : DirichletDiscrete F) (c : Classifier F)
    (groupid : Nat) (value : Int) : Run (Classifier F) :=
  DIST_ASSERT1 (decide (groupid < c.groups.length)) (.fault "groupid out of bounds" c) <|
  DIST_ASSERT1 (decide (value < m.dim)) (.fault "value out of bounds" c) <|
  Run.ofOption do
    let group ← c.groups[groupid]?
    let count0 ← index? group.counts value
    let count := (count0 + count_mod - 1) % count_mod
    let counts ← storeI? group.counts value count
    let groups := c.groups.set groupid ⟨counts⟩
    let member ← c.count_sum
    let count_sum0 ← member[groupid]?
    let count_sum := (count_sum0 + count_mod - 1) % count_mod
    let _ ← store? member groupid count_sum
    let a ← index? m.alphas value
    let row ← index? c.scores value
    let row ← store? row groupid (fast_log (a + (Nat.cast count : F)))
    let scores ← storeI? c.scores value row
    let shift ← store? c.scores_shift groupid (fast_log (c.alpha_sum + (Nat.cast count_sum : F)))
    some { c with groups := groups, scores := scores, scores_shift := shift }

/-- Source lines 319-333.  The mutable object is the accumulator `scores_accum`. -/
def classifier_score_value (m : DirichletDiscrete F) (scores_accum : List F)
    (c : Classifier F) (value : Int) : Run (List F) :=
  DIST_ASSERT1 (!c.is_stale) (.fault "classifier is stale" scores_accum) <|
  DIST_ASSERT1 (decide (value < m.dim)) (.fault "value out of bounds" scores_accum) <|
  Run.ofOption do
    let row ← index? c.scores value
    vector_add_subtract c.groups.length scores_accum row c.scores_shift

end Code

section Reading

variable {F : Type}

/-- The entry `alphas[v]`. -/
def DirichletDiscrete.alpha [Zero F] (m : DirichletDiscrete F) (v : Nat) : F :=
  m.alphas.getD v 0

/-- The sum of `alphas[v]` over `v < dim`. -/
def DirichletDiscrete.alpha_total [AddCommMonoid F] (m : DirichletDiscrete F) : F :=
  ∑ v in Finset.range m.ndim, m.alphas.getD v 0

/-- The entry `group.counts[v]`. -/
def Group.count (group : Group) (v : Nat) : Nat :=
  group.counts.getD v 0

/-- The sum of `group.counts[v]` over `v < dim`, as a natural number (no reduction). -/
def Group.total (m : DirichletDiscrete F) (group : Group) : Nat :=
  ∑ v in Finset.range m.ndim, group.count v

/-- The group `classifier.groups[g]`. -/
def Classifier.group (c : Classifier F) (g : Nat) : Group :=
  c.groups.getD g ⟨[]⟩

/-- The entry `classifier.scores[v][g]`, when both indices are in range. -/
def Classifier.score? (c : Classifier F) (v g : Nat) : Option F :=
  (c.scores[v]?).bind (fun row => row[g]?)

/-- Fixed by the types: `dim` is at most `max_dim` and `alphas` has `max_dim` entries. -/
def DirichletDiscrete.WF (m : DirichletDiscrete F) : Prop :=
  m.dim ≤ m.max_dim ∧ m.alphas.length = m.max_dim

/-- Fixed by the types: `counts` has `max_dim` entries, each a `count_t`. -/
def Group.WF (m : DirichletDiscrete F) (group : Group) : Prop :=
  group.counts.length = m.max_dim ∧ ∀ x ∈ group.counts, x < count_mod

/-- Fixed by the types: `scores` is an array of `max_dim` vectors, every group is a `Group`
and every entry of `count_sums` is a `count_t`. -/
def Classifier.WF (m : DirichletDiscrete F) (c : Classifier F) : Prop :=
  c.scores.length = m.max_dim ∧ (∀ group ∈ c.groups, group.WF m) ∧
    ∀ x ∈ c.count_sums, x < count_mod

/-- The parallel arrays of the classifier all have length `G`. -/
def Classifier.Parallel (m : DirichletDiscrete F) (c : Classifier F) (G : Nat) : Prop :=
  c.groups.length = G ∧ c.count_sums.length = G ∧ c.scores_shift.length = G ∧
    ∀ v, v < m.ndim → ∃ row, c.scores[v]? = some row ∧ row.length = G

/-- The cache invariant of the data model (spec section 3), with `log` for the logarithm:
`alpha_sum` is the sum of the alphas and, for every group `g` and category `v < dim`,
`count_sums[g]` is the sum of the counts of `g`, `scores[v][g] = log (alphas[v] + counts[v])`
and `scores_shift[g] = log (alpha_sum + count_sums[g])`. -/
structure Classifier.CacheInv (log : ℝ → ℝ) (m : DirichletDiscrete ℝ) (c : Classifier ℝ) :
    Prop where
  alpha_sum : c.alpha_sum = m.alpha_total
  count_sums : ∀ g, g < c.groups.length → c.count_sums[g]? = some ((c.group g).total m)
  scores : ∀ v g, v < m.ndim → g < c.groups.length →
    c.score? v g = some (log (m.alpha v + (((c.group g).count v : ℕ) : ℝ)))
  shift : ∀ g, g < c.groups.length →
    c.scores_shift[g]? = some (log (c.alpha_sum + ((c.count_sums.getD g 0 : ℕ) : ℝ)))

/-- The classifier `c` with `counts[v]` of group `gid` replaced by `x`. -/
def Classifier.poke (c : Classifier F) (gid v x : Nat) : Classifier F :=
  { c with groups := c.groups.set gid ⟨(c.group gid).counts.set v x⟩ }

/-- The tables of `t` are the ones `classifier_refresh` computes from the groups of `c`:
`t` has the groups of `c`, and for every group `g` and category `v < dim` the recomputed
`count_sums[g]` (the `count_t` sum of the counts), `scores_shift[g]` and `scores[v][g]`;
whatever lies outside these ranges is as in `c`. -/
structure Refreshed (log : ℝ → ℝ) (m : DirichletDiscrete ℝ) (c t : Classifier ℝ) : Prop where
  groups : t.groups = c.groups
  alpha_sum : t.alpha_sum = m.alpha_total
  count_sums_length : t.count_sums.length = c.count_sums.length
  count_sums : ∀ g, g < c.groups.length →
    t.count_sums[g]? = some ((c.group g).total m % count_mod)
  count_sums_rest : ∀ g, c.groups.length ≤ g → t.count_sums[g]? = c.count_sums[g]?
  shift_length : t.scores_shift.length = c.groups.length
  shift : ∀ g, g < c.groups.length → t.scores_shift[g]? =
    some (log (m.alpha_total + (((c.group g).total m % count_mod : ℕ) : ℝ)))
  scores_length : t.scores.length = c.scores.length
  rows : ∀ v, v < m.ndim → ∃ row, t.scores[v]? = some row ∧ row.length = c.groups.length ∧
    ∀ g, g < c.groups.length →
      row[g]? = some (log (m.alpha v + (((c.group g).count v : ℕ) : ℝ)))
  rows_rest : ∀ v, m.ndim ≤ v → t.scores[v]? = c.scores[v]?

/-- The group `destin` after `source` has been added to it: for `v < dim` the count is the
`count_t` sum of the two counts, the other entries are those of `destin`. -/
def Group.plus {F : Type} (m : DirichletDiscrete F) (destin source : Group) : Group :=
  ⟨(List.range destin.counts.length).map
    (fun v => if v < m.ndim then (destin.count v + source.count v) % count_mod
      else destin.count v)⟩

/-- The shape every classifier object has: the sizes fixed by the types, parallel arrays,
and a group count that is a `size_t`. -/
structure Classifier.Shape (m : DirichletDiscrete ℝ) (c : Classifier ℝ) : Prop where
  wf : c.WF m
  parallel : c.Parallel m c.groups.length
  size : c.groups.length < size_mod

/-- For every group `g`, `count_sums[g]` is the sum of the counts of `g` in `count_t`
arithmetic. -/
def Classifier.CountInv (m : DirichletDiscrete ℝ) (c : Classifier ℝ) : Prop :=
  ∀ g, g < c.groups.length → c.count_sums[g]? = some ((c.group g).total m % count_mod)

/-- The classifier states reachable from `classifier_init` by calls of
`classifier_add_group`, `classifier_remove_group` (with `groupid < G`, so on a non-empty
classifier), `classifier_lazy_add_value` (with `groupid < G` and a value in `[0, dim)`) and
`classifier_refresh` that return; group counts are `size_t` values, `fast_log` and the
logarithm of `vector_log` are the real logarithm.  `classifier_add_value` and
`classifier_remove_value` are not among the calls: they cannot be instantiated, so no state
is reached through them. -/
inductive Reachable (m : DirichletDiscrete ℝ) : Classifier ℝ → Prop where
  | init (c0 : Classifier ℝ) (group_count : Nat) (t : Classifier ℝ) :
      c0.WF m → group_count < size_mod → classifier_init m c0 group_count = some t →
      Reachable m t
  | add_group (c t : Classifier ℝ) :
      Reachable m c → c.groups.length + 1 < size_mod → classifier_add_group m c = some t →
      Reachable m t
  | remove_group (c : Classifier ℝ) (groupid : Nat) (t : Classifier ℝ) :
      Reachable m c → groupid < c.groups.length →
      classifier_remove_group m c groupid = some t → Reachable m t
  | lazy_add_value (c : Classifier ℝ) (groupid value : Nat) (t : Classifier ℝ) :
      Reachable m c → groupid < c.groups.length → value < m.ndim →
      classifier_lazy_add_value m c groupid (value : ℤ) = .done t → Reachable m t
  | refresh (c t : Classifier ℝ) :
      Reachable m c → classifier_refresh Real.log m c = some t → Reachable m t

/-- The object after a call: as returned, or as the failed assertion left it; nothing when
the call reached an access outside an array. -/
def Run.state? {σ : Type} : Run σ → Option σ
  | .done s => some s
  | .fault _ s => some s
  | .undefined => none

/-- A call of one of the mutating operations of the classifier. -/
inductive Op where
  | init (group_count : Nat)
  | lazy_add_value (groupid : Nat) (value : Int)
  | refresh
  | add_group
  | remove_group (groupid : Nat)
  | add_value (groupid : Nat) (value : Int)
  | remove_value (groupid : Nat) (value : Int)
deriving DecidableEq, Repr

/-- Whether the call is `classifier_init` or `classifier_refresh`. -/
def Op.resets : Op → Bool
  | .init _ => true
  | .refresh => true
  | _ => false

/-- The classifier after the call `op` (`fast_log` and the logarithm of `vector_log` are
the parameter `log`). -/
def Op.call (log : ℝ → ℝ) (m : DirichletDiscrete ℝ) (c : Classifier ℝ) :
    Op → Option (Classifier ℝ)
  | .init group_count => classifier_init m c group_count
  | .lazy_add_value groupid value => (classifier_lazy_add_value m c groupid value).state?
  | .refresh => classifier_refresh log m c
  | .add_group => classifier_add_group m c
  | .remove_group groupid => classifier_remove_group m c groupid
  | .add_value groupid value => (classifier_add_value log m c groupid value).state?
  | .remove_value groupid value => (classifier_remove_value log m c groupid value).state?

/-- The classifier after a sequence of calls. -/
def calls (log : ℝ → ℝ) (m : DirichletDiscrete ℝ) (c : Classifier ℝ) :
    List Op → Option (Classifier ℝ)
  | [] => some c
  | op :: ops => (op.call log m c).bind (fun t => calls log m t ops)

end Reading

section Examples

/-- A model with one category: `dim = 1`, `alphas = [1]`. -/
def unit_model : DirichletDiscrete ℝ :=
  ⟨1, 1, [1]⟩

/-- A classifier of `unit_model` with one empty group; since `log 1 = 0` its caches are
consistent with its counts. -/
def unit_classifier : Classifier ℝ :=
  ⟨1, [⟨[0]⟩], [0], [[0]], [0], false⟩

/-- A model with one category and `alphas = [2]`. -/
def double_model : DirichletDiscrete ℝ :=
  ⟨1, 1, [2]⟩

/-- A classifier of a one-category model with no groups, as the default constructor of
`Classifier` leaves it; `stale` is the content of `is_stale`. -/
def empty_classifier (alpha_sum : ℝ) (stale : Bool) : Classifier ℝ :=
  ⟨alpha_sum, [], [], [[]], [], stale⟩

/-- A model with two categories: `dim = 2`, `alphas = [1, 1]`. -/
def pair_model : DirichletDiscrete ℝ :=
  ⟨2, 2, [1, 1]⟩

/-- A classifier of `pair_model` whose single group holds `2 ^ 32 - 1` observations of
category 0 and `k` of category 1, with the caches that `log` gives for these counts when
`count_sums[0]` is `s`. -/
def full_classifier (log : ℝ → ℝ) (k s : Nat) : Classifier ℝ :=
  ⟨2, [⟨[4294967295, k]⟩], [s], [[log (1 + 4294967295)], [log (1 + (Nat.cast k : ℝ))]],
    [log (2 + (Nat.cast s : ℝ))], false⟩

/-- The classifier of `pair_model` with one group after `classifier_init(1)` and calls of
`classifier_lazy_add_value` that leave the counts `[n, k]`: the tables are as
`classifier_init` left them and the classifier is stale. -/
def tallied_classifier (n k : Nat) : Classifier ℝ :=
  ⟨0 + 1 + 1, [⟨[n, k]⟩], [0], [[0], [0]], [0], true⟩

/-- A Fresh classifier of `pair_model` with one group that holds one observation of
category 0, with the caches that `log` gives for these counts. -/
def single_classifier (log : ℝ → ℝ) : Classifier ℝ :=
  ⟨2, [⟨[1, 0]⟩], [1], [[log (1 + 1)], [log (1 + 0)]], [log (2 + 1)], false⟩

/-- The model of the spec's scenario: `dim = 3`, `alphas = [1, 1, 1]`. -/
def triple_model : DirichletDiscrete ℝ :=
  ⟨3, 3, [1, 1, 1]⟩

end Examples


section Lemmas

variable {α σ : Type}

theorem for_loop_inv (P : Nat → σ → Prop) (n : Nat) (body : Nat → σ → Option σ) (s : σ)
    (h0 : P 0 s)
    (hstep : ∀ k t, k < n → P k t → ∃ t', body k t = some t' ∧ P (k + 1) t') :
    ∃ t, for_loop n body s = some t ∧ P n t := by
  induction n with
  | zero => exact ⟨s, rfl, h0⟩
  | succ n ih =>
    obtain ⟨t, ht, hP⟩ := ih (fun k t hk => hstep k t (Nat.lt_succ_of_lt hk))
    obtain ⟨t', ht', hP'⟩ := hstep n t (Nat.lt_succ_self n) hP
    exact ⟨t', by simp [for_loop, ht, ht'], hP'⟩

theorem store?_some {xs : List α} {i : Nat} (a : α) (h : i < xs.length) :
    store? xs i a = some (xs.set i a) := by
  simp [store?, h]

theorem length_resize (xs : List α) (n : Nat) (fill : α) : (resize xs n fill).length = n := by
  simp [resize]; omega

theorem getElem?_resize (xs : List α) (n : Nat) (fill : α) (i : Nat) :
    (resize xs n fill)[i]? =
      if i < n then (if i < xs.length then xs[i]? else some fill) else none := by
  simp only [resize, List.getElem?_append, List.length_take, List.getElem?_take,
    List.getElem?_replicate]
  split_ifs <;> first | rfl | omega

theorem resize_self (xs : List α) (fill : α) : resize xs xs.length fill = xs := by
  simp [resize]

theorem getElem?_of_lt {xs : List α} {i : Nat} (h : i < xs.length) (d : α) :
    xs[i]? = some (xs.getD i d) := by
  simp [List.getElem?_eq_getElem h]

end Lemmas

section Refresh

variable (log : ℝ → ℝ) (m : DirichletDiscrete ℝ)

theorem refresh_resize_loop (c1 : Classifier ℝ) (G : Nat)
    (hα : m.ndim ≤ m.alphas.length) (hsc : m.ndim ≤ c1.scores.length) :
    ∃ t, for_loop m.ndim (refresh_resize_body m G) { c1 with alpha_sum := 0 } = some t ∧
      (t.groups = c1.groups ∧ t.count_sums = c1.count_sums ∧
        t.scores_shift = c1.scores_shift ∧ t.is_stale = c1.is_stale ∧
        t.alpha_sum = m.alpha_total ∧
        t.scores.length = c1.scores.length ∧
        (∀ v, v < m.ndim → ∃ row, t.scores[v]? = some row ∧ row.length = G) ∧
        (∀ v, m.ndim ≤ v → t.scores[v]? = c1.scores[v]?)) := by
  have := for_loop_inv
    (fun k (t : Classifier ℝ) => t.groups = c1.groups ∧ t.count_sums = c1.count_sums ∧
        t.scores_shift = c1.scores_shift ∧ t.is_stale = c1.is_stale ∧
        t.alpha_sum = ∑ v in Finset.range k, m.alphas.getD v 0 ∧
        t.scores.length = c1.scores.length ∧
        (∀ v, v < k → ∃ row, t.scores[v]? = some row ∧ row.length = G) ∧
        (∀ v, k ≤ v → t.scores[v]? = c1.scores[v]?))
    m.ndim (refresh_resize_body m G) { c1 with alpha_sum := 0 }
    (by simp)
    (by
      rintro k t hk ⟨h1, h2, h3, h4, h5, h6, h7, h8⟩
      have hka : k < m.alphas.length := by omega
      have hks : k < c1.scores.length := by omega
      have hrow : t.scores[k]? = some c1.scores[k] := by
        rw [h8 k le_rfl, List.getElem?_eq_getElem hks]
      refine ⟨{ t with alpha_sum := t.alpha_sum + m.alphas[k],
                       scores := t.scores.set k (resize c1.scores[k] G 0) },
        by simp [refresh_resize_body, List.getElem?_eq_getElem hka, hrow, store?_some, h6, hks],
        ?_⟩
      refine ⟨h1, h2, h3, h4, ?_, by simpa using h6, ?_, ?_⟩
      · simp [Finset.sum_range_succ, h5, List.getElem?_eq_getElem hka]
      · intro v hv
        by_cases hvk : v = k
        · subst hvk
          exact ⟨resize c1.scores[v] G 0, by simp [List.getElem?_set, h6, hks],
            length_resize _ _ _⟩
        · obtain ⟨row, hr, hl⟩ := h7 v (by omega)
          exact ⟨row, by simp [List.getElem?_set, Ne.symm hvk, hr], hl⟩
      · intro v hv
        have : k ≠ v := by omega
        simp [List.getElem?_set, this, h8 v (by omega)])
  simpa [DirichletDiscrete.alpha_total] using this

theorem refresh_value_loop (group : Group) (gid : Nat) (t0 : Classifier ℝ)
    (hα : m.ndim ≤ m.alphas.length) (hg : m.ndim ≤ group.counts.length)
    (hrows : ∀ v, v < m.ndim → ∃ row, t0.scores[v]? = some row ∧ gid < row.length) :
    ∃ st, for_loop m.ndim (refresh_value_body m group gid) (0, t0) = some st ∧
      (st.1 = group.total m % count_mod ∧
        st.2.groups = t0.groups ∧ st.2.count_sums = t0.count_sums ∧
        st.2.scores_shift = t0.scores_shift ∧ st.2.is_stale = t0.is_stale ∧
        st.2.alpha_sum = t0.alpha_sum ∧
        st.2.scores.length = t0.scores.length ∧
        (∀ v, v < m.ndim → ∃ row, t0.scores[v]? = some row ∧ gid < row.length ∧
          st.2.scores[v]? = some (row.set gid (m.alpha v + (group.count v : ℕ)))) ∧
        (∀ v, m.ndim ≤ v → st.2.scores[v]? = t0.scores[v]?)) := by
  have := for_loop_inv
    (fun k (st : Nat × Classifier ℝ) =>
        st.1 = (∑ v in Finset.range k, group.count v) % count_mod ∧
        st.2.groups = t0.groups ∧ st.2.count_sums = t0.count_sums ∧
        st.2.scores_shift = t0.scores_shift ∧ st.2.is_stale = t0.is_stale ∧
        st.2.alpha_sum = t0.alpha_sum ∧
        st.2.scores.length = t0.scores.length ∧
        (∀ v, v < k → ∃ row, t0.scores[v]? = some row ∧ gid < row.length ∧
          st.2.scores[v]? = some (row.set gid (m.alpha v + (group.count v : ℕ)))) ∧
        (∀ v, k ≤ v → st.2.scores[v]? = t0.scores[v]?))
    m.ndim (refresh_value_body m group gid) (0, t0)
    (by simp)
    (by
      rintro k ⟨cs, t⟩ hk ⟨h0, h1, h2, h3, h4, h5, h6, h7, h8⟩
      simp only at h0 h1 h2 h3 h4 h5 h6 h7 h8
      have hka : k < m.alphas.length := by omega
      have hkg : k < group.counts.length := by omega
      obtain ⟨row, hrow, hlen⟩ := hrows k hk
      have hks : k < t0.scores.length := by
        rw [List.getElem?_eq_some] at hrow
        exact hrow.1
      have hrow2 : t.scores[k]? = some row := by rw [h8 k le_rfl, hrow]
      refine ⟨((cs + group.counts[k]) % count_mod,
          { t with scores := t.scores.set k (row.set gid (m.alphas[k] + (group.counts[k] : ℕ))) }),
        by simp [refresh_value_body, List.getElem?_eq_getElem hka, List.getElem?_eq_getElem hkg,
            hrow2, store?_some, h6, hks, hlen],
        ?_⟩
      refine ⟨?_, h1, h2, h3, h4, h5, by simpa using h6, ?_, ?_⟩
      · simp [Finset.sum_range_succ, h0, Group.count, List.getElem?_eq_getElem hkg,
          Nat.add_mod]
      · intro v hv
        by_cases hvk : v = k
        · subst hvk
          exact ⟨row, hrow, hlen, by
            simp [List.getElem?_set, h6, hks, DirichletDiscrete.alpha, Group.count,
              List.getElem?_eq_getElem hka, List.getElem?_eq_getElem hkg]⟩
        · obtain ⟨r, hr, hl, hs⟩ := h7 v (by omega)
          exact ⟨r, hr, hl, by simp [List.getElem?_set, Ne.symm hvk, hs]⟩
      · intro v hv
        have : k ≠ v := by omega
        simp [List.getElem?_set, this, h8 v (by omega)])
  simpa [Group.total] using this


theorem rows_loop (body : Nat → Classifier ℝ → Option (Classifier ℝ))
    (f : List ℝ → Option (List ℝ))
    (hbody : ∀ v (c : Classifier ℝ) row row', c.scores[v]? = some row → f row = some row' →
      body v c = some { c with scores := c.scores.set v row' })
    (n : Nat) (t0 : Classifier ℝ)
    (hrows : ∀ v, v < n → ∃ row row', t0.scores[v]? = some row ∧ f row = some row') :
    ∃ t, for_loop n body t0 = some t ∧
      (t.groups = t0.groups ∧ t.count_sums = t0.count_sums ∧
        t.scores_shift = t0.scores_shift ∧ t.is_stale = t0.is_stale ∧
        t.alpha_sum = t0.alpha_sum ∧
        t.scores.length = t0.scores.length ∧
        (∀ v, v < n → ∃ row row', t0.scores[v]? = some row ∧ f row = some row' ∧
          t.scores[v]? = some row') ∧
        (∀ v, n ≤ v → t.scores[v]? = t0.scores[v]?)) := by
  refine for_loop_inv
    (fun k (t : Classifier ℝ) => t.groups = t0.groups ∧ t.count_sums = t0.count_sums ∧
        t.scores_shift = t0.scores_shift ∧ t.is_stale = t0.is_stale ∧
        t.alpha_sum = t0.alpha_sum ∧
        t.scores.length = t0.scores.length ∧
        (∀ v, v < k → ∃ row row', t0.scores[v]? = some row ∧ f row = some row' ∧
          t.scores[v]? = some row') ∧
        (∀ v, k ≤ v → t.scores[v]? = t0.scores[v]?))
    n body t0 (by simp) ?_
  rintro k t hk ⟨h1, h2, h3, h4, h5, h6, h7, h8⟩
  obtain ⟨row, row', hrow, hf⟩ := hrows k hk
  have hks : k < t0.scores.length := by
    rw [List.getElem?_eq_some] at hrow
    exact hrow.1
  refine ⟨_, hbody k t row row' (by rw [h8 k le_rfl, hrow]) hf, ?_⟩
  refine ⟨h1, h2, h3, h4, h5, by simpa using h6, ?_, ?_⟩
  · intro v hv
    by_cases hvk : v = k
    · subst hvk
      exact ⟨row, row', hrow, hf, by simp [List.getElem?_set, h6, hks]⟩
    · obtain ⟨r, r', hr, hl, hs⟩ := h7 v (by omega)
      exact ⟨r, r', hr, hl, by simp [List.getElem?_set, Ne.symm hvk, hs]⟩
  · intro v hv
    have : k ≠ v := by omega
    simp [List.getElem?_set, this, h8 v (by omega)]

theorem vector_log_full (xs : List ℝ) (n : Nat) (h : xs.length = n) :
    vector_log log n xs = some (xs.map log) := by
  subst h
  simp [vector_log]

theorem refresh_log_body_eq (G : Nat) (v : Nat) (c : Classifier ℝ) (row row' : List ℝ)
    (h : c.scores[v]? = some row) (hf : vector_log log G row = some row') :
    refresh_log_body log G v c = some { c with scores := c.scores.set v row' } := by
  have hv : v < c.scores.length := by
    rw [List.getElem?_eq_some] at h
    exact h.1
  simp [refresh_log_body, h, hf, store?_some, hv]

theorem resize_scores_body_eq (G : Nat) (v : Nat) (c : Classifier ℝ) (row row' : List ℝ)
    (h : c.scores[v]? = some row) (hf : some (resize row G 0) = some row') :
    resize_scores_body G v c = some { c with scores := c.scores.set v row' } := by
  have hv : v < c.scores.length := by
    rw [List.getElem?_eq_some] at h
    exact h.1
  cases hf
  simp [resize_scores_body, h, store?_some, hv]

theorem remove_move_body_eq (gid : Nat) (v : Nat) (c : Classifier ℝ) (row row' : List ℝ)
    (h : c.scores[v]? = some row)
    (hf : (row.getLast?).bind (fun last => store? row gid last) = some row') :
    remove_move_body gid v c = some { c with scores := c.scores.set v row' } := by
  have hv : v < c.scores.length := by
    rw [List.getElem?_eq_some] at h
    exact h.1
  cases hl : row.getLast? with
  | none => simp [hl] at hf
  | some last =>
    simp only [hl, Option.some_bind] at hf
    simp [remove_move_body, h, hl, hf, store?_some, hv]

theorem refresh_group_loop (t1 : Classifier ℝ)
    (hα : m.ndim ≤ m.alphas.length)
    (hg : ∀ group ∈ t1.groups, m.ndim ≤ group.counts.length)
    (hcs : t1.groups.length ≤ t1.count_sums.length)
    (hsh : t1.scores_shift.length = t1.groups.length)
    (hrows : ∀ v, v < m.ndim → ∃ row, t1.scores[v]? = some row ∧ row.length = t1.groups.length) :
    ∃ t, for_loop t1.groups.length (refresh_group_body m) t1 = some t ∧
      (t.groups = t1.groups ∧ t.is_stale = t1.is_stale ∧ t.alpha_sum = t1.alpha_sum ∧
        t.count_sums.length = t1.count_sums.length ∧
        (∀ g, g < t1.groups.length →
          t.count_sums[g]? = some ((t1.group g).total m % count_mod)) ∧
        (∀ g, t1.groups.length ≤ g → t.count_sums[g]? = t1.count_sums[g]?) ∧
        t.scores_shift.length = t1.groups.length ∧
        (∀ g, g < t1.groups.length → t.scores_shift[g]? =
          some (t1.alpha_sum + (((t1.group g).total m % count_mod : ℕ) : ℝ))) ∧
        t.scores.length = t1.scores.length ∧
        (∀ v, v < m.ndim → ∃ row, t.scores[v]? = some row ∧ row.length = t1.groups.length ∧
          ∀ g, g < t1.groups.length →
            row[g]? = some (m.alpha v + (((t1.group g).count v : ℕ) : ℝ))) ∧
        (∀ v, m.ndim ≤ v → t.scores[v]? = t1.scores[v]?)) := by
  have := for_loop_inv
    (fun k (t : Classifier ℝ) =>
      t.groups = t1.groups ∧ t.is_stale = t1.is_stale ∧ t.alpha_sum = t1.alpha_sum ∧
        t.count_sums.length = t1.count_sums.length ∧
        (∀ g, g < k → t.count_sums[g]? = some ((t1.group g).total m % count_mod)) ∧
        (∀ g, k ≤ g → t.count_sums[g]? = t1.count_sums[g]?) ∧
        t.scores_shift.length = t1.groups.length ∧
        (∀ g, g < k → t.scores_shift[g]? =
          some (t1.alpha_sum + (((t1.group g).total m % count_mod : ℕ) : ℝ))) ∧
        t.scores.length = t1.scores.length ∧
        (∀ v, v < m.ndim → ∃ row, t.scores[v]? = some row ∧ row.length = t1.groups.length ∧
          ∀ g, g < k → row[g]? = some (m.alpha v + (((t1.group g).count v : ℕ) : ℝ))) ∧
        (∀ v, m.ndim ≤ v → t.scores[v]? = t1.scores[v]?))
    t1.groups.length (refresh_group_body m) t1
    (by
      refine ⟨rfl, rfl, rfl, rfl, by simp, by simp, hsh, by simp, rfl, ?_, by simp⟩
      intro v hv
      obtain ⟨row, hr, hl⟩ := hrows v hv
      exact ⟨row, hr, hl, by simp⟩)
    (by
      rintro k t hk ⟨h1, h2, h3, h4, h5, h6, h7, h8, h9, h10, h11⟩
      have hgk : t.groups[k]? = some (t1.group k) := by
        rw [h1]
        simp [Classifier.group, List.getElem?_eq_getElem hk]
      have hmem : t1.group k ∈ t1.groups := by
        simp only [Classifier.group, List.getD_eq_getElem _ _ hk]
        exact List.getElem_mem _
      obtain ⟨st, hst, s0, s1, s2, s3, s4, s5, s6, s7, s8⟩ :=
        refresh_value_loop m (t1.group k) k t hα (hg _ hmem)
          (fun v hv => by
            obtain ⟨row, hr, hl, _⟩ := h10 v hv
            exact ⟨row, hr, by omega⟩)
      refine ⟨{ st.2 with count_sums := st.2.count_sums.set k st.1,
                          scores_shift := st.2.scores_shift.set k (st.2.alpha_sum + (st.1 : ℝ)) },
        by
          have e1 : k < st.2.count_sums.length := by rw [s2, h4]; omega
          have e2 : k < st.2.scores_shift.length := by rw [s3, h7]; omega
          simp [refresh_group_body, hgk, hst, store?_some, e1, e2], ?_⟩
      refine ⟨by simp [s1, h1], by simp [s4, h2], by simp [s5, h3], by simp [s2, h4], ?_, ?_,
        by simp [s3, h7], ?_, by simp [s6, h9], ?_, ?_⟩
      · intro g hgl
        by_cases hgk' : g = k
        · subst hgk'
          simp [List.getElem?_set, s2, h4, s0]
          omega
        · simp [List.getElem?_set, Ne.symm hgk', s2, h5 g (by omega)]
      · intro g hgl
        have : k ≠ g := by omega
        simp [List.getElem?_set, this, s2, h6 g (by omega)]
      · intro g hgl
        by_cases hgk' : g = k
        · subst hgk'
          simp [List.getElem?_set, s3, h7, s0, s5, h3, hk]
        · simp [List.getElem?_set, Ne.symm hgk', s3, h8 g (by omega)]
      · intro v hv
        obtain ⟨row, hr, hl, hs⟩ := s7 v hv
        obtain ⟨row2, hr2, hl2, hs2⟩ := h10 v hv
        have : row2 = row := by
          rw [hr] at hr2
          exact (Option.some.inj hr2).symm
        subst this
        refine ⟨_, hs, by simpa using hl2, ?_⟩
        intro g hgl
        by_cases hgk' : g = k
        · subst hgk'
          simp [List.getElem?_set, hl]
        · simp [List.getElem?_set, Ne.symm hgk', hs2 g (by omega)]
      · intro v hv
        rw [s8 v hv, h11 v hv])
  exact this


theorem refresh_spec (c : Classifier ℝ)
    (hα : m.ndim ≤ m.alphas.length) (hsc : m.ndim ≤ c.scores.length)
    (hg : ∀ group ∈ c.groups, m.ndim ≤ group.counts.length)
    (hcs : c.groups.length ≤ c.count_sums.length) :
    ∃ t, classifier_refresh log m c = some t ∧ t.is_stale = false ∧ Refreshed log m c t := by
  obtain ⟨t1, ht1, a1, a2, a3, a4, a5, a6, a7, a8⟩ :=
    refresh_resize_loop m { c with scores_shift := resize c.scores_shift c.groups.length 0 }
      c.groups.length hα hsc
  simp only at ht1 a1 a2 a3 a4 a5 a6 a7 a8
  obtain ⟨t2, ht2, b1, b2, b3, b4, b5, b6, b7, b8, b9, b10, b11⟩ :=
    refresh_group_loop m t1 hα (by rw [a1]; exact hg) (by rw [a1, a2]; exact hcs)
      (by rw [a3, a1]; exact length_resize _ _ _) (by rw [a1]; exact a7)
  rw [a1] at ht2 b5 b6 b7 b8 b10
  obtain ⟨t3, ht3, c1, c2, c3, c4, c5, c6, c7, c8⟩ :=
    rows_loop (refresh_log_body log c.groups.length) (vector_log log c.groups.length)
      (refresh_log_body_eq log c.groups.length) m.ndim
      { t2 with scores_shift := t2.scores_shift.map log }
      (fun v hv => by
        obtain ⟨row, hr, hl, _⟩ := b10 v hv
        exact ⟨row, row.map log, hr, vector_log_full log row _ hl⟩)
  simp only at c1 c2 c3 c4 c5 c6 c7 c8
  refine ⟨{ t3 with is_stale := false }, ?_, rfl, ?_⟩
  · simp [classifier_refresh, ht1, ht2, vector_log_full log t2.scores_shift _ b7, ht3]
  · refine ⟨by simp [c1, b1, a1], by simp [c5, b3, a5], by simp [c2, b4, a2], ?_, ?_,
      by simp [c3, b7], ?_, by simp [c6, b9, a6], ?_, ?_⟩
    · intro g hgl
      simp [c2, b5 g hgl, Classifier.group, a1]
    · intro g hgl
      simp [c2, b6 g hgl, a2]
    · intro g hgl
      simp [c3, b8 g hgl, Classifier.group, a1, a5]
    · intro v hv
      obtain ⟨row, hr, hl, hs⟩ := b10 v hv
      obtain ⟨r, r', hr', hf, hs'⟩ := c7 v hv
      rw [hr] at hr'
      cases hr'
      rw [vector_log_full log row _ hl] at hf
      cases hf
      refine ⟨_, hs', by simpa using hl, ?_⟩
      intro g hgl
      simp [hs g hgl, Classifier.group, a1]
    · intro v hv
      simp [c8 v hv, b11 v hv, a8 v hv]


end Refresh

section Operations

variable (log : ℝ → ℝ) (m : DirichletDiscrete ℝ) (c : Classifier ℝ)

theorem ndim_lt_iff (v : Nat) : (v : ℤ) < m.dim ↔ v < m.ndim := by
  unfold DirichletDiscrete.ndim
  omega

theorem ndim_le_max_dim (hm : m.WF) : m.ndim ≤ m.max_dim := by
  have := hm.1
  unfold DirichletDiscrete.ndim
  omega

theorem ndim_le_alphas (hm : m.WF) : m.ndim ≤ m.alphas.length := by
  rw [hm.2]
  exact ndim_le_max_dim m hm

theorem ndim_le_scores (hm : m.WF) (hc : c.WF m) : m.ndim ≤ c.scores.length := by
  rw [hc.1]
  exact ndim_le_max_dim m hm

theorem ndim_le_counts (hm : m.WF) (hc : c.WF m) :
    ∀ group ∈ c.groups, m.ndim ≤ group.counts.length := by
  intro group hgm
  rw [(hc.2.1 group hgm).1]
  exact ndim_le_max_dim m hm

theorem group_mem (g : Nat) (hg : g < c.groups.length) : c.group g ∈ c.groups := by
  simp only [Classifier.group, List.getD_eq_getElem _ _ hg]
  exact List.getElem_mem _

theorem groups_getElem? (g : Nat) (hg : g < c.groups.length) :
    c.groups[g]? = some (c.group g) := by
  simp [Classifier.group, List.getElem?_eq_getElem hg]

theorem group_add_value_eq (group : Group) (v : Nat) (hv : v < m.ndim)
    (h1 : v < group.counts.length) :
    group_add_value m group (v : ℤ) =
      .done ⟨group.counts.set v ((group.count v + 1) % count_mod)⟩ := by
  have hv' : (v : ℤ) < m.dim := (ndim_lt_iff m v).2 hv
  simp [group_add_value, DIST_ASSERT1, hv', index?, storeI?, store?, h1, Run.ofOption,
    Group.count, List.getElem?_eq_getElem h1]

theorem group_remove_value_eq (group : Group) (v : Nat) (hv : v < m.ndim)
    (h1 : v < group.counts.length) :
    group_remove_value m group (v : ℤ) =
      .done ⟨group.counts.set v ((group.count v + count_mod - 1) % count_mod)⟩ := by
  have hv' : (v : ℤ) < m.dim := (ndim_lt_iff m v).2 hv
  simp [group_remove_value, DIST_ASSERT1, hv', index?, storeI?, store?, h1, Run.ofOption,
    Group.count, List.getElem?_eq_getElem h1]

theorem classifier_lazy_add_value_eq (gid v : Nat) (hg : gid < c.groups.length)
    (hv : v < m.ndim) (h1 : v < (c.group gid).counts.length) :
    classifier_lazy_add_value m c gid (v : ℤ) =
      .done { c.poke gid v (((c.group gid).count v + 1) % count_mod) with is_stale := true } := by
  have hv' : (v : ℤ) < m.dim := (ndim_lt_iff m v).2 hv
  simp [classifier_lazy_add_value, DIST_ASSERT1, hg, hv', groups_getElem? c gid hg,
    group_add_value_eq m (c.group gid) v hv h1, Classifier.poke]


theorem add_value_not_done (gid : Nat) (value : ℤ) (t : Classifier ℝ) :
    classifier_add_value log m c gid value ≠ .done t := by
  unfold classifier_add_value DIST_ASSERT1
  split_ifs
  · simp only [Run.ofOption]
    split
    · rename_i s hs
      simp [Option.bind_eq_some, Classifier.count_sum] at hs
    · simp
  · simp
  · simp

theorem remove_value_not_done (gid : Nat) (value : ℤ) (t : Classifier ℝ) :
    classifier_remove_value log m c gid value ≠ .done t := by
  unfold classifier_remove_value DIST_ASSERT1
  split_ifs
  · simp only [Run.ofOption]
    split
    · rename_i s hs
      simp [Option.bind_eq_some, Classifier.count_sum] at hs
    · simp
  · simp
  · simp

theorem add_value_undefined (gid : Nat) (value : ℤ) (hg : gid < c.groups.length)
    (hv : value < m.dim) : classifier_add_value log m c gid value = .undefined := by
  unfold classifier_add_value DIST_ASSERT1
  rw [if_pos (by simpa using hg), if_pos (by simpa using hv)]
  simp only [Run.ofOption]
  split
  · rename_i s hs
    simp [Option.bind_eq_some, Classifier.count_sum] at hs
  · rfl

theorem remove_value_undefined (gid : Nat) (value : ℤ) (hg : gid < c.groups.length)
    (hv : value < m.dim) : classifier_remove_value log m c gid value = .undefined := by
  unfold classifier_remove_value DIST_ASSERT1
  rw [if_pos (by simpa using hg), if_pos (by simpa using hv)]
  simp only [Run.ofOption]
  split
  · rename_i s hs
    simp [Option.bind_eq_some, Classifier.count_sum] at hs
  · rfl

theorem getD_set_counts (counts : List Nat) (v w x : Nat) (hv : v < counts.length) :
    (counts.set v x).getD w 0 = if w = v then x else counts.getD w 0 := by
  simp only [List.getD_eq_getElem?_getD, List.getElem?_set]
  by_cases h : v = w
  · subst h
    simp [hv]
  · simp [h, Ne.symm h]

theorem total_set (counts : List Nat) (v x : Nat) (hv : v < m.ndim)
    (h1 : v < counts.length) :
    Group.total m ⟨counts.set v x⟩ + counts.getD v 0 = Group.total m ⟨counts⟩ + x := by
  unfold Group.total Group.count
  have hmem : v ∈ Finset.range m.ndim := Finset.mem_range.2 hv
  rw [← Finset.add_sum_erase _ _ hmem, ← Finset.add_sum_erase (Finset.range m.ndim) _ hmem]
  have : ∑ w in (Finset.range m.ndim).erase v, (counts.set v x).getD w 0 =
      ∑ w in (Finset.range m.ndim).erase v, counts.getD w 0 := by
    apply Finset.sum_congr rfl
    intro w hw
    rw [getD_set_counts counts v w x h1, if_neg (Finset.ne_of_mem_erase hw)]
  simp only [this, getD_set_counts counts v v x h1, if_true]
  omega

theorem poke_group (gid v x g : Nat) (hg : gid < c.groups.length) :
    (c.poke gid v x).group g =
      if g = gid then ⟨(c.group gid).counts.set v x⟩ else c.group g := by
  simp only [Classifier.poke, Classifier.group, List.getD_eq_getElem?_getD, List.getElem?_set]
  by_cases h : gid = g
  · subst h
    simp [hg]
  · simp [h, Ne.symm h]

theorem unit_model_wf : unit_model.WF := by
  simp [unit_model, DirichletDiscrete.WF]

theorem unit_classifier_wf : unit_classifier.WF unit_model := by
  simp [unit_classifier, unit_model, Classifier.WF, Group.WF, count_mod]

theorem unit_classifier_parallel : unit_classifier.Parallel unit_model 1 := by
  refine ⟨rfl, rfl, rfl, ?_⟩
  intro v hv
  have : v = 0 := by
    simp [unit_model, DirichletDiscrete.ndim] at hv
    exact hv
  subst this
  exact ⟨[0], rfl, rfl⟩

theorem unit_classifier_inv : unit_classifier.CacheInv Real.log unit_model := by
  refine ⟨?_, ?_, ?_, ?_⟩
  · simp [unit_classifier, unit_model, DirichletDiscrete.alpha_total, DirichletDiscrete.ndim]
  · intro g hg
    have : g = 0 := by simpa [unit_classifier] using hg
    subst this
    simp [unit_classifier, unit_model, Classifier.group, Group.total, Group.count,
      DirichletDiscrete.ndim]
  · intro v g hv hg
    have hg0 : g = 0 := by simpa [unit_classifier] using hg
    have hv0 : v = 0 := by simpa [unit_model, DirichletDiscrete.ndim] using hv
    subst hg0 hv0
    simp [unit_classifier, unit_model, Classifier.group, Classifier.score?, Group.count,
      DirichletDiscrete.alpha]
  · intro g hg
    have : g = 0 := by simpa [unit_classifier] using hg
    subst this
    simp [unit_classifier]

theorem pair_model_wf : pair_model.WF := by
  simp [pair_model, DirichletDiscrete.WF]

theorem full_classifier_wf (log : ℝ → ℝ) (k s : Nat) (hk : k < count_mod)
    (hs : s < count_mod) : (full_classifier log k s).WF pair_model := by
  simp [full_classifier, pair_model, Classifier.WF, Group.WF, count_mod] at *
  omega

theorem full_classifier_parallel (log : ℝ → ℝ) (k s : Nat) :
    (full_classifier log k s).Parallel pair_model 1 := by
  refine ⟨rfl, rfl, rfl, ?_⟩
  intro v hv
  have : v = 0 ∨ v = 1 := by
    simp [pair_model, DirichletDiscrete.ndim] at hv
    omega
  rcases this with rfl | rfl
  · exact ⟨_, rfl, rfl⟩
  · exact ⟨_, rfl, rfl⟩

theorem full_classifier_total (log : ℝ → ℝ) (k s : Nat) :
    ((full_classifier log k s).group 0).total pair_model = 4294967295 + k := by
  simp [full_classifier, pair_model, Classifier.group, Group.total, Group.count,
    DirichletDiscrete.ndim, Finset.sum_range_succ]


theorem mem_set_groups {groups : List Group} {gid : Nat} {g group : Group}
    (h : group ∈ groups.set gid g) : group ∈ groups ∨ group = g :=
  List.mem_or_eq_of_mem_set h

theorem count_sums_getD (log : ℝ → ℝ) (hinv : c.CacheInv log m) (g : Nat)
    (hg : g < c.groups.length) : c.count_sums.getD g 0 = (c.group g).total m := by
  simp [List.getD_eq_getElem?_getD, hinv.count_sums g hg]

theorem count_le_total (group : Group) (v : Nat) (hv : v < m.ndim) :
    group.count v ≤ group.total m := by
  unfold Group.total
  exact Finset.single_le_sum (f := fun w => group.count w) (fun _ _ => Nat.zero_le _)
    (Finset.mem_range.2 hv)

theorem scorer_init_spec (uninit : Scorer ℝ) (group : Group)
    (hα : m.ndim ≤ m.alphas.length) (hg : m.ndim ≤ group.counts.length)
    (hu : m.ndim ≤ uninit.alphas.length) :
    ∃ scorer, scorer_init m uninit group = some scorer ∧
      scorer.alpha_sum = ∑ w in Finset.range m.ndim, (m.alpha w + ((group.count w : ℕ) : ℝ)) ∧
      ∀ w, w < m.ndim → scorer.alphas[w]? = some (m.alpha w + ((group.count w : ℕ) : ℝ)) := by
  obtain ⟨st, hst, h0, h1, h2⟩ := for_loop_inv
    (fun k (st : ℝ × Scorer ℝ) =>
      st.1 = ∑ w in Finset.range k, (m.alpha w + ((group.count w : ℕ) : ℝ)) ∧
      st.2.alphas.length = uninit.alphas.length ∧
      ∀ w, w < k → st.2.alphas[w]? = some (m.alpha w + ((group.count w : ℕ) : ℝ)))
    m.ndim (scorer_init_body m group) (0, uninit)
    (by simp)
    (by
      rintro k ⟨a, sc⟩ hk ⟨h0, h1, h2⟩
      simp only at h0 h1 h2
      have hka : k < m.alphas.length := by omega
      have hkg : k < group.counts.length := by omega
      have hks : k < sc.alphas.length := by omega
      refine ⟨(a + (m.alphas[k] + (group.counts[k] : ℕ)),
          { sc with alphas := sc.alphas.set k (m.alphas[k] + (group.counts[k] : ℕ)) }),
        by simp [scorer_init_body, List.getElem?_eq_getElem hka, List.getElem?_eq_getElem hkg,
            store?_some, hks], ?_⟩
      refine ⟨?_, by simpa using h1, ?_⟩
      · simp [Finset.sum_range_succ, h0, DirichletDiscrete.alpha, Group.count,
          List.getElem?_eq_getElem hka, List.getElem?_eq_getElem hkg]
      · intro w hw
        by_cases hwk : w = k
        · subst hwk
          simp [List.getElem?_set, hks, DirichletDiscrete.alpha, Group.count,
            List.getElem?_eq_getElem hka, List.getElem?_eq_getElem hkg]
        · simp [List.getElem?_set, Ne.symm hwk, h2 w (by omega)])
  exact ⟨{ st.2 with alpha_sum := st.1 }, by simp [scorer_init, hst], h0, h2⟩

theorem score_value_eq (uninit : Scorer ℝ) (group : Group) (v : Nat) (hv : v < m.ndim)
    (hα : m.ndim ≤ m.alphas.length) (hg : m.ndim ≤ group.counts.length)
    (hu : m.ndim ≤ uninit.alphas.length) :
    score_value log m uninit group (v : ℤ) =
      .ret (log ((m.alpha v + ((group.count v : ℕ) : ℝ)) /
        ∑ w in Finset.range m.ndim, (m.alpha w + ((group.count w : ℕ) : ℝ)))) := by
  obtain ⟨scorer, hs, h1, h2⟩ := scorer_init_spec m uninit group hα hg hu
  have hv' : (v : ℤ) < m.dim := (ndim_lt_iff m v).2 hv
  simp [score_value, scorer_eval, DIST_ASSERT1, hv', hs, index?, h2 v hv, Val.ofOption, h1]

theorem vector_add_subtract_spec (n : Nat) (io a b : List ℝ) (h1 : io.length = n)
    (h2 : a.length = n) (h3 : b.length = n) :
    ∃ out, vector_add_subtract n io a b = some out ∧ out.length = n ∧
      ∀ g, g < n → out[g]? = some (io.getD g 0 + (a.getD g 0 - b.getD g 0)) := by
  subst h1
  refine ⟨List.zipWith (fun x d => x + d) (io.take io.length)
      (List.zipWith (fun a b => a - b) (a.take io.length) (b.take io.length)) ++
        io.drop io.length, by simp [vector_add_subtract, h2, h3], by simp [h2, h3], ?_⟩
  intro g hg
  have ha : g < a.length := by omega
  have hb : g < b.length := by omega
  simp [List.getElem?_append, List.getElem?_zipWith, h2, h3, hg, List.getElem?_take,
    List.getElem?_eq_getElem hg, List.getElem?_eq_getElem ha, List.getElem?_eq_getElem hb]

theorem sum_alpha_count (group : Group) :
    ∑ w in Finset.range m.ndim, (m.alpha w + ((group.count w : ℕ) : ℝ)) =
      m.alpha_total + ((group.total m : ℕ) : ℝ) := by
  simp [Finset.sum_add_distrib, DirichletDiscrete.alpha_total, Group.total,
    DirichletDiscrete.alpha]

theorem size_pred (G : Nat) (hG : 1 ≤ G) (hsz : G < size_mod) :
    (G + size_mod - 1) % size_mod = G - 1 := by
  simp only [size_mod] at *
  omega

theorem getLast?_of_length {α : Type} (xs : List α) (G : Nat) (h : xs.length = G) :
    xs.getLast? = xs[G - 1]? := by
  rw [List.getLast?_eq_getElem?, h]

theorem move_last_eq (row : List ℝ) (gid G : Nat) (hl : row.length = G) (hgid : gid < G) :
    (row.getLast?).bind (fun last => store? row gid last) =
      some (row.set gid (row.getD (G - 1) 0)) := by
  rw [getLast?_of_length row G hl, getElem?_of_lt (show G - 1 < row.length by omega) 0]
  simp [store?, hl, hgid]

theorem remove_move_eq (gid G : Nat) (hp : c.Parallel m G) (hgid : gid < G) :
    remove_move m c gid = for_loop m.ndim (remove_move_body gid)
      { c with groups := (c.groups.set gid (c.group (G - 1))).set (c.groups.length - 1)
                  (c.group gid),
               count_sums := c.count_sums.set gid (c.count_sums.getD (G - 1) 0),
               scores_shift := c.scores_shift.set gid (c.scores_shift.getD (G - 1) 0) } := by
  obtain ⟨p1, p2, p3, -⟩ := hp
  have e1 := groups_getElem? c gid (by omega)
  have e2 : c.groups.getLast? = some (c.group (G - 1)) := by
    rw [getLast?_of_length _ G p1, groups_getElem? c (G - 1) (by omega)]
  have e3 : c.count_sums.getLast? = some (c.count_sums.getD (G - 1) 0) := by
    rw [getLast?_of_length _ G p2, getElem?_of_lt (by omega) 0]
  have e4 : c.scores_shift.getLast? = some (c.scores_shift.getD (G - 1) 0) := by
    rw [getLast?_of_length _ G p3, getElem?_of_lt (by omega) 0]
  have e5 := store?_some (c.count_sums.getD (G - 1) 0) (show gid < c.count_sums.length by omega)
  have e6 := store?_some (c.scores_shift.getD (G - 1) 0)
    (show gid < c.scores_shift.length by omega)
  simp only [remove_move, e1, e2, e3, e4, e5, e6, Option.bind_eq_bind, Option.some_bind]

theorem remove_stage1 (gid G : Nat) (hp : c.Parallel m G) (hG : 1 ≤ G) (hgid : gid < G) :
    ∃ c1, (if gid ≠ G - 1 then remove_move m c gid else some c) = some c1 ∧
      c1.alpha_sum = c.alpha_sum ∧ c1.is_stale = c.is_stale ∧
      c1.scores.length = c.scores.length ∧ c1.Parallel m G ∧
      (∀ j, j < G - 1 →
        c1.groups[j]? = c.groups[if j = gid then G - 1 else j]? ∧
        c1.count_sums[j]? = c.count_sums[if j = gid then G - 1 else j]? ∧
        c1.scores_shift[j]? = c.scores_shift[if j = gid then G - 1 else j]? ∧
        ∀ v, v < m.ndim → c1.score? v j = c.score? v (if j = gid then G - 1 else j)) ∧
      ∀ v, m.ndim ≤ v → c1.scores[v]? = c.scores[v]? := by
  by_cases hne : gid = G - 1
  · refine ⟨c, by simp [hne], rfl, rfl, rfl, hp, ?_, fun _ _ => rfl⟩
    intro j hj
    have : j ≠ gid := by omega
    simp [this]
  · obtain ⟨p1, p2, p3, p4⟩ := id hp
    have hlast : G - 1 < G := by omega
    obtain ⟨t, ht, a1, a2, a3, a4, a5, a6, a7, a8⟩ :=
      rows_loop (remove_move_body gid)
        (fun row => (row.getLast?).bind (fun last => store? row gid last))
        (remove_move_body_eq gid) m.ndim
        { c with groups := (c.groups.set gid (c.group (G - 1))).set (c.groups.length - 1)
                    (c.group gid),
                 count_sums := c.count_sums.set gid (c.count_sums.getD (G - 1) 0),
                 scores_shift := c.scores_shift.set gid (c.scores_shift.getD (G - 1) 0) }
        (fun v hv => by
          obtain ⟨row, hr, hl⟩ := p4 v hv
          exact ⟨row, row.set gid (row.getD (G - 1) 0), hr, move_last_eq row gid G hl hgid⟩)
    simp only at a1 a2 a3 a4 a5 a6 a7 a8
    refine ⟨t, ?_, a5, a4, a6, ⟨by simp [a1, p1], by simp [a2, p2], by simp [a3, p3], ?_⟩, ?_,
      a8⟩
    · simp only [hne, ne_eq, not_false_eq_true, if_true]
      rw [← ht]
      exact remove_move_eq m c gid G hp hgid
    · intro v hv
      obtain ⟨row, row', hr, hf, hs⟩ := a7 v hv
      obtain ⟨row2, hr2, hl2⟩ := p4 v hv
      rw [hr] at hr2
      cases hr2
      rw [move_last_eq row gid G hl2 hgid] at hf
      cases hf
      exact ⟨_, hs, by simpa using hl2⟩
    · intro j hj
      refine ⟨?_, ?_, ?_, ?_⟩
      · rw [a1]
        have h1 : c.groups.length - 1 ≠ j := by omega
        by_cases hjg : j = gid
        · subst hjg
          rw [List.getElem?_set, if_neg h1, List.getElem?_set, if_pos rfl, if_pos (by omega),
            if_pos rfl, groups_getElem? c (G - 1) (by omega)]
        · rw [List.getElem?_set, if_neg h1, List.getElem?_set, if_neg (Ne.symm hjg),
            if_neg hjg]
      · rw [a2]
        by_cases hjg : j = gid
        · subst hjg
          rw [List.getElem?_set, if_pos rfl, if_pos (by omega), if_pos rfl,
            getElem?_of_lt (show G - 1 < c.count_sums.length by omega) 0]
        · rw [List.getElem?_set, if_neg (Ne.symm hjg), if_neg hjg]
      · rw [a3]
        by_cases hjg : j = gid
        · subst hjg
          rw [List.getElem?_set, if_pos rfl, if_pos (by omega), if_pos rfl,
            getElem?_of_lt (show G - 1 < c.scores_shift.length by omega) 0]
        · rw [List.getElem?_set, if_neg (Ne.symm hjg), if_neg hjg]
      · intro v hv
        obtain ⟨row, row', hr, hf, hs⟩ := a7 v hv
        obtain ⟨row2, hr2, hl2⟩ := p4 v hv
        rw [hr] at hr2
        cases hr2
        rw [move_last_eq row gid G hl2 hgid] at hf
        cases hf
        simp only [Classifier.score?, hs, hr, Option.some_bind]
        by_cases hjg : j = gid
        · subst hjg
          rw [List.getElem?_set, if_pos rfl, if_pos (by omega), if_pos rfl,
            getElem?_of_lt (show G - 1 < row.length by omega) 0]
        · rw [List.getElem?_set, if_neg (Ne.symm hjg), if_neg hjg]

theorem remove_group_unfold (gid : Nat) :
    classifier_remove_group m c gid =
      (if gid ≠ (c.groups.length + size_mod - 1) % size_mod then remove_move m c gid
        else some c).bind (fun c1 =>
          for_loop m.ndim
            (resize_scores_body ((c.groups.length + size_mod - 1) % size_mod))
            { c1 with
              groups := resize c1.groups ((c.groups.length + size_mod - 1) % size_mod)
                (Group.zero m),
              count_sums := resize c1.count_sums
                ((c.groups.length + size_mod - 1) % size_mod) 0,
              scores_shift := resize c1.scores_shift
                ((c.groups.length + size_mod - 1) % size_mod) 0 }) := by
  unfold classifier_remove_group
  simp only [Option.bind_eq_bind]
  split_ifs <;> rfl

theorem remove_group_spec (gid G : Nat) (hp : c.Parallel m G) (hG : 1 ≤ G)
    (hsz : G < size_mod) (hgid : gid < G) :
    ∃ t, classifier_remove_group m c gid = some t ∧
      t.alpha_sum = c.alpha_sum ∧ t.is_stale = c.is_stale ∧
      t.scores.length = c.scores.length ∧ t.Parallel m (G - 1) ∧
      (∀ j, j < G - 1 →
        t.groups[j]? = c.groups[if j = gid then G - 1 else j]? ∧
        t.count_sums[j]? = c.count_sums[if j = gid then G - 1 else j]? ∧
        t.scores_shift[j]? = c.scores_shift[if j = gid then G - 1 else j]? ∧
        ∀ v, v < m.ndim → t.score? v j = c.score? v (if j = gid then G - 1 else j)) ∧
      ∀ v, m.ndim ≤ v → t.scores[v]? = c.scores[v]? := by
  obtain ⟨c1, hc1, b1, b2, b3, ⟨q1, q2, q3, q4⟩, b5, b6⟩ := remove_stage1 m c gid G hp hG hgid
  obtain ⟨t, ht, a1, a2, a3, a4, a5, a6, a7, a8⟩ :=
    rows_loop (resize_scores_body (G - 1)) (fun row => some (resize row (G - 1) 0))
      (resize_scores_body_eq (G - 1)) m.ndim
      { c1 with groups := resize c1.groups (G - 1) (Group.zero m),
                count_sums := resize c1.count_sums (G - 1) 0,
                scores_shift := resize c1.scores_shift (G - 1) 0 }
      (fun v hv => by
        obtain ⟨row, hr, hl⟩ := q4 v hv
        exact ⟨row, _, hr, rfl⟩)
  simp only at a1 a2 a3 a4 a5 a6 a7 a8
  have hpl := hp.1
  refine ⟨t, ?_, by rw [a5, b1], by rw [a4, b2], by rw [a6, b3],
    ⟨by rw [a1]; exact length_resize _ _ _, by rw [a2]; exact length_resize _ _ _,
      by rw [a3]; exact length_resize _ _ _, ?_⟩, ?_, ?_⟩
  · rw [remove_group_unfold, hpl, size_pred G hG hsz, hc1]
    exact ht
  · intro v hv
    obtain ⟨row, row', hr, hf, hs⟩ := a7 v hv
    cases hf
    exact ⟨_, hs, length_resize _ _ _⟩
  · intro j hj
    obtain ⟨e1, e2, e3, e4⟩ := b5 j hj
    have hjG : j < G := by omega
    refine ⟨?_, ?_, ?_, ?_⟩
    · rw [a1, getElem?_resize, if_pos hj, if_pos (by omega), e1]
    · rw [a2, getElem?_resize, if_pos hj, if_pos (by omega), e2]
    · rw [a3, getElem?_resize, if_pos hj, if_pos (by omega), e3]
    · intro v hv
      obtain ⟨row, row', hr, hf, hs⟩ := a7 v hv
      cases hf
      obtain ⟨row2, hr2, hl2⟩ := q4 v hv
      rw [hr] at hr2
      cases hr2
      rw [← e4 v hv]
      simp only [Classifier.score?, hs, hr, Option.some_bind]
      rw [getElem?_resize, if_pos hj, if_pos (by omega)]
  · intro v hv
    rw [a8 v hv, b6 v hv]

theorem group_init_spec (group : Group) (hg : m.ndim ≤ group.counts.length) :
    ∃ g, group_init m group = some g ∧ g.counts.length = group.counts.length ∧
      (∀ v, v < m.ndim → g.counts[v]? = some 0) ∧
      (∀ v, m.ndim ≤ v → g.counts[v]? = group.counts[v]?) := by
  refine for_loop_inv
    (fun k (g : Group) => g.counts.length = group.counts.length ∧
      (∀ v, v < k → g.counts[v]? = some 0) ∧
      (∀ v, k ≤ v → g.counts[v]? = group.counts[v]?))
    m.ndim group_init_body group (by simp) ?_
  rintro k g hk ⟨h1, h2, h3⟩
  have hkl : k < g.counts.length := by omega
  refine ⟨⟨g.counts.set k 0⟩, by simp [group_init_body, store?_some, hkl], by simpa using h1,
    ?_, ?_⟩
  · intro v hv
    by_cases hvk : v = k
    · subst hvk
      simp [List.getElem?_set, hkl]
    · simp [List.getElem?_set, Ne.symm hvk, h2 v (by omega)]
  · intro v hv
    have : k ≠ v := by omega
    simp [List.getElem?_set, this, h3 v (by omega)]

theorem group_init_zero (hm : m.WF) :
    group_init m (Group.zero m) = some (Group.zero m) := by
  obtain ⟨g, hg, h1, h2, h3⟩ := group_init_spec m (Group.zero m)
    (by simpa [Group.zero] using ndim_le_max_dim m hm)
  rw [hg]
  congr 1
  cases g with
  | mk counts =>
    simp only [Group.zero, Group.mk.injEq]
    apply List.ext_getElem?
    intro v
    by_cases hv : v < m.ndim
    · rw [h2 v hv]
      have : v < m.max_dim := by
        have := ndim_le_max_dim m hm
        omega
      simp [List.getElem?_replicate, this]
    · rw [h3 v (by omega)]
      simp [Group.zero]

theorem total_eq_zero (group : Group) (h : ∀ v, v < m.ndim → group.counts[v]? = some 0) :
    group.total m = 0 := by
  unfold Group.total
  apply Finset.sum_eq_zero
  intro v hv
  simp [Group.count, List.getD_eq_getElem?_getD, h v (Finset.mem_range.1 hv)]

theorem group_zero_wf : (Group.zero m).WF m := by
  refine ⟨by simp [Group.zero], ?_⟩
  intro x hx
  simp [Group.zero, List.mem_replicate] at hx
  rw [hx.2]
  decide

theorem resize_succ {α : Type} (xs : List α) (fill : α) :
    resize xs (xs.length + 1) fill = xs ++ [fill] := by
  simp [resize]

theorem add_group_spec (G : Nat) (hm : m.WF) (hp : c.Parallel m G) :
    ∃ t, classifier_add_group m c = some t ∧
      t.alpha_sum = c.alpha_sum ∧ t.is_stale = c.is_stale ∧
      t.groups = c.groups ++ [Group.zero m] ∧ t.count_sums = c.count_sums ++ [0] ∧
      t.scores_shift = c.scores_shift ++ [0] ∧ t.scores.length = c.scores.length ∧
      (∀ v, v < m.ndim → ∃ row, c.scores[v]? = some row ∧ row.length = G ∧
        t.scores[v]? = some (row ++ [0])) ∧
      (∀ v, m.ndim ≤ v → t.scores[v]? = c.scores[v]?) := by
  obtain ⟨p1, p2, p3, p4⟩ := hp
  subst p1
  obtain ⟨t, ht, a1, a2, a3, a4, a5, a6, a7, a8⟩ :=
    rows_loop (resize_scores_body (c.groups.length + 1))
      (fun row => some (resize row (c.groups.length + 1) 0))
      (resize_scores_body_eq (c.groups.length + 1)) m.ndim
      { c with groups := c.groups ++ [Group.zero m],
               count_sums := c.count_sums ++ [0],
               scores_shift := c.scores_shift ++ [0] }
      (fun v hv => by
        obtain ⟨row, hr, hl⟩ := p4 v hv
        exact ⟨row, _, hr, rfl⟩)
  simp only at a1 a2 a3 a4 a5 a6 a7 a8
  refine ⟨t, ?_, a5, a4, a1, a2, a3, a6, ?_, a8⟩
  · rw [← ht]
    have e1 : resize c.groups (c.groups.length + 1) (Group.zero m) =
        c.groups ++ [Group.zero m] := resize_succ _ _
    have e2 : resize c.count_sums (c.groups.length + 1) 0 = c.count_sums ++ [0] := by
      rw [← p2]
      exact resize_succ _ _
    have e3 : resize c.scores_shift (c.groups.length + 1) 0 = c.scores_shift ++ [0] := by
      rw [← p3]
      exact resize_succ _ _
    have e4 : (c.groups ++ [Group.zero m]).getLast? = some (Group.zero m) := by simp
    have e5 : store? (c.groups ++ [Group.zero m]) ((c.groups ++ [Group.zero m]).length - 1)
        (Group.zero m) = some (c.groups ++ [Group.zero m]) := by
      simp [store?]
    simp only [classifier_add_group, e1, e2, e3, e4, e5, group_init_zero m hm,
      Option.bind_eq_bind, Option.some_bind]
  · intro v hv
    obtain ⟨row, row', hr, hf, hs⟩ := a7 v hv
    obtain ⟨row2, hr2, hl2⟩ := p4 v hv
    rw [hr] at hr2
    cases hr2
    cases hf
    refine ⟨row, hr, hl2, ?_⟩
    rw [hs, ← hl2, resize_succ]

theorem vector_zero_resize (row : List ℝ) (n : Nat) :
    vector_zero n (resize row n 0) = some (List.replicate n 0) := by
  simp [vector_zero, length_resize, List.drop_eq_nil_of_le]

theorem init_value_loop (c1 : Classifier ℝ) (n : Nat)
    (hα : m.ndim ≤ m.alphas.length) (hsc : m.ndim ≤ c1.scores.length) :
    ∃ t, for_loop m.ndim (init_value_body m n) c1 = some t ∧
      (t.groups = c1.groups ∧ t.count_sums = c1.count_sums ∧
        t.scores_shift = c1.scores_shift ∧ t.is_stale = c1.is_stale ∧
        t.alpha_sum = c1.alpha_sum + m.alpha_total ∧
        t.scores.length = c1.scores.length ∧
        (∀ v, v < m.ndim → t.scores[v]? = some (List.replicate n 0)) ∧
        (∀ v, m.ndim ≤ v → t.scores[v]? = c1.scores[v]?)) := by
  have := for_loop_inv
    (fun k (t : Classifier ℝ) => t.groups = c1.groups ∧ t.count_sums = c1.count_sums ∧
        t.scores_shift = c1.scores_shift ∧ t.is_stale = c1.is_stale ∧
        t.alpha_sum = c1.alpha_sum + ∑ v in Finset.range k, m.alphas.getD v 0 ∧
        t.scores.length = c1.scores.length ∧
        (∀ v, v < k → t.scores[v]? = some (List.replicate n 0)) ∧
        (∀ v, k ≤ v → t.scores[v]? = c1.scores[v]?))
    m.ndim (init_value_body m n) c1
    (by simp)
    (by
      rintro k t hk ⟨h1, h2, h3, h4, h5, h6, h7, h8⟩
      have hka : k < m.alphas.length := by omega
      have hks : k < c1.scores.length := by omega
      have hrow : t.scores[k]? = some c1.scores[k] := by
        rw [h8 k le_rfl, List.getElem?_eq_getElem hks]
      refine ⟨{ t with alpha_sum := t.alpha_sum + m.alphas[k],
                       scores := t.scores.set k (List.replicate n 0) },
        by simp [init_value_body, List.getElem?_eq_getElem hka, hrow, store?_some, h6, hks,
            vector_zero_resize],
        ?_⟩
      refine ⟨h1, h2, h3, h4, ?_, by simpa using h6, ?_, ?_⟩
      · simp [Finset.sum_range_succ, h5, List.getElem?_eq_getElem hka, add_assoc]
      · intro v hv
        by_cases hvk : v = k
        · subst hvk
          simp [List.getElem?_set, h6, hks]
        · simp [List.getElem?_set, Ne.symm hvk, h7 v (by omega)]
      · intro v hv
        have : k ≠ v := by omega
        simp [List.getElem?_set, this, h8 v (by omega)])
  simpa [DirichletDiscrete.alpha_total] using this

theorem init_group_loop (c1 : Classifier ℝ) (n : Nat) (h1 : c1.groups.length = n)
    (h2 : c1.count_sums.length = n)
    (hg : ∀ group ∈ c1.groups, m.ndim ≤ group.counts.length) :
    ∃ t, for_loop n (init_group_body m) c1 = some t ∧
      (t.alpha_sum = c1.alpha_sum ∧ t.scores = c1.scores ∧
        t.scores_shift = c1.scores_shift ∧ t.is_stale = c1.is_stale ∧
        t.groups.length = n ∧ t.count_sums.length = n ∧
        (∀ g, g < n → t.count_sums[g]? = some 0 ∧
          ∃ g0 g1, c1.groups[g]? = some g0 ∧ t.groups[g]? = some g1 ∧
            g1.counts.length = g0.counts.length ∧
            (∀ v, v < m.ndim → g1.counts[v]? = some 0) ∧
            (∀ v, m.ndim ≤ v → g1.counts[v]? = g0.counts[v]?))) := by
  have := for_loop_inv
    (fun k (t : Classifier ℝ) => t.alpha_sum = c1.alpha_sum ∧ t.scores = c1.scores ∧
        t.scores_shift = c1.scores_shift ∧ t.is_stale = c1.is_stale ∧
        t.groups.length = n ∧ t.count_sums.length = n ∧
        (∀ g, g < k → t.count_sums[g]? = some 0 ∧
          ∃ g0 g1, c1.groups[g]? = some g0 ∧ t.groups[g]? = some g1 ∧
            g1.counts.length = g0.counts.length ∧
            (∀ v, v < m.ndim → g1.counts[v]? = some 0) ∧
            (∀ v, m.ndim ≤ v → g1.counts[v]? = g0.counts[v]?)) ∧
        (∀ g, k ≤ g → t.groups[g]? = c1.groups[g]?))
    n (init_group_body m) c1
    (by simp [h1, h2])
    (by
      rintro k t hk ⟨a1, a2, a3, a4, a5, a6, a7, a8⟩
      have hk1 : k < c1.groups.length := by omega
      have hgk : t.groups[k]? = some (c1.group k) := by
        rw [a8 k le_rfl, groups_getElem? c1 k hk1]
      obtain ⟨g1, hg1, b1, b2, b3⟩ := group_init_spec m (c1.group k)
        (hg _ (group_mem c1 k hk1))
      refine ⟨{ t with groups := t.groups.set k g1, count_sums := t.count_sums.set k 0 },
        by simp [init_group_body, hgk, hg1, store?, a5, a6, hk], ?_⟩
      refine ⟨a1, a2, a3, a4, by simpa using a5, by simpa using a6, ?_, ?_⟩
      · intro g hgl
        by_cases hgk' : g = k
        · subst hgk'
          refine ⟨by simp [List.getElem?_set, a6, hk], c1.group g, g1,
            groups_getElem? c1 g hk1, by simp [List.getElem?_set, a5, hk], b1, b2, b3⟩
        · obtain ⟨e1, g0, g2, e2, e3, e4⟩ := a7 g (by omega)
          exact ⟨by simp [List.getElem?_set, Ne.symm hgk', e1], g0, g2, e2,
            by simp [List.getElem?_set, Ne.symm hgk', e3], e4⟩
      · intro g hgl
        have : k ≠ g := by omega
        simp [List.getElem?_set, this, a8 g (by omega)])
  obtain ⟨t, ht, a1, a2, a3, a4, a5, a6, a7, -⟩ := this
  exact ⟨t, ht, a1, a2, a3, a4, a5, a6, a7⟩

theorem eq_replicate_zero {α : Type} (xs : List α) (n : Nat) (z : α) (hl : xs.length = n)
    (h : ∀ g, g < n → xs[g]? = some z) : xs = List.replicate n z := by
  apply List.ext_getElem?
  intro g
  by_cases hg : g < n
  · rw [h g hg]
    simp [List.getElem?_replicate, hg]
  · rw [List.getElem?_eq_none (by omega), List.getElem?_eq_none (by simp; omega)]

theorem resize_wf (groups : List Group) (n : Nat)
    (hg : ∀ group ∈ groups, group.WF m) :
    ∀ group ∈ resize groups n (Group.zero m), group.WF m := by
  intro group hmem
  simp only [resize, List.mem_append, List.mem_replicate] at hmem
  rcases hmem with h | h
  · exact hg _ (List.mem_of_mem_take h)
  · rw [h.2]
    exact group_zero_wf m

theorem init_spec (c0 : Classifier ℝ) (n : Nat) (hm : m.WF) (hc : c0.WF m) :
    ∃ t, classifier_init m c0 n = some t ∧ t.is_stale = false ∧
      t.alpha_sum = m.alpha_total ∧ t.groups.length = n ∧
      t.count_sums = List.replicate n 0 ∧ t.scores_shift = List.replicate n 0 ∧
      t.scores.length = c0.scores.length ∧
      (∀ v, v < m.ndim → t.scores[v]? = some (List.replicate n 0)) ∧
      (∀ v, m.ndim ≤ v → t.scores[v]? = c0.scores[v]?) ∧
      (∀ group ∈ t.groups, group.WF m ∧ ∀ v, v < m.ndim → group.counts[v]? = some 0) := by
  have hwf1 := resize_wf m c0.groups n hc.2.1
  obtain ⟨t1, ht1, a1, a2, a3, a4, a5, a6, a7⟩ := init_group_loop m
    { c0 with alpha_sum := 0, groups := resize c0.groups n (Group.zero m),
              count_sums := resize c0.count_sums n 0 } n
    (length_resize _ _ _) (length_resize _ _ _)
    (by
      intro group hmem
      rw [(hwf1 group hmem).1]
      exact ndim_le_max_dim m hm)
  simp only at ht1 a1 a2 a3 a4 a5 a6 a7
  obtain ⟨t2, ht2, b1, b2, b3, b4, b5, b6, b7, b8⟩ := init_value_loop m
    { t1 with scores_shift := List.replicate n 0 } n (ndim_le_alphas m hm)
    (by
      simp only [a2]
      exact ndim_le_scores m c0 hm hc)
  simp only at ht2 b1 b2 b3 b4 b5 b6 b7 b8
  refine ⟨{ t2 with is_stale := false }, ?_, rfl, by simp [b5, a1], by simp [b1, a5], ?_,
    by simp [b3], by simp [b6, a2], by simpa using b7, ?_, ?_⟩
  · simp only [classifier_init, ht1, Option.bind_eq_bind, Option.some_bind, a3,
      vector_zero_resize, ht2]
  · simp only [b2]
    exact eq_replicate_zero _ n 0 a6 (fun g hg => (a7 g hg).1)
  · intro v hv
    simp only [b8 v hv, a2]
  · intro group hmem
    simp only [b1] at hmem
    obtain ⟨g, hg, rfl⟩ := List.getElem_of_mem hmem
    rw [a5] at hg
    obtain ⟨-, g0, g1, e1, e2, e3, e4, e5⟩ := a7 g hg
    have hgg : t1.groups[g] = g1 := by
      rw [List.getElem?_eq_some] at e2
      exact e2.2
    rw [hgg]
    have hw0 : g0.WF m := hwf1 g0 (by
      rw [List.getElem?_eq_some] at e1
      obtain ⟨h, he⟩ := e1
      rw [← he]
      exact List.getElem_mem _)
    refine ⟨⟨by rw [e3, hw0.1], ?_⟩, e4⟩
    intro x hx
    obtain ⟨v, hv, rfl⟩ := List.getElem_of_mem hx
    by_cases hvn : v < m.ndim
    · have := e4 v hvn
      rw [List.getElem?_eq_getElem hv] at this
      rw [Option.some.inj this]
      decide
    · have := e5 v (by omega)
      rw [List.getElem?_eq_getElem hv, List.getElem?_eq_getElem (by omega)] at this
      rw [Option.some.inj this]
      exact hw0.2 _ (List.getElem_mem _)

theorem getD_of_getElem? {α : Type} {xs ys : List α} {i j : Nat} (d : α)
    (h : xs[i]? = ys[j]?) : xs.getD i d = ys.getD j d := by
  simp [List.getD_eq_getElem?_getD, h]

theorem init_shape (c0 : Classifier ℝ) (n : Nat) (t : Classifier ℝ) (hm : m.WF)
    (hc : c0.WF m) (hn : n < size_mod) (h : classifier_init m c0 n = some t) :
    t.Shape m ∧ t.CountInv m ∧ t.is_stale = false := by
  obtain ⟨t', ht', a1, a2, a3, a4, a5, a6, a7, a8, a9⟩ := init_spec m c0 n hm hc
  rw [h] at ht'
  cases ht'
  refine ⟨⟨⟨by rw [a6, hc.1], fun g hg => (a9 g hg).1, ?_⟩,
    ⟨rfl, by simp [a4, a3], by simp [a5, a3], ?_⟩, by rw [a3]; exact hn⟩, ?_, a1⟩
  · intro x hx
    rw [a4] at hx
    rw [(List.mem_replicate.1 hx).2]
    decide
  · intro v hv
    exact ⟨_, a7 v hv, by simp [a3]⟩
  · intro g hg
    rw [total_eq_zero m (t.group g) (a9 _ (group_mem t g hg)).2, a4]
    simp [List.getElem?_replicate, a3 ▸ hg]

theorem add_group_shape (t : Classifier ℝ) (hm : m.WF) (hs : c.Shape m)
    (hsz : c.groups.length + 1 < size_mod) (h : classifier_add_group m c = some t) :
    t.Shape m ∧ (c.CountInv m → t.CountInv m) ∧ t.is_stale = c.is_stale := by
  obtain ⟨t', ht', a1, a2, a3, a4, a5, a6, a7, a8⟩ :=
    add_group_spec m c c.groups.length hm hs.parallel
  rw [h] at ht'
  cases ht'
  obtain ⟨w1, w2, w3⟩ := hs.wf
  obtain ⟨p1, p2, p3, p4⟩ := hs.parallel
  have hlen : t.groups.length = c.groups.length + 1 := by simp [a3]
  refine ⟨⟨⟨by rw [a6, w1], ?_, ?_⟩, ⟨rfl, by simp [a4, a3, p2], by simp [a5, a3, p3], ?_⟩,
    by rw [hlen]; exact hsz⟩, ?_, a2⟩
  · intro group hmem
    rw [a3, List.mem_append, List.mem_singleton] at hmem
    rcases hmem with h1 | h1
    · exact w2 _ h1
    · rw [h1]
      exact group_zero_wf m
  · intro x hx
    rw [a4, List.mem_append, List.mem_singleton] at hx
    rcases hx with h1 | h1
    · exact w3 _ h1
    · rw [h1]
      decide
  · intro v hv
    obtain ⟨row, hr, hl, hs'⟩ := a7 v hv
    exact ⟨_, hs', by simp [hl, hlen]⟩
  · intro hci g hg
    rw [hlen] at hg
    by_cases hgl : g < c.groups.length
    · have e1 : t.group g = c.group g := by
        simp only [Classifier.group, a3]
        exact List.getD_append _ _ _ _ hgl
      rw [e1, a4, List.getElem?_append_left (by omega)]
      exact hci g hgl
    · have hgG : g = c.groups.length := by omega
      have e1 : t.group g = Group.zero m := by
        simp [Classifier.group, a3, hgG, List.getD_eq_getElem?_getD]
      rw [e1, total_eq_zero m (Group.zero m) (fun v hv => by
        have := ndim_le_max_dim m hm
        simp [Group.zero, List.getElem?_replicate]
        omega), a4, hgG, ← p2]
      simp

theorem remove_group_shape (gid : Nat) (t : Classifier ℝ) (hs : c.Shape m)
    (hgid : gid < c.groups.length) (h : classifier_remove_group m c gid = some t) :
    t.Shape m ∧ (c.CountInv m → t.CountInv m) ∧ t.is_stale = c.is_stale := by
  obtain ⟨t', ht', a1, a2, a3, a4, a5, a6⟩ :=
    remove_group_spec m c gid c.groups.length hs.parallel (by omega) hs.size hgid
  rw [h] at ht'
  cases ht'
  obtain ⟨w1, w2, w3⟩ := hs.wf
  obtain ⟨q1, q2, q3, q4⟩ := a4
  have hσ : ∀ j, j < c.groups.length - 1 →
      (if j = gid then c.groups.length - 1 else j) < c.groups.length := by
    intro j hj
    split_ifs <;> omega
  refine ⟨⟨⟨by rw [a3, w1], ?_, ?_⟩, ⟨rfl, by rw [q2, q1], by rw [q3, q1],
    by rw [q1]; exact q4⟩, by rw [q1]; have := hs.size; omega⟩, ?_, a2⟩
  · intro group hmem
    obtain ⟨j, hj, rfl⟩ := List.getElem_of_mem hmem
    have e := (a5 j (by omega)).1
    rw [List.getElem?_eq_getElem hj] at e
    exact w2 _ (List.getElem?_mem e.symm)
  · intro x hx
    obtain ⟨j, hj, rfl⟩ := List.getElem_of_mem hx
    have e := (a5 j (by omega)).2.1
    rw [List.getElem?_eq_getElem hj] at e
    exact w3 _ (List.getElem?_mem e.symm)
  · intro hci j hj
    rw [q1] at hj
    obtain ⟨e1, e2, -, -⟩ := a5 j hj
    have eg : t.group j = c.group (if j = gid then c.groups.length - 1 else j) :=
      getD_of_getElem? _ e1
    rw [e2, eg]
    exact hci _ (hσ j hj)

theorem poke_wf_groups (gid v x : Nat) (hc : c.WF m) (hg : gid < c.groups.length)
    (hx : x < count_mod) : ∀ group ∈ (c.poke gid v x).groups, group.WF m := by
  intro group hmem
  rcases mem_set_groups hmem with h | h
  · exact hc.2.1 group h
  · subst h
    have hw := hc.2.1 _ (group_mem c gid hg)
    refine ⟨by simpa using hw.1, ?_⟩
    intro y hy
    rcases List.mem_or_eq_of_mem_set hy with h1 | h1
    · exact hw.2 y h1
    · rw [h1]
      exact hx

theorem poke_shape (gid v x : Nat) (b : Bool) (hs : c.Shape m) (hg : gid < c.groups.length)
    (hx : x < count_mod) :
    ({ c.poke gid v x with is_stale := b } : Classifier ℝ).Shape m := by
  obtain ⟨p1, p2, p3, p4⟩ := hs.parallel
  refine ⟨⟨hs.wf.1, poke_wf_groups m c gid v x hs.wf hg hx, hs.wf.2.2⟩,
    ⟨rfl, by simpa [Classifier.poke] using p2, by simpa [Classifier.poke] using p3, ?_⟩,
    by simpa [Classifier.poke] using hs.size⟩
  intro w hw
  obtain ⟨row, hr, hl⟩ := p4 w hw
  exact ⟨row, hr, by simpa [Classifier.poke] using hl⟩

theorem refreshed_shape {t : Classifier ℝ} (hs : c.Shape m) (hR : Refreshed log m c t) :
    t.Shape m ∧ t.CountInv m := by
  obtain ⟨p1, p2, p3, p4⟩ := hs.parallel
  have hlen : t.groups.length = c.groups.length := by rw [hR.groups]
  have hgr : ∀ g, t.group g = c.group g := by
    intro g
    simp [Classifier.group, hR.groups]
  refine ⟨⟨⟨by rw [hR.scores_length, hs.wf.1], by rw [hR.groups]; exact hs.wf.2.1, ?_⟩,
    ⟨rfl, by rw [hR.count_sums_length, p2, hlen], by rw [hR.shift_length, hlen], ?_⟩,
    by rw [hlen]; exact hs.size⟩, ?_⟩
  · intro x hx
    obtain ⟨g, hg, rfl⟩ := List.getElem_of_mem hx
    have hg' : g < c.groups.length := by
      rw [hR.count_sums_length, p2] at hg
      exact hg
    have := hR.count_sums g hg'
    rw [List.getElem?_eq_getElem hg] at this
    rw [Option.some.inj this]
    exact Nat.mod_lt _ (by decide)
  · intro v hv
    obtain ⟨row, hr, hl, -⟩ := hR.rows v hv
    exact ⟨row, hr, by rw [hl, hlen]⟩
  · intro g hg
    rw [hgr g]
    exact hR.count_sums g (by omega)

theorem shape_facts (gid v : Nat) (hm : m.WF) (hs : c.Shape m) (hg : gid < c.groups.length)
    (hv : v < m.ndim) :
    v < (c.group gid).counts.length ∧ gid < c.count_sums.length ∧ v < m.alphas.length ∧
      (∃ row, c.scores[v]? = some row ∧ gid < row.length) ∧ gid < c.scores_shift.length := by
  obtain ⟨p1, p2, p3, p4⟩ := hs.parallel
  have h1 := ndim_le_counts m c hm hs.wf _ (group_mem c gid hg)
  have h3 := ndim_le_alphas m hm
  obtain ⟨row, hr, hl⟩ := p4 v hv
  exact ⟨by omega, by omega, by omega, ⟨row, hr, by omega⟩, by omega⟩

theorem reachable_inv (hm : m.WF) (h : Reachable m c) :
    c.Shape m ∧ (c.is_stale = false → c.CountInv m) := by
  induction h with
  | init c0 n t hc hn ht =>
    obtain ⟨h1, h2, -⟩ := init_shape m c0 n t hm hc hn ht
    exact ⟨h1, fun _ => h2⟩
  | add_group c t _ hsz ht ih =>
    obtain ⟨h1, h2, h3⟩ := add_group_shape m c t hm ih.1 hsz ht
    exact ⟨h1, fun hst => h2 (ih.2 (by rw [← h3]; exact hst))⟩
  | remove_group c gid t _ hg ht ih =>
    obtain ⟨h1, h2, h3⟩ := remove_group_shape m c gid t ih.1 hg ht
    exact ⟨h1, fun hst => h2 (ih.2 (by rw [← h3]; exact hst))⟩
  | lazy_add_value c gid v t _ hg hv ht ih =>
    obtain ⟨f1, -, -, -, -⟩ := shape_facts m c gid v hm ih.1 hg hv
    rw [classifier_lazy_add_value_eq m c gid v hg hv f1] at ht
    cases ht
    exact ⟨poke_shape m c gid v _ true ih.1 hg (Nat.mod_lt _ (by decide)),
      fun hst => by simp at hst⟩
  | refresh c t _ ht ih =>
    obtain ⟨t', ht', -, hR⟩ := refresh_spec Real.log m c (ndim_le_alphas m hm)
      (ndim_le_scores m c hm ih.1.wf) (ndim_le_counts m c hm ih.1.wf)
      (by rw [ih.1.parallel.2.1])
    rw [ht] at ht'
    cases ht'
    obtain ⟨h1, h2⟩ := refreshed_shape Real.log m c ih.1 hR
    exact ⟨h1, fun _ => h2⟩

theorem pair_init :
    classifier_init pair_model ⟨0, [], [], [[], []], [], true⟩ 1 =
      some ⟨0 + 1 + 1, [⟨[0, 0]⟩], [0], [[0], [0]], [0], false⟩ :=
  rfl

theorem pair_init_reachable :
    Reachable pair_model ⟨0 + 1 + 1, [⟨[0, 0]⟩], [0], [[0], [0]], [0], false⟩ :=
  Reachable.init ⟨0, [], [], [[], []], [], true⟩ 1 _
    (by simp [Classifier.WF, pair_model]) (by decide) pair_init

theorem for_loop_frame {σ β : Type} (f : σ → β) (body : Nat → σ → Option σ)
    (hb : ∀ k s s', body k s = some s' → f s' = f s) (n : Nat) (s t : σ)
    (h : for_loop n body s = some t) : f t = f s := by
  induction n generalizing t with
  | zero =>
    simp only [for_loop, Option.some.injEq] at h
    rw [← h]
  | succ n ih =>
    simp only [for_loop, Option.bind_eq_some] at h
    obtain ⟨u, hu, hut⟩ := h
    rw [hb n u t hut, ih u hu]

theorem resize_scores_body_stale (G k : Nat) (s s' : Classifier ℝ)
    (h : resize_scores_body G k s = some s') : s'.is_stale = s.is_stale := by
  simp only [resize_scores_body, Option.bind_eq_bind, Option.bind_eq_some,
    Option.some.injEq] at h
  obtain ⟨_, _, _, _, rfl⟩ := h
  rfl

theorem remove_move_body_stale (gid k : Nat) (s s' : Classifier ℝ)
    (h : remove_move_body gid k s = some s') : s'.is_stale = s.is_stale := by
  simp only [remove_move_body, Option.bind_eq_bind, Option.bind_eq_some,
    Option.some.injEq] at h
  obtain ⟨_, _, _, _, _, _, _, _, rfl⟩ := h
  rfl

theorem add_group_stale (t : Classifier ℝ) (h : classifier_add_group m c = some t) :
    t.is_stale = c.is_stale := by
  simp only [classifier_add_group, Option.bind_eq_bind, Option.bind_eq_some] at h
  obtain ⟨_, _, _, _, _, _, h⟩ := h
  have := for_loop_frame Classifier.is_stale _ (resize_scores_body_stale _) _ _ _ h
  exact this

theorem remove_move_stale (gid : Nat) (t : Classifier ℝ) (h : remove_move m c gid = some t) :
    t.is_stale = c.is_stale := by
  simp only [remove_move, Option.bind_eq_bind, Option.bind_eq_some] at h
  obtain ⟨_, _, _, _, _, _, _, _, _, _, _, _, h⟩ := h
  have := for_loop_frame Classifier.is_stale _ (remove_move_body_stale _) _ _ _ h
  exact this

theorem remove_group_stale (gid : Nat) (t : Classifier ℝ)
    (h : classifier_remove_group m c gid = some t) : t.is_stale = c.is_stale := by
  rw [remove_group_unfold, Option.bind_eq_some] at h
  obtain ⟨c1, h1, h2⟩ := h
  have e1 : c1.is_stale = c.is_stale := by
    split_ifs at h1
    · exact remove_move_stale m c gid c1 h1
    · cases h1
      rfl
  rw [for_loop_frame Classifier.is_stale _ (resize_scores_body_stale _) _ _ _ h2]
  exact e1

theorem add_value_stale (gid : Nat) (value : ℤ) (t : Classifier ℝ)
    (h : (classifier_add_value log m c gid value).state? = some t) :
    t.is_stale = c.is_stale := by
  unfold classifier_add_value DIST_ASSERT1 at h
  split_ifs at h
  · simp only [Run.ofOption] at h
    split at h
    · rename_i s hs
      simp [Option.bind_eq_some, Classifier.count_sum] at hs
    · simp [Run.state?] at h
  · simp only [Run.state?, Option.some.injEq] at h
    rw [← h]
  · simp only [Run.state?, Option.some.injEq] at h
    rw [← h]

theorem remove_value_stale (gid : Nat) (value : ℤ) (t : Classifier ℝ)
    (h : (classifier_remove_value log m c gid value).state? = some t) :
    t.is_stale = c.is_stale := by
  unfold classifier_remove_value DIST_ASSERT1 at h
  split_ifs at h
  · simp only [Run.ofOption] at h
    split at h
    · rename_i s hs
      simp [Option.bind_eq_some, Classifier.count_sum] at hs
    · simp [Run.state?] at h
  · simp only [Run.state?, Option.some.injEq] at h
    rw [← h]
  · simp only [Run.state?, Option.some.injEq] at h
    rw [← h]

theorem lazy_add_value_done_stale (gid : Nat) (value : ℤ) (t : Classifier ℝ)
    (h : classifier_lazy_add_value m c gid value = .done t) : t.is_stale = true := by
  unfold classifier_lazy_add_value DIST_ASSERT1 at h
  split_ifs at h
  split at h
  · cases h
  · split at h
    · cases h
      rfl
    · cases h
    · cases h

theorem lazy_add_value_state_stale (gid : Nat) (value : ℤ) (t : Classifier ℝ)
    (hst : c.is_stale = true)
    (h : (classifier_lazy_add_value m c gid value).state? = some t) : t.is_stale = true := by
  unfold classifier_lazy_add_value DIST_ASSERT1 at h
  split_ifs at h
  · split at h
    · simp [Run.state?] at h
    · split at h
      · simp only [Run.state?, Option.some.injEq] at h
        rw [← h]
      · simp only [Run.state?, Option.some.injEq] at h
        rw [← h]
        exact hst
      · simp [Run.state?] at h
  · simp only [Run.state?, Option.some.injEq] at h
    rw [← h]
    exact hst
  · simp only [Run.state?, Option.some.injEq] at h
    rw [← h]
    exact hst

theorem call_keeps_stale (op : Op) (t : Classifier ℝ) (hop : op.resets = false)
    (hst : c.is_stale = true) (h : op.call log m c = some t) : t.is_stale = true := by
  cases op with
  | init n => simp [Op.resets] at hop
  | refresh => simp [Op.resets] at hop
  | lazy_add_value gid v => exact lazy_add_value_state_stale m c gid v t hst h
  | add_group => rw [add_group_stale m c t h, hst]
  | remove_group gid => rw [remove_group_stale m c gid t h, hst]
  | add_value gid v => rw [add_value_stale log m c gid v t h, hst]
  | remove_value gid v => rw [remove_value_stale log m c gid v t h, hst]

theorem calls_keep_stale (ops : List Op) (t : Classifier ℝ)
    (hops : ∀ op ∈ ops, op.resets = false) (hst : c.is_stale = true)
    (h : calls log m c ops = some t) : t.is_stale = true := by
  induction ops generalizing c with
  | nil =>
    simp only [calls, Option.some.injEq] at h
    rw [← h]
    exact hst
  | cons op ops ih =>
    simp only [calls, Option.bind_eq_some] at h
    obtain ⟨u, hu, hut⟩ := h
    exact ih u (fun o ho => hops o (List.mem_cons_of_mem _ ho))
      (call_keeps_stale log m c op u (hops op (List.mem_cons_self _ _)) hst hu) hut

theorem score_value_stale (accum : List ℝ) (value : ℤ) (hst : c.is_stale = true) :
    classifier_score_value m accum c value = .fault "classifier is stale" accum := by
  simp [classifier_score_value, DIST_ASSERT1, hst]

theorem score_group_spec (lgamma : ℝ → ℝ) (group : Group)
    (hα : m.ndim ≤ m.alphas.length) (hg : m.ndim ≤ group.counts.length) :
    score_group lgamma m group =
      some (∑ v in Finset.range m.ndim,
          (lgamma (m.alpha v + ((group.count v : ℕ) : ℝ)) - lgamma (m.alpha v)) +
        (lgamma m.alpha_total -
          lgamma (m.alpha_total + ((group.total m % count_mod : ℕ) : ℝ)))) := by
  obtain ⟨st, hst, h0, h1, h2⟩ := for_loop_inv
    (fun k (st : ℕ × ℝ × ℝ) =>
      st.1 = (∑ v in Finset.range k, group.count v) % count_mod ∧
      st.2.1 = ∑ v in Finset.range k, m.alphas.getD v 0 ∧
      st.2.2 = ∑ v in Finset.range k,
        (lgamma (m.alpha v + ((group.count v : ℕ) : ℝ)) - lgamma (m.alpha v)))
    m.ndim (score_group_body lgamma m group) (0, 0, 0)
    (by simp)
    (by
      rintro k ⟨cs, a, sc⟩ hk ⟨h0, h1, h2⟩
      simp only at h0 h1 h2
      have hka : k < m.alphas.length := by omega
      have hkg : k < group.counts.length := by omega
      refine ⟨((cs + group.counts[k]) % count_mod, a + m.alphas[k],
          sc + (lgamma (m.alphas[k] + (group.counts[k] : ℕ)) - lgamma m.alphas[k])),
        by simp [score_group_body, List.getElem?_eq_getElem hka,
            List.getElem?_eq_getElem hkg], ?_, ?_, ?_⟩
      · simp [Finset.sum_range_succ, h0, Group.count, List.getElem?_eq_getElem hkg,
          Nat.add_mod]
      · simp [Finset.sum_range_succ, h1, List.getElem?_eq_getElem hka]
      · have ea : m.alpha k = m.alphas[k] := by
          simp [DirichletDiscrete.alpha, List.getElem?_eq_getElem hka]
        have ec : group.count k = group.counts[k] := by
          simp [Group.count, List.getElem?_eq_getElem hkg]
        rw [Finset.sum_range_succ, ← h2, ea, ec])
  simp only [score_group, hst, Option.bind_eq_bind, Option.some_bind, h0, h1, h2]
  rfl

theorem total_of_zero (group : Group) (h : ∀ v, v < m.ndim → group.count v = 0) :
    group.total m = 0 := by
  unfold Group.total
  exact Finset.sum_eq_zero (fun v hv => h v (Finset.mem_range.1 hv))

theorem score_group_zero (lgamma : ℝ → ℝ) (group : Group)
    (hα : m.ndim ≤ m.alphas.length) (hg : m.ndim ≤ group.counts.length)
    (hz : ∀ v, v < m.ndim → group.count v = 0) :
    score_group lgamma m group = some 0 := by
  rw [score_group_spec m lgamma group hα hg, total_of_zero m group hz]
  have : ∑ v in Finset.range m.ndim,
      (lgamma (m.alpha v + ((group.count v : ℕ) : ℝ)) - lgamma (m.alpha v)) = 0 := by
    apply Finset.sum_eq_zero
    intro v hv
    rw [hz v (Finset.mem_range.1 hv)]
    simp
  rw [this]
  simp

theorem triple_model_wf : triple_model.WF := by
  simp [triple_model, DirichletDiscrete.WF]

theorem plus_length (d s : Group) : (Group.plus m d s).counts.length = d.counts.length := by
  simp [Group.plus]

theorem plus_getElem? (d s : Group) (v : Nat) :
    (Group.plus m d s).counts[v]? =
      if v < d.counts.length then
        some (if v < m.ndim then (d.count v + s.count v) % count_mod else d.count v)
      else none := by
  simp only [Group.plus, List.getElem?_map, List.getElem?_range]
  split_ifs <;> simp_all [List.getElem?_range]

theorem plus_count (d s : Group) (v : Nat) (hv : v < d.counts.length) :
    (Group.plus m d s).count v =
      if v < m.ndim then (d.count v + s.count v) % count_mod else d.count v := by
  simp only [Group.count, List.getD_eq_getElem?_getD]
  rw [plus_getElem? m d s v, if_pos hv]
  simp [Group.count, List.getD_eq_getElem?_getD]

theorem group_ext (g h : Group) (hl : g.counts.length = h.counts.length)
    (he : ∀ v, v < g.counts.length → g.count v = h.count v) : g = h := by
  cases g with
  | mk gc =>
    cases h with
    | mk hc =>
      simp only [Group.mk.injEq]
      apply List.ext_getElem?
      intro v
      by_cases hv : v < gc.length
      · have := he v hv
        simp only [Group.count, List.getD_eq_getElem?_getD] at this
        have h1 : v < hc.length := by simpa [← hl] using hv
        rw [List.getElem?_eq_getElem hv, List.getElem?_eq_getElem h1] at this ⊢
        simpa using this
      · have h1 : ¬ v < hc.length := by simpa [← hl] using hv
        rw [List.getElem?_eq_none (by simpa using hv),
          List.getElem?_eq_none (by simpa using h1)]

theorem group_merge_eq (d s : Group) (hd : m.ndim ≤ d.counts.length)
    (hs : m.ndim ≤ s.counts.length) :
    group_merge m d s false = .done (Group.plus m d s) := by
  obtain ⟨t, ht, h1, h2, h3⟩ := for_loop_inv
    (fun k (t : Group) => t.counts.length = d.counts.length ∧
      (∀ v, v < k → t.counts[v]? = some ((d.count v + s.count v) % count_mod)) ∧
      (∀ v, k ≤ v → t.counts[v]? = d.counts[v]?))
    m.ndim (group_merge_body s) d (by simp)
    (by
      rintro k t hk ⟨h1, h2, h3⟩
      have hkd : k < d.counts.length := by omega
      have hks : k < s.counts.length := by omega
      have hkt : k < t.counts.length := by omega
      have e1 : t.counts[k]? = some (d.count k) := by
        rw [h3 k le_rfl]
        simp [Group.count, List.getElem?_eq_getElem hkd]
      have e2 : s.counts[k]? = some (s.count k) := by
        simp [Group.count, List.getElem?_eq_getElem hks]
      refine ⟨⟨t.counts.set k ((d.count k + s.count k) % count_mod)⟩,
        by simp [group_merge_body, e1, e2, store?, hkt], by simpa using h1, ?_, ?_⟩
      · intro v hv
        by_cases hvk : v = k
        · subst hvk
          simp [List.getElem?_set, hkt]
        · simp [List.getElem?_set, Ne.symm hvk, h2 v (by omega)]
      · intro v hv
        have : k ≠ v := by omega
        simp [List.getElem?_set, this, h3 v (by omega)])
  have : t = Group.plus m d s := by
    apply group_ext t _ (by rw [h1, plus_length])
    intro v hv
    rw [plus_count m d s v (by omega)]
    by_cases hvn : v < m.ndim
    · simp [Group.count, List.getD_eq_getElem?_getD, h2 v hvn, hvn]
    · simp [Group.count, List.getD_eq_getElem?_getD, h3 v (by omega), hvn]
  simp [group_merge, DIST_ASSERT1, ht, Run.ofOption, this]

theorem poke_count (gid v x g w : Nat) (hg : gid < c.groups.length)
    (hv : v < (c.group gid).counts.length) :
    ((c.poke gid v x).group g).count w =
      if g = gid ∧ w = v then x else (c.group g).count w := by
  rw [poke_group c gid v x g hg]
  by_cases h : g = gid
  · subst h
    simp only [if_true, true_and, Group.count]
    rw [getD_set_counts _ _ _ _ hv]
  · simp [h]

theorem gamma_three : Real.Gamma 3 = 2 := by
  have h := Real.Gamma_nat_eq_factorial 2
  have e : ((2 : ℕ) : ℝ) + 1 = 3 := by norm_num
  rw [e] at h
  rw [h]
  norm_num [Nat.factorial]

theorem gamma_six : Real.Gamma 6 = 120 := by
  have h := Real.Gamma_nat_eq_factorial 5
  have e : ((5 : ℕ) : ℝ) + 1 = 6 := by norm_num
  rw [e] at h
  rw [h]
  norm_num [Nat.factorial]

theorem triple_score :
    score_group (fun x => Real.log (Real.Gamma x)) triple_model ⟨[2, 0, 1]⟩ =
      some (Real.log (1 / 30)) := by
  rw [score_group_spec triple_model _ ⟨[2, 0, 1]⟩ (by decide) (by decide)]
  congr 1
  have hn : triple_model.ndim = 3 := rfl
  have ht : triple_model.alpha_total = 3 := by
    rw [DirichletDiscrete.alpha_total, hn]
    simp only [Finset.sum_range_succ, Finset.sum_range_zero, triple_model]
    norm_num
  have hc : Group.total triple_model ⟨[2, 0, 1]⟩ % count_mod = 3 := by
    simp [Group.total, hn, Finset.sum_range_succ, Group.count, count_mod]
  rw [ht, hc, hn]
  simp only [Finset.sum_range_succ, Finset.sum_range_zero, DirichletDiscrete.alpha,
    Group.count, triple_model]
  have e1 : (1 : ℝ) + ((2 : ℕ) : ℝ) = 3 := by norm_num
  have e2 : (1 : ℝ) + ((0 : ℕ) : ℝ) = 1 := by norm_num
  have e3 : (1 : ℝ) + ((1 : ℕ) : ℝ) = 2 := by norm_num
  have e4 : (3 : ℝ) + ((3 : ℕ) : ℝ) = 6 := by norm_num
  simp only [List.getD_cons_zero, List.getD_cons_succ, e1, e2, e3, e4, gamma_three,
    gamma_six, Real.Gamma_one, Real.Gamma_two, Real.log_one]
  have h120 : (120 : ℝ) = 2 * 2 * 30 := by norm_num
  rw [h120, Real.log_mul (by norm_num) (by norm_num), Real.log_mul (by norm_num) (by norm_num),
    one_div, Real.log_inv]
  ring

theorem log_gamma_step (x : ℝ) (hx : 0 < x) :
    Real.log (Real.Gamma (x + 1)) - Real.log (Real.Gamma x) = Real.log x := by
  rw [Real.Gamma_add_one hx.ne', Real.log_mul hx.ne' (Real.Gamma_pos_of_pos hx).ne']
  ring

theorem alpha_total_pos (hd : 0 < m.ndim) (hpos : ∀ w, w < m.ndim → 0 < m.alpha w) :
    0 < m.alpha_total := by
  unfold DirichletDiscrete.alpha_total
  apply Finset.sum_pos
  · intro w hw
    exact hpos w (Finset.mem_range.1 hw)
  · exact ⟨0, Finset.mem_range.2 hd⟩

theorem chain_rule (group : Group) (v : Nat) (hv : v < m.ndim)
    (hα : m.ndim ≤ m.alphas.length) (hg : m.ndim ≤ group.counts.length)
    (hpos : ∀ w, w < m.ndim → 0 < m.alpha w) (hlt : group.total m + 1 < count_mod) :
    ∃ s1 s0,
      score_group (fun x => Real.log (Real.Gamma x)) m
        ⟨group.counts.set v ((group.count v + 1) % count_mod)⟩ = some s1 ∧
      score_group (fun x => Real.log (Real.Gamma x)) m group = some s0 ∧
      s1 - s0 = Real.log ((m.alpha v + ((group.count v : ℕ) : ℝ)) /
        ∑ w in Finset.range m.ndim, (m.alpha w + ((group.count w : ℕ) : ℝ))) := by
  have h1 : v < group.counts.length := by omega
  have hcv := count_le_total m group v hv
  have hx : (group.count v + 1) % count_mod = group.count v + 1 :=
    Nat.mod_eq_of_lt (by omega)
  have hcount : ∀ w, (⟨group.counts.set v (group.count v + 1)⟩ : Group).count w =
      if w = v then group.count v + 1 else group.count w := by
    intro w
    simp only [Group.count]
    exact getD_set_counts group.counts v w _ h1
  have htot : Group.total m ⟨group.counts.set v (group.count v + 1)⟩ = group.total m + 1 := by
    have := total_set m group.counts v (group.count v + 1) hv h1
    have e : Group.total m ⟨group.counts⟩ = group.total m := rfl
    rw [e] at this
    simp only [Group.count] at *
    omega
  rw [hx]
  refine ⟨_, _, score_group_spec m _ _ hα (by simpa using hg),
    score_group_spec m _ group hα hg, ?_⟩
  rw [htot, Nat.mod_eq_of_lt hlt, Nat.mod_eq_of_lt (by omega : group.total m < count_mod),
    sum_alpha_count]
  have hA := alpha_total_pos m (by omega) hpos
  have hav := hpos v hv
  have hn : (0 : ℝ) ≤ ((group.total m : ℕ) : ℝ) := Nat.cast_nonneg _
  have hc : (0 : ℝ) ≤ ((group.count v : ℕ) : ℝ) := Nat.cast_nonneg _
  have hsum : ∑ w in Finset.range m.ndim,
        (Real.log (Real.Gamma (m.alpha w +
            (((⟨group.counts.set v (group.count v + 1)⟩ : Group).count w : ℕ) : ℝ))) -
          Real.log (Real.Gamma (m.alpha w))) -
      ∑ w in Finset.range m.ndim,
        (Real.log (Real.Gamma (m.alpha w + ((group.count w : ℕ) : ℝ))) -
          Real.log (Real.Gamma (m.alpha w))) =
      Real.log (m.alpha v + ((group.count v : ℕ) : ℝ)) := by
    rw [← Finset.sum_sub_distrib]
    have : ∀ w ∈ Finset.range m.ndim,
        (Real.log (Real.Gamma (m.alpha w +
            (((⟨group.counts.set v (group.count v + 1)⟩ : Group).count w : ℕ) : ℝ))) -
          Real.log (Real.Gamma (m.alpha w))) -
        (Real.log (Real.Gamma (m.alpha w + ((group.count w : ℕ) : ℝ))) -
          Real.log (Real.Gamma (m.alpha w))) =
        if w = v then Real.log (m.alpha v + ((group.count v : ℕ) : ℝ)) else 0 := by
      intro w _
      rw [hcount w]
      by_cases hwv : w = v
      · subst hwv
        simp only [if_true]
        rw [← log_gamma_step (m.alpha w + ((group.count w : ℕ) : ℝ)) (by linarith)]
        push_cast
        ring_nf
      · simp [hwv]
    rw [Finset.sum_congr rfl this, Finset.sum_ite_eq']
    simp [hv]
  have hstep := log_gamma_step (m.alpha_total + ((group.total m : ℕ) : ℝ)) (by linarith)
  rw [Real.log_div (by linarith) (by linarith)]
  push_cast at hsum hstep ⊢
  rw [add_assoc] at hstep
  linarith

theorem log_gamma_nat_nonneg (n : ℕ) : 0 ≤ Real.log (Real.Gamma ((n : ℝ) + 1)) := by
  rw [Real.Gamma_nat_eq_factorial]
  apply Real.log_nonneg
  exact_mod_cast Nat.succ_le_of_lt (Nat.factorial_pos n)

theorem pair_model_pos : ∀ w, w < pair_model.ndim → 0 < pair_model.alpha w := by
  intro w hw
  have : w = 0 ∨ w = 1 := by
    simp [pair_model, DirichletDiscrete.ndim] at hw
    omega
  rcases this with rfl | rfl <;> simp [pair_model, DirichletDiscrete.alpha]

theorem pair_alpha_total : pair_model.alpha_total = 2 := by
  have hn : pair_model.ndim = 2 := rfl
  rw [DirichletDiscrete.alpha_total, hn]
  simp only [Finset.sum_range_succ, Finset.sum_range_zero, pair_model]
  norm_num

theorem wrapped_scores :
    ∃ s1 s0 x,
      score_group (fun x => Real.log (Real.Gamma x)) pair_model ⟨[4294967295, 1]⟩ = some s1 ∧
      score_group (fun x => Real.log (Real.Gamma x)) pair_model ⟨[4294967295, 0]⟩ = some s0 ∧
      score_value Real.log pair_model ⟨0, [0, 0]⟩ ⟨[4294967295, 0]⟩ ((1 : ℕ) : ℤ) = .ret x ∧
      x < 0 ∧ 0 ≤ s1 - s0 := by
  have hn : pair_model.ndim = 2 := rfl
  refine ⟨_, _, _, score_group_spec pair_model _ ⟨[4294967295, 1]⟩ (by decide) (by decide),
    score_group_spec pair_model _ ⟨[4294967295, 0]⟩ (by decide) (by decide),
    score_value_eq Real.log pair_model ⟨0, [0, 0]⟩ ⟨[4294967295, 0]⟩ 1 (by decide) (by decide)
      (by decide) (by decide), ?_, ?_⟩
  · rw [hn]
    simp only [Finset.sum_range_succ, Finset.sum_range_zero, DirichletDiscrete.alpha,
      Group.count, pair_model, List.getD_cons_zero, List.getD_cons_succ]
    apply Real.log_neg
    · norm_num
    · norm_num
  · have h1 : Group.total pair_model ⟨[4294967295, 1]⟩ % count_mod = 0 := by
      simp [Group.total, hn, Finset.sum_range_succ, Group.count, count_mod]
    have h0 : Group.total pair_model ⟨[4294967295, 0]⟩ % count_mod = 4294967295 := by
      simp [Group.total, hn, Finset.sum_range_succ, Group.count, count_mod]
    rw [h1, h0, pair_alpha_total, hn]
    simp only [Finset.sum_range_succ, Finset.sum_range_zero, DirichletDiscrete.alpha,
      Group.count, pair_model, List.getD_cons_zero, List.getD_cons_succ]
    have e1 : (1 : ℝ) + ((1 : ℕ) : ℝ) = 2 := by norm_num
    have e2 : (1 : ℝ) + ((0 : ℕ) : ℝ) = 1 := by norm_num
    have e3 : (2 : ℝ) + ((0 : ℕ) : ℝ) = 2 := by norm_num
    have e4 : (2 : ℝ) + ((4294967295 : ℕ) : ℝ) = ((4294967296 : ℕ) : ℝ) + 1 := by norm_num
    have hbig := log_gamma_nat_nonneg 4294967296
    rw [e1, e2, e3, e4]
    simp only [Real.Gamma_one, Real.Gamma_two, Real.log_one]
    linarith

theorem set_self {α : Type} (xs : List α) (i : Nat) (a : α) (h : xs[i]? = some a) :
    xs.set i a = xs := by
  apply List.ext_getElem?
  intro j
  rw [List.getElem?_set]
  by_cases hij : i = j
  · subst hij
    have hi : i < xs.length := by
      rw [List.getElem?_eq_some] at h
      exact h.1
    simp [hi, h]
  · simp [hij]

theorem set_set_self {α : Type} (xs : List α) (i : Nat) (a b : α) (h : xs[i]? = some b) :
    (xs.set i a).set i b = xs := by
  rw [List.set_set, set_self xs i b h]

theorem succ_pred_mod (x : Nat) (hx : x < count_mod) :
    ((x + 1) % count_mod + count_mod - 1) % count_mod = x := by
  simp only [count_mod] at *
  omega

theorem count_lt_mod (group : Group) (v : Nat) (hg : group.WF m) : group.count v < count_mod := by
  unfold Group.count
  by_cases hv : v < group.counts.length
  · rw [List.getD_eq_getElem _ _ hv]
    exact hg.2 _ (List.getElem_mem hv)
  · rw [List.getD_eq_default _ _ (by omega)]
    decide

theorem group_add_remove (group : Group) (v : Nat) (hm : m.WF) (hg : group.WF m)
    (hv : v < m.ndim) :
    ∃ g1, group_add_value m group (v : ℤ) = .done g1 ∧
      group_remove_value m g1 (v : ℤ) = .done group := by
  have h1 : v < group.counts.length := by
    have := ndim_le_max_dim m hm
    have := hg.1
    omega
  refine ⟨_, group_add_value_eq m group v hv h1, ?_⟩
  rw [group_remove_value_eq m _ v hv (by simpa using h1)]
  congr 1
  have hx : (⟨group.counts.set v ((group.count v + 1) % count_mod)⟩ : Group).count v =
      (group.count v + 1) % count_mod := by
    simp only [Group.count]
    rw [getD_set_counts _ _ _ _ h1, if_pos rfl]
  rw [hx, succ_pred_mod _ (count_lt_mod m group v hg)]
  have hcnt : group.counts[v]? = some (group.count v) := by
    simp [Group.count, List.getD_eq_getElem?_getD, List.getElem?_eq_getElem h1]
  show (⟨(group.counts.set v _).set v (group.count v)⟩ : Group) = group
  rw [set_set_self _ v _ _ hcnt]

theorem exp_scores_sum (group : Group) (hd : 0 < m.ndim)
    (hpos : ∀ w, w < m.ndim → 0 < m.alpha w) :
    ∑ v in Finset.range m.ndim,
      Real.exp (Real.log ((m.alpha v + ((group.count v : ℕ) : ℝ)) /
        ∑ w in Finset.range m.ndim, (m.alpha w + ((group.count w : ℕ) : ℝ)))) = 1 := by
  have hterm : ∀ v, v < m.ndim → 0 < m.alpha v + ((group.count v : ℕ) : ℝ) := by
    intro v hv
    have h1 := hpos v hv
    have h2 : (0 : ℝ) ≤ ((group.count v : ℕ) : ℝ) := Nat.cast_nonneg _
    linarith
  have hsum : 0 < ∑ w in Finset.range m.ndim, (m.alpha w + ((group.count w : ℕ) : ℝ)) := by
    apply Finset.sum_pos
    · intro w hw
      exact hterm w (Finset.mem_range.1 hw)
    · exact ⟨0, Finset.mem_range.2 hd⟩
  have : ∀ v ∈ Finset.range m.ndim,
      Real.exp (Real.log ((m.alpha v + ((group.count v : ℕ) : ℝ)) /
        ∑ w in Finset.range m.ndim, (m.alpha w + ((group.count w : ℕ) : ℝ)))) =
      (m.alpha v + ((group.count v : ℕ) : ℝ)) /
        ∑ w in Finset.range m.ndim, (m.alpha w + ((group.count w : ℕ) : ℝ)) := by
    intro v hv
    exact Real.exp_log (div_pos (hterm v (Finset.mem_range.1 hv)) hsum)
  rw [Finset.sum_congr rfl this, ← Finset.sum_div]
  exact div_self hsum.ne'

theorem single_classifier_wf (log : ℝ → ℝ) : (single_classifier log).WF pair_model := by
  simp [single_classifier, pair_model, Classifier.WF, Group.WF, count_mod]

theorem single_classifier_parallel (log : ℝ → ℝ) :
    (single_classifier log).Parallel pair_model 1 := by
  refine ⟨rfl, rfl, rfl, ?_⟩
  intro v hv
  have hv0 : v = 0 ∨ v = 1 := by
    simp [pair_model, DirichletDiscrete.ndim] at hv
    omega
  rcases hv0 with rfl | rfl
  · exact ⟨_, rfl, rfl⟩
  · exact ⟨_, rfl, rfl⟩

theorem single_classifier_inv (log : ℝ → ℝ) :
    (single_classifier log).CacheInv log pair_model := by
  refine ⟨?_, ?_, ?_, ?_⟩
  · simp [single_classifier, pair_model, DirichletDiscrete.alpha_total,
      DirichletDiscrete.ndim, Finset.sum_range_succ]
    norm_num
  · intro g hg
    have : g = 0 := by simpa [single_classifier] using hg
    subst this
    simp [single_classifier, pair_model, Classifier.group, Group.total, Group.count,
      DirichletDiscrete.ndim, Finset.sum_range_succ]
  · intro v g hv hg
    have hg0 : g = 0 := by simpa [single_classifier] using hg
    have hv0 : v = 0 ∨ v = 1 := by
      simp [pair_model, DirichletDiscrete.ndim] at hv
      omega
    subst hg0
    rcases hv0 with rfl | rfl
    · simp [single_classifier, pair_model, Classifier.group, Classifier.score?, Group.count,
        DirichletDiscrete.alpha]
    · simp [single_classifier, pair_model, Classifier.group, Classifier.score?, Group.count,
        DirichletDiscrete.alpha]
  · intro g hg
    have : g = 0 := by simpa [single_classifier] using hg
    subst this
    simp [single_classifier]

theorem tallied_first :
    classifier_lazy_add_value pair_model
        ⟨0 + 1 + 1, [⟨[0, 0]⟩], [0], [[0], [0]], [0], false⟩ 0 ((0 : ℕ) : ℤ) =
      .done (tallied_classifier 1 0) :=
  rfl

theorem tallied_step (n : Nat) (hn : n + 1 < count_mod) :
    classifier_lazy_add_value pair_model (tallied_classifier n 0) 0 ((0 : ℕ) : ℤ) =
      .done (tallied_classifier (n + 1) 0) := by
  rw [classifier_lazy_add_value_eq pair_model (tallied_classifier n 0) 0 0
    (by simp [tallied_classifier]) (by decide) (by simp [tallied_classifier, Classifier.group])]
  congr 1
  simp [Classifier.poke, tallied_classifier, Classifier.group, Group.count,
    Nat.mod_eq_of_lt hn]

theorem tallied_reachable (n : Nat) (hn : n + 1 < count_mod) :
    Reachable pair_model (tallied_classifier (n + 1) 0) := by
  induction n with
  | zero =>
    exact Reachable.lazy_add_value _ 0 0 _ pair_init_reachable (by decide) (by decide)
      tallied_first
  | succ n ih =>
    exact Reachable.lazy_add_value _ 0 0 _ (ih (by omega)) (by simp [tallied_classifier])
      (by decide) (tallied_step (n + 1) hn)

theorem tallied_last :
    classifier_lazy_add_value pair_model (tallied_classifier 4294967295 0) 0 ((1 : ℕ) : ℤ) =
      .done (tallied_classifier 4294967295 1) :=
  rfl

theorem tallied_refresh :
    classifier_refresh Real.log pair_model (tallied_classifier 1 0) =
      some ⟨0 + 1 + 1, [⟨[1, 0]⟩], [1],
        [[Real.log (1 + ((1 : ℕ) : ℝ))], [Real.log (1 + ((0 : ℕ) : ℝ))]],
        [Real.log (0 + 1 + 1 + ((1 : ℕ) : ℝ))], false⟩ :=
  rfl

theorem tallied_total (n k : Nat) :
    ((tallied_classifier n k).group 0).total pair_model = n + k := by
  simp [tallied_classifier, pair_model, Classifier.group, Group.total, Group.count,
    DirichletDiscrete.ndim, Finset.sum_range_succ]

theorem tallied_wrapped :
    ∃ t, classifier_refresh Real.log pair_model (tallied_classifier 4294967295 1) = some t ∧
      Reachable pair_model t ∧ t.is_stale = false ∧ t.groups = [⟨[4294967295, 1]⟩] ∧
      t.count_sums[0]? = some 0 ∧ (t.group 0).total pair_model = 4294967296 := by
  have hreach : Reachable pair_model (tallied_classifier 4294967295 1) :=
    Reachable.lazy_add_value _ 0 1 _ (tallied_reachable 4294967294 (by decide)) (by decide)
      (by decide) tallied_last
  have hs := (reachable_inv pair_model _ pair_model_wf hreach).1
  obtain ⟨t, ht, hst, hR⟩ := refresh_spec Real.log pair_model (tallied_classifier 4294967295 1)
    (ndim_le_alphas _ pair_model_wf) (ndim_le_scores _ _ pair_model_wf hs.wf)
    (ndim_le_counts _ _ pair_model_wf hs.wf) (by rw [hs.parallel.2.1])
  have hgr : t.group 0 = (tallied_classifier 4294967295 1).group 0 := by
    simp [Classifier.group, hR.groups]
  refine ⟨t, ht, Reachable.refresh _ t hreach ht, hst, hR.groups, ?_, ?_⟩
  · rw [hR.count_sums 0 (by decide), tallied_total]
    rfl
  · rw [hgr, tallied_total]

theorem log_gamma_nat_pos (n : ℕ) (hn : 2 ≤ n) : 0 < Real.log (Real.Gamma ((n : ℝ) + 1)) := by
  rw [Real.Gamma_nat_eq_factorial]
  apply Real.log_pos
  exact_mod_cast Nat.one_lt_factorial.2 (by omega)

theorem wrapped_closed_form :
    ∃ s, score_group (fun x => Real.log (Real.Gamma x)) pair_model ⟨[4294967295, 1]⟩ =
        some s ∧
      s ≠ ∑ v in Finset.range pair_model.ndim,
          (Real.log (Real.Gamma (pair_model.alpha v +
              (((⟨[4294967295, 1]⟩ : Group).count v : ℕ) : ℝ))) -
            Real.log (Real.Gamma (pair_model.alpha v))) +
        (Real.log (Real.Gamma pair_model.alpha_total) -
          Real.log (Real.Gamma (pair_model.alpha_total +
            ((Group.total pair_model ⟨[4294967295, 1]⟩ : ℕ) : ℝ)))) := by
  have hn : pair_model.ndim = 2 := rfl
  have htot : Group.total pair_model ⟨[4294967295, 1]⟩ = 4294967296 := by
    simp [Group.total, hn, Finset.sum_range_succ, Group.count]
  refine ⟨_, score_group_spec pair_model _ ⟨[4294967295, 1]⟩ (by decide) (by decide), ?_⟩
  rw [htot, pair_alpha_total]
  have e0 : (4294967296 % count_mod : ℕ) = 0 := by decide
  have e1 : (2 : ℝ) + ((0 : ℕ) : ℝ) = 2 := by norm_num
  have e2 : (2 : ℝ) + ((4294967296 : ℕ) : ℝ) = ((4294967297 : ℕ) : ℝ) + 1 := by norm_num
  have hbig := log_gamma_nat_pos 4294967297 (by decide)
  rw [e0, e1, e2]
  intro h
  have h2 : Real.log (Real.Gamma 2) = 0 := by rw [Real.Gamma_two, Real.log_one]
  rw [h2] at h
  linarith

end Operations

section Claims

/-- C1 (as amended): for every classifier (array sizes as the types fix them: `WF`) whose
groups, count_sums, scores_shift and scores[v] (v < dim) all have the same length G, `classifier_refresh` returns, and in the
state it returns is_stale is false, groups is unchanged, alpha_sum is the sum of
alphas[0..dim), and for every group g < G: count_sums[g] is the sum of the counts of g
reduced modulo 2^32 (the plain sum whenever that is below 2^32),
scores_shift[g] = log(alpha_sum + count_sums[g]) and, for every category v < dim,
scores[v][g] = log(alphas[v] + groups[g].counts[v]); log is the real logarithm. -/
theorem C1_refresh_recomputes (m : DirichletDiscrete ℝ) (c : Classifier ℝ) (G : Nat)
    (hm : m.WF) (hc : c.WF m) (hp : c.Parallel m G) :
    ∃ t, classifier_refresh Real.log m c = some t ∧
      t.is_stale = false ∧ t.groups = c.groups ∧ t.alpha_sum = m.alpha_total ∧
      ∀ g, g < G →
        t.count_sums[g]? = some ((c.group g).total m % count_mod) ∧
        ((c.group g).total m < count_mod → t.count_sums[g]? = some ((c.group g).total m)) ∧
        t.scores_shift[g]? =
          some (Real.log (m.alpha_total + (((c.group g).total m % count_mod : ℕ) : ℝ))) ∧
        ∀ v, v < m.ndim →
          t.score? v g = some (Real.log (m.alpha v + (((c.group g).count v : ℕ) : ℝ))) := by
  obtain ⟨p1, p2, p3, p4⟩ := hp
  subst p1
  obtain ⟨t, ht, hs, hR⟩ := refresh_spec Real.log m c (ndim_le_alphas m hm)
    (ndim_le_scores m c hm hc) (ndim_le_counts m c hm hc) (by omega)
  refine ⟨t, ht, hs, hR.groups, hR.alpha_sum, ?_⟩
  intro g hg
  refine ⟨hR.count_sums g hg, ?_, hR.shift g hg, ?_⟩
  · intro hlt
    rw [hR.count_sums g hg, Nat.mod_eq_of_lt hlt]
  · intro v hv
    obtain ⟨row, hr, hl, he⟩ := hR.rows v hv
    simp [Classifier.score?, hr, he g hg]

/-- Witness of C1 at `unit_model`, `unit_classifier`. -/
theorem C1_refresh_recomputes_witness :
    unit_model.WF ∧ unit_classifier.WF unit_model ∧ unit_classifier.Parallel unit_model 1 ∧
      ∃ t, classifier_refresh Real.log unit_model unit_classifier = some t ∧
        t.is_stale = false ∧ t.groups = unit_classifier.groups := by
  obtain ⟨t, h1, h2, h3, -⟩ := C1_refresh_recomputes unit_model unit_classifier 1
    unit_model_wf unit_classifier_wf unit_classifier_parallel
  exact ⟨unit_model_wf, unit_classifier_wf, unit_classifier_parallel, t, h1, h2, h3⟩

/-- C1 as stated fails: the classifier of `pair_model` whose one group has counts
`[2^32 - 1, 1]` has parallel arrays of length 1, and after `classifier_refresh`
count_sums[0] is 0 while the sum of the counts is 2^32. -/
theorem C1_refresh_count_sum_wraps :
    pair_model.WF ∧ (full_classifier Real.log 1 0).WF pair_model ∧
      (full_classifier Real.log 1 0).Parallel pair_model 1 ∧
      ∃ t, classifier_refresh Real.log pair_model (full_classifier Real.log 1 0) = some t ∧
        t.count_sums[0]? = some 0 ∧
        ((full_classifier Real.log 1 0).group 0).total pair_model = 4294967296 ∧
        t.count_sums[0]? ≠ some (((full_classifier Real.log 1 0).group 0).total pair_model) := by
  have hw := full_classifier_wf Real.log 1 0 (by decide) (by decide)
  have hp := full_classifier_parallel Real.log 1 0
  obtain ⟨t, ht, hs, hR⟩ := refresh_spec Real.log pair_model (full_classifier Real.log 1 0)
    (ndim_le_alphas _ pair_model_wf) (ndim_le_scores _ _ pair_model_wf hw)
    (ndim_le_counts _ _ pair_model_wf hw) (by simp [full_classifier])
  have h0 : t.count_sums[0]? = some 0 := by
    have := hR.count_sums 0 (by simp [full_classifier])
    rw [this, full_classifier_total]
    simp [count_mod]
  refine ⟨pair_model_wf, hw, hp, t, ht, h0, full_classifier_total _ _ _, ?_⟩
  rw [h0, full_classifier_total]
  simp

/-- C2, the code at the failing input.  `classifier_add_value` and `classifier_remove_value`
name `classifier.count_sum` (source lines 298 and 313), a member that `Classifier` does not
have, so for no kernel, model, classifier and arguments does either return a classifier.
On the Fresh classifier `single_classifier` of `pair_model` (counts `[1, 0]`, cache
invariant holding) the two calls with groupid 0 and value 0 have no result, while
`classifier_lazy_add_value(0, 0)` followed by `classifier_refresh` returns: the eager path
that the claim compares with the lazy one does not exist. -/
theorem C2_eager_path_ill_formed (log : ℝ → ℝ) (m : DirichletDiscrete ℝ) (c : Classifier ℝ)
    (gid : Nat) (value : ℤ) (t : Classifier ℝ) :
    classifier_add_value log m c gid value ≠ .done t ∧
      classifier_remove_value log m c gid value ≠ .done t ∧
      (single_classifier Real.log).CacheInv Real.log pair_model ∧
      classifier_add_value Real.log pair_model (single_classifier Real.log) 0 0 =
        .undefined ∧
      classifier_remove_value Real.log pair_model (single_classifier Real.log) 0 0 =
        .undefined ∧
      ∃ cl tr, classifier_lazy_add_value pair_model (single_classifier Real.log) 0 0 =
          .done cl ∧
        classifier_refresh Real.log pair_model cl = some tr ∧ tr.count_sums = [2] := by
  refine ⟨add_value_not_done log m c gid value t, remove_value_not_done log m c gid value t,
    single_classifier_inv Real.log,
    add_value_undefined Real.log pair_model _ 0 0 (by decide) (by decide),
    remove_value_undefined Real.log pair_model _ 0 0 (by decide) (by decide), _, _, rfl, rfl,
    rfl⟩

/-- C3: for positive alphas and every Fresh classifier with G groups (array sizes as the
types fix them, parallel arrays, is_stale false, cache invariant), every value in [0, dim) and every accumulator of
length G: `classifier_score_value` returns, and for every g < G the new accum[g] is the old
accum[g] plus `score_value(groups[g], value)`, which is
scores[value][g] - scores_shift[g] = log((alphas[value] + counts[g][value]) divided by the
sum over v < dim of (alphas[v] + counts[g][v])).  The classifier is a `const` argument. -/
theorem C3_score_value_matches_scorer (m : DirichletDiscrete ℝ) (c : Classifier ℝ)
    (accum : List ℝ) (v : Nat) (uninit : Scorer ℝ) (hm : m.WF) (hc : c.WF m)
    (hp : c.Parallel m c.groups.length) (hpos : ∀ w, w < m.ndim → 0 < m.alpha w)
    (hst : c.is_stale = false) (hinv : c.CacheInv Real.log m) (hv : v < m.ndim)
    (hacc : accum.length = c.groups.length) (hun : uninit.alphas.length = m.max_dim) :
    ∃ accum', classifier_score_value m accum c (v : ℤ) = .done accum' ∧
      accum'.length = c.groups.length ∧
      ∀ g, g < c.groups.length →
        ∃ x sc sh, score_value Real.log m uninit (c.group g) (v : ℤ) = .ret x ∧
          x = Real.log ((m.alpha v + (((c.group g).count v : ℕ) : ℝ)) /
            ∑ w in Finset.range m.ndim, (m.alpha w + (((c.group g).count w : ℕ) : ℝ))) ∧
          c.score? v g = some sc ∧ c.scores_shift[g]? = some sh ∧ sc - sh = x ∧
          accum'[g]? = some (accum.getD g 0 + x) := by
  have hα := ndim_le_alphas m hm
  have hcn := ndim_le_counts m c hm hc
  obtain ⟨-, p2, p3, p4⟩ := id hp
  obtain ⟨row, hr, hl⟩ := p4 v hv
  obtain ⟨out, ho, hol, hoe⟩ := vector_add_subtract_spec c.groups.length accum row
    c.scores_shift hacc hl p3
  have hv' : (v : ℤ) < m.dim := (ndim_lt_iff m v).2 hv
  refine ⟨out, by simp [classifier_score_value, DIST_ASSERT1, hst, hv', index?, hr, ho,
    Run.ofOption], hol, ?_⟩
  intro g hg
  have hsv := score_value_eq Real.log m uninit (c.group g) v hv hα
    (hcn _ (group_mem c g hg)) (by rw [hun]; exact ndim_le_max_dim m hm)
  have hsc := hinv.scores v g hv hg
  have hsh := hinv.shift g hg
  have hcs := count_sums_getD m c Real.log hinv g hg
  have hnum : 0 < m.alpha v + (((c.group g).count v : ℕ) : ℝ) := by
    have := hpos v hv
    positivity
  have hden : 0 < ∑ w in Finset.range m.ndim, (m.alpha w + (((c.group g).count w : ℕ) : ℝ)) := by
    apply Finset.sum_pos
    · intro w hw
      have := hpos w (Finset.mem_range.1 hw)
      positivity
    · exact ⟨v, Finset.mem_range.2 hv⟩
  have hx : Real.log (m.alpha v + (((c.group g).count v : ℕ) : ℝ)) -
      Real.log (c.alpha_sum + ((c.count_sums.getD g 0 : ℕ) : ℝ)) =
      Real.log ((m.alpha v + (((c.group g).count v : ℕ) : ℝ)) /
        ∑ w in Finset.range m.ndim, (m.alpha w + (((c.group g).count w : ℕ) : ℝ))) := by
    rw [Real.log_div (ne_of_gt hnum) (ne_of_gt hden), sum_alpha_count, hcs, hinv.alpha_sum]
  refine ⟨_, _, _, hsv, rfl, hsc, hsh, hx, ?_⟩
  rw [hoe g hg, ← hx]
  have e1 : row.getD g 0 = Real.log (m.alpha v + (((c.group g).count v : ℕ) : ℝ)) := by
    have := hsc
    simp only [Classifier.score?, hr, Option.some_bind] at this
    simp [List.getD_eq_getElem?_getD, this]
  have e2 : c.scores_shift.getD g 0 =
      Real.log (c.alpha_sum + ((c.count_sums.getD g 0 : ℕ) : ℝ)) := by
    simp [List.getD_eq_getElem?_getD, hsh]
  rw [e1, e2]

/-- Witness of C3 at `unit_model`, `unit_classifier`, accumulator `[5]`, value 0. -/
theorem C3_score_value_matches_scorer_witness :
    unit_model.WF ∧ unit_classifier.WF unit_model ∧
      unit_classifier.Parallel unit_model unit_classifier.groups.length ∧
      (∀ w, w < unit_model.ndim → 0 < unit_model.alpha w) ∧
      unit_classifier.is_stale = false ∧ unit_classifier.CacheInv Real.log unit_model ∧
      0 < unit_model.ndim ∧ [(5 : ℝ)].length = unit_classifier.groups.length ∧
      (⟨0, [0]⟩ : Scorer ℝ).alphas.length = unit_model.max_dim ∧
      ∃ accum', classifier_score_value unit_model [5] unit_classifier ((0 : ℕ) : ℤ) =
          .done accum' ∧ accum'.length = unit_classifier.groups.length := by
  have hpos : ∀ w, w < unit_model.ndim → 0 < unit_model.alpha w := by
    intro w hw
    have : w = 0 := by simpa [unit_model, DirichletDiscrete.ndim] using hw
    subst this
    simp [unit_model, DirichletDiscrete.alpha]
  obtain ⟨accum', h1, h2, -⟩ := C3_score_value_matches_scorer unit_model unit_classifier [5] 0
    ⟨0, [0]⟩ unit_model_wf unit_classifier_wf unit_classifier_parallel hpos rfl
    unit_classifier_inv (by decide) rfl rfl
  exact ⟨unit_model_wf, unit_classifier_wf, unit_classifier_parallel, hpos, rfl,
    unit_classifier_inv, by decide, rfl, rfl, accum', h1, h2⟩

/-- C4: for every classifier with parallel arrays of length G >= 1 (G a `size_t`) and every
groupid < G, `classifier_remove_group(groupid)` returns a classifier in which groups,
count_sums, scores_shift and scores[v] (v < dim) all have length G-1; at every index
j < G-1 with j != groupid each array holds its pre-removal entry at j; and if
groupid != G-1 each array holds at groupid its pre-removal entry at the last index G-1. -/
theorem C4_remove_group_moves_last (m : DirichletDiscrete ℝ) (c : Classifier ℝ)
    (G gid : Nat) (hp : c.Parallel m G) (hG : 1 ≤ G) (hsz : G < size_mod) (hgid : gid < G) :
    ∃ t, classifier_remove_group m c gid = some t ∧ t.Parallel m (G - 1) ∧
      (∀ j, j < G - 1 → j ≠ gid →
        t.groups[j]? = c.groups[j]? ∧ t.count_sums[j]? = c.count_sums[j]? ∧
        t.scores_shift[j]? = c.scores_shift[j]? ∧
        ∀ v, v < m.ndim → t.score? v j = c.score? v j) ∧
      (gid ≠ G - 1 →
        t.groups[gid]? = c.groups[G - 1]? ∧ t.count_sums[gid]? = c.count_sums[G - 1]? ∧
        t.scores_shift[gid]? = c.scores_shift[G - 1]? ∧
        ∀ v, v < m.ndim → t.score? v gid = c.score? v (G - 1)) := by
  obtain ⟨t, ht, -, -, -, hpar, he, -⟩ := remove_group_spec m c gid G hp hG hsz hgid
  refine ⟨t, ht, hpar, ?_, ?_⟩
  · intro j hj hne
    simpa [hne] using he j hj
  · intro hne
    simpa using he gid (by omega)

/-- Witness of C4: removing group 0 of a two-group classifier of `pair_model`. -/
theorem C4_remove_group_moves_last_witness :
    (⟨2, [⟨[1, 0]⟩, ⟨[0, 3]⟩], [1, 3], [[5, 6], [7, 8]], [9, 10], false⟩ :
        Classifier ℝ).Parallel pair_model 2 ∧ 1 ≤ 2 ∧ 2 < size_mod ∧ 0 < 2 ∧
      ∃ t, classifier_remove_group pair_model
          (⟨2, [⟨[1, 0]⟩, ⟨[0, 3]⟩], [1, 3], [[5, 6], [7, 8]], [9, 10], false⟩ :
            Classifier ℝ) 0 = some t ∧
        t.Parallel pair_model (2 - 1) ∧ t.groups[0]? = some ⟨[0, 3]⟩ ∧
        t.count_sums[0]? = some 3 ∧ t.scores_shift[0]? = some 10 := by
  have hp : (⟨2, [⟨[1, 0]⟩, ⟨[0, 3]⟩], [1, 3], [[5, 6], [7, 8]], [9, 10], false⟩ :
        Classifier ℝ).Parallel pair_model 2 := by
    refine ⟨rfl, rfl, rfl, ?_⟩
    intro v hv
    have : v = 0 ∨ v = 1 := by
      simp [pair_model, DirichletDiscrete.ndim] at hv
      omega
    rcases this with rfl | rfl
    · exact ⟨_, rfl, rfl⟩
    · exact ⟨_, rfl, rfl⟩
  obtain ⟨t, ht, hpar, -, hmove⟩ := C4_remove_group_moves_last pair_model _ 2 0 hp
    (by decide) (by decide) (by decide)
  obtain ⟨h1, h2, h3, -⟩ := hmove (by decide)
  exact ⟨hp, by decide, by decide, by decide, t, ht, hpar, by simpa using h1,
    by simpa using h2, by simpa using h3⟩

/-- C5, the code at the failing input.  `single_classifier` is a Fresh classifier of
`pair_model` (array sizes as the types fix them, parallel arrays, is_stale false, cache
invariant holding) whose group has counts `[1, 0]`.  `classifier_add_value(0, 0)` and
`classifier_remove_value(0, 0)` (the count removed is 1) have no result on it: both
functions name the missing member `classifier.count_sum`, so there is no state after the
call in which the invariant could hold. -/
theorem C5_eager_ops_ill_formed :
    pair_model.WF ∧ (single_classifier Real.log).WF pair_model ∧
      (single_classifier Real.log).Parallel pair_model 1 ∧
      (single_classifier Real.log).is_stale = false ∧
      (single_classifier Real.log).CacheInv Real.log pair_model ∧
      1 ≤ ((single_classifier Real.log).group 0).count 0 ∧
      classifier_add_value Real.log pair_model (single_classifier Real.log) 0 0 =
        .undefined ∧
      classifier_remove_value Real.log pair_model (single_classifier Real.log) 0 0 =
        .undefined :=
  ⟨pair_model_wf, single_classifier_wf Real.log, single_classifier_parallel Real.log, rfl,
    single_classifier_inv Real.log, by decide,
    add_value_undefined Real.log pair_model _ 0 0 (by decide) (by decide),
    remove_value_undefined Real.log pair_model _ 0 0 (by decide) (by decide)⟩

/-- C6, the code at the failing input: on the Fresh classifier of `double_model`
(`alphas = [2]`) with no groups, `classifier_add_group` returns a classifier whose appended
slot has scores[0][0] = 0 and scores_shift[0] = 0 with is_stale still false, while
log(alphas[0]) = log 2 is not 0, so the cache invariant no longer holds. -/
theorem C6_add_group_zero_fills :
    (empty_classifier 2 false).CacheInv Real.log double_model ∧
      classifier_add_group double_model (empty_classifier 2 false) =
        some ⟨2, [⟨[0]⟩], [0], [[0]], [0], false⟩ ∧
      (⟨2, [⟨[0]⟩], [0], [[0]], [0], false⟩ : Classifier ℝ).score? 0 0 = some 0 ∧
      Real.log (double_model.alpha 0) ≠ 0 ∧
      ¬ (⟨2, [⟨[0]⟩], [0], [[0]], [0], false⟩ : Classifier ℝ).CacheInv Real.log
        double_model := by
  have h2 : Real.log 2 ≠ 0 := (Real.log_pos (by norm_num : (1 : ℝ) < 2)).ne'
  refine ⟨⟨?_, ?_, ?_, ?_⟩, rfl, rfl, ?_, ?_⟩
  · simp [empty_classifier, double_model, DirichletDiscrete.alpha_total, DirichletDiscrete.ndim]
  · intro g hg
    simp [empty_classifier] at hg
  · intro v g _ hg
    simp [empty_classifier] at hg
  · intro g hg
    simp [empty_classifier] at hg
  · simpa [double_model, DirichletDiscrete.alpha] using h2
  · intro h
    have := h.scores 0 0 (by decide) (by decide)
    simp [Classifier.score?, double_model, DirichletDiscrete.alpha, Classifier.group,
      Group.count] at this
    exact h2 this.symm

/-- C7, the code at the failing input: `classifier_init(1)` on `double_model`
(`alphas = [2]`) returns a classifier with one empty group, count_sums[0] = 0 and is_stale
false, but scores[0][0] = 0 and scores_shift[0] = 0, while the invariant that is_stale = false
promises asks for log(2 + 0) in both cells, which is not 0. -/
theorem C7_init_zero_fills :
    ∃ t, classifier_init double_model (empty_classifier 0 true) 1 = some t ∧
      t.groups = [⟨[0]⟩] ∧ t.count_sums = [0] ∧ t.is_stale = false ∧ t.alpha_sum = 2 ∧
      t.score? 0 0 = some 0 ∧ t.scores_shift[0]? = some 0 ∧
      Real.log (double_model.alpha 0 + (((t.group 0).count 0 : ℕ) : ℝ)) ≠ 0 ∧
      Real.log (t.alpha_sum + ((t.count_sums.getD 0 0 : ℕ) : ℝ)) ≠ 0 ∧
      ¬ t.CacheInv Real.log double_model := by
  have h2 : Real.log 2 ≠ 0 := (Real.log_pos (by norm_num : (1 : ℝ) < 2)).ne'
  refine ⟨⟨0 + 2, [⟨[0]⟩], [0], [[0]], [0], false⟩, rfl, rfl, rfl, rfl, by norm_num, rfl, rfl,
    ?_, ?_, ?_⟩
  · simpa [double_model, DirichletDiscrete.alpha, Classifier.group, Group.count] using h2
  · simpa using h2
  · intro h
    have := h.scores 0 0 (by decide) (by decide)
    simp [Classifier.score?, double_model, DirichletDiscrete.alpha, Classifier.group,
      Group.count] at this
    exact h2 this.symm

/-- C8 (as amended): in every classifier state reachable from `classifier_init` by
`classifier_add_group`, `classifier_remove_group`, `classifier_lazy_add_value` and
`classifier_refresh` calls with in-range arguments in which is_stale is false, for every
group g: count_sums[g] equals the sum over v < dim of groups[g].counts[v] reduced modulo
2^32, hence the sum itself whenever that is below 2^32.  (`classifier_add_value` and
`classifier_remove_value` reach no state: they cannot be instantiated.) -/
theorem C8_count_sums_when_not_stale (m : DirichletDiscrete ℝ) (c : Classifier ℝ)
    (hm : m.WF) (h : Reachable m c) (hst : c.is_stale = false) (g : Nat)
    (hg : g < c.groups.length) :
    c.count_sums[g]? = some ((c.group g).total m % count_mod) ∧
      ((c.group g).total m < count_mod → c.count_sums[g]? = some ((c.group g).total m)) := by
  have h1 := (reachable_inv m c hm h).2 hst g hg
  refine ⟨h1, fun hlt => ?_⟩
  rw [h1, Nat.mod_eq_of_lt hlt]

/-- Witness of C8 on `pair_model`: the state after `classifier_init(1)`,
`classifier_lazy_add_value(0, 0)` and `classifier_refresh`, whose group has counts `[1, 0]`
and whose count_sums is `[1]`. -/
theorem C8_count_sums_when_not_stale_witness :
    pair_model.WF ∧
      classifier_init pair_model ⟨0, [], [], [[], []], [], true⟩ 1 =
        some ⟨0 + 1 + 1, [⟨[0, 0]⟩], [0], [[0], [0]], [0], false⟩ ∧
      classifier_lazy_add_value pair_model
          ⟨0 + 1 + 1, [⟨[0, 0]⟩], [0], [[0], [0]], [0], false⟩ 0 ((0 : ℕ) : ℤ) =
        .done (tallied_classifier 1 0) ∧
      classifier_refresh Real.log pair_model (tallied_classifier 1 0) =
        some ⟨0 + 1 + 1, [⟨[1, 0]⟩], [1],
          [[Real.log (1 + ((1 : ℕ) : ℝ))], [Real.log (1 + ((0 : ℕ) : ℝ))]],
          [Real.log (0 + 1 + 1 + ((1 : ℕ) : ℝ))], false⟩ ∧
      Reachable pair_model ⟨0 + 1 + 1, [⟨[1, 0]⟩], [1],
          [[Real.log (1 + ((1 : ℕ) : ℝ))], [Real.log (1 + ((0 : ℕ) : ℝ))]],
          [Real.log (0 + 1 + 1 + ((1 : ℕ) : ℝ))], false⟩ ∧
      (⟨0 + 1 + 1, [⟨[1, 0]⟩], [1],
          [[Real.log (1 + ((1 : ℕ) : ℝ))], [Real.log (1 + ((0 : ℕ) : ℝ))]],
          [Real.log (0 + 1 + 1 + ((1 : ℕ) : ℝ))], false⟩ : Classifier ℝ).count_sums[0]? =
        some ((Group.total pair_model ⟨[1, 0]⟩) % count_mod) := by
  have hr : Reachable pair_model ⟨0 + 1 + 1, [⟨[1, 0]⟩], [1],
      [[Real.log (1 + ((1 : ℕ) : ℝ))], [Real.log (1 + ((0 : ℕ) : ℝ))]],
      [Real.log (0 + 1 + 1 + ((1 : ℕ) : ℝ))], false⟩ :=
    Reachable.refresh _ _ (tallied_reachable 0 (by decide)) tallied_refresh
  exact ⟨pair_model_wf, pair_init, tallied_first, tallied_refresh, hr,
    (C8_count_sums_when_not_stale pair_model _ pair_model_wf hr rfl 0 (by decide)).1⟩

/-- C8 as stated fails in two ways.  After `classifier_init(1)` and
`classifier_lazy_add_value(0, 0)` on `unit_model` the state is reachable, its count is 1 and
count_sums[0] is still 0.  After `classifier_init(1)`, `2^32 - 1` calls
`classifier_lazy_add_value(0, 0)`, one call `classifier_lazy_add_value(0, 1)` and
`classifier_refresh` on `pair_model` the state is reachable with is_stale false, its counts
`[2^32 - 1, 1]` sum to 2^32 and count_sums[0] is 0. -/
theorem C8_count_sums_lag_and_wrap :
    (Reachable unit_model ⟨0 + 1, [⟨[1]⟩], [0], [[0]], [0], true⟩ ∧
      (⟨0 + 1, [⟨[1]⟩], [0], [[0]], [0], true⟩ : Classifier ℝ).count_sums[0]? = some 0 ∧
      ((⟨0 + 1, [⟨[1]⟩], [0], [[0]], [0], true⟩ : Classifier ℝ).group 0).total unit_model = 1) ∧
    ∃ t, classifier_refresh Real.log pair_model (tallied_classifier 4294967295 1) = some t ∧
      Reachable pair_model t ∧ t.is_stale = false ∧ t.groups = [⟨[4294967295, 1]⟩] ∧
      t.count_sums[0]? = some 0 ∧ (t.group 0).total pair_model = 4294967296 := by
  refine ⟨⟨?_, rfl, ?_⟩, tallied_wrapped⟩
  · have h0 : Reachable unit_model ⟨0 + 1, [⟨[0]⟩], [0], [[0]], [0], false⟩ :=
      Reachable.init (empty_classifier 0 true) 1 _
        (by simp [Classifier.WF, empty_classifier, unit_model]) (by decide) rfl
    exact Reachable.lazy_add_value _ 0 0 _ h0 (by decide) (by decide) rfl
  · simp [Classifier.group, Group.total, Group.count, unit_model, DirichletDiscrete.ndim]

/-- C9 (as amended): `classifier_score_value` faults whenever is_stale is true, leaving the
accumulator unchanged; `classifier_lazy_add_value` sets is_stale to true whenever it returns
(also when it was already true); consequently, in any sequence of calls other than
`classifier_init` and `classifier_refresh` that follows a `classifier_lazy_add_value`,
a `classifier_score_value` call after the sequence faults. -/
theorem C9_stale_blocks_scoring (m : DirichletDiscrete ℝ) (c : Classifier ℝ)
    (accum : List ℝ) (value : ℤ) (gid : Nat) (v : ℤ) (t : Classifier ℝ) (ops : List Op)
    (t' : Classifier ℝ) :
    (c.is_stale = true →
      classifier_score_value m accum c value = .fault "classifier is stale" accum) ∧
    (classifier_lazy_add_value m c gid v = .done t →
      t.is_stale = true ∧
      ((∀ op ∈ ops, op.resets = false) → calls Real.log m t ops = some t' →
        t'.is_stale = true ∧
        classifier_score_value m accum t' value = .fault "classifier is stale" accum)) := by
  refine ⟨score_value_stale m c accum value, fun h => ?_⟩
  have hst := lazy_add_value_done_stale m c gid v t h
  refine ⟨hst, fun hops hcalls => ?_⟩
  have hst' := calls_keep_stale Real.log m t ops t' hops hst hcalls
  exact ⟨hst', score_value_stale m t' accum value hst'⟩

/-- Witness of C9: on `unit_model`, from a classifier that is already stale,
`classifier_lazy_add_value(0, 0)` returns, `classifier_add_group` follows, and both
`classifier_score_value` calls fault with the accumulator `[5]` unchanged. -/
theorem C9_stale_blocks_scoring_witness :
    (⟨1, [⟨[0]⟩], [0], [[0]], [0], true⟩ : Classifier ℝ).is_stale = true ∧
      classifier_lazy_add_value unit_model ⟨1, [⟨[0]⟩], [0], [[0]], [0], true⟩ 0 0 =
        .done ⟨1, [⟨[1]⟩], [0], [[0]], [0], true⟩ ∧
      (∀ op ∈ [Op.add_group], op.resets = false) ∧
      calls Real.log unit_model ⟨1, [⟨[1]⟩], [0], [[0]], [0], true⟩ [Op.add_group] =
        some ⟨1, [⟨[1]⟩, ⟨[0]⟩], [0, 0], [[0, 0]], [0, 0], true⟩ ∧
      classifier_score_value unit_model [5] ⟨1, [⟨[0]⟩], [0], [[0]], [0], true⟩ 0 =
        .fault "classifier is stale" [5] ∧
      classifier_score_value unit_model [5]
          ⟨1, [⟨[1]⟩, ⟨[0]⟩], [0, 0], [[0, 0]], [0, 0], true⟩ 0 =
        .fault "classifier is stale" [5] := by
  have hops : ∀ op ∈ [Op.add_group], op.resets = false := by
    intro op hop
    rw [List.mem_singleton] at hop
    rw [hop]
    rfl
  have h := C9_stale_blocks_scoring unit_model ⟨1, [⟨[0]⟩], [0], [[0]], [0], true⟩ [5] 0 0 0
    ⟨1, [⟨[1]⟩], [0], [[0]], [0], true⟩ [Op.add_group]
    ⟨1, [⟨[1]⟩, ⟨[0]⟩], [0, 0], [[0, 0]], [0, 0], true⟩
  exact ⟨rfl, rfl, hops, rfl, h.1 rfl, ((h.2 rfl).2 hops rfl).2⟩

/-- C9 as stated fails: on `unit_model`, `classifier_lazy_add_value(0, 0)` makes the
classifier stale, `classifier_init(1)` then sets is_stale to false without a
`classifier_refresh`, and the `classifier_score_value` call that follows returns. -/
theorem C9_init_clears_stale :
    classifier_lazy_add_value unit_model unit_classifier 0 0 =
        .done ⟨1, [⟨[1]⟩], [0], [[0]], [0], true⟩ ∧
      classifier_init unit_model ⟨1, [⟨[1]⟩], [0], [[0]], [0], true⟩ 1 =
        some ⟨0 + 1, [⟨[0]⟩], [0], [[0]], [0], false⟩ ∧
      classifier_score_value unit_model [5] ⟨0 + 1, [⟨[0]⟩], [0], [[0]], [0], false⟩ 0 =
        .done [5 + (0 - 0)] :=
  ⟨rfl, rfl, rfl⟩

/-- C10, the code at the failing input (on `unit_model`, `dim = 1`).  At value = -1 the one
assertion `value < dim` passes, and every operation that takes a category value and can be
instantiated goes on to index an array at -1, an access outside the array, instead of
faulting; at value = 1 = dim the same operations fault and leave their object unchanged. -/
theorem C10_negative_value_not_rejected :
    (group_add_value unit_model ⟨[0]⟩ (-1) = .undefined ∧
      group_remove_value unit_model ⟨[0]⟩ (-1) = .undefined ∧
      scorer_eval Real.log unit_model ⟨1, [1]⟩ (-1) = .undefined ∧
      score_value Real.log unit_model ⟨0, [0]⟩ ⟨[0]⟩ (-1) = .undefined ∧
      classifier_lazy_add_value unit_model unit_classifier 0 (-1) = .undefined ∧
      classifier_score_value unit_model [5] unit_classifier (-1) = .undefined) ∧
    (group_add_value unit_model ⟨[0]⟩ 1 = .fault "value out of bounds" ⟨[0]⟩ ∧
      group_remove_value unit_model ⟨[0]⟩ 1 = .fault "value out of bounds" ⟨[0]⟩ ∧
      scorer_eval Real.log unit_model ⟨1, [1]⟩ 1 = .fault "value out of bounds" ∧
      score_value Real.log unit_model ⟨0, [0]⟩ ⟨[0]⟩ 1 = .fault "value out of bounds" ∧
      classifier_lazy_add_value unit_model unit_classifier 0 1 =
        .fault "value out of bounds" unit_classifier ∧
      classifier_score_value unit_model [5] unit_classifier 1 =
        .fault "value out of bounds" [5]) :=
  ⟨⟨rfl, rfl, rfl, rfl, rfl, rfl⟩, rfl, rfl, rfl, rfl, rfl, rfl⟩

/-- C11, the code at the failing inputs: on `unit_classifier` (G = 1) with groupid = 1 the
three operations that assert `groupid < groups.size()` fault and leave the classifier
unchanged, while `classifier_remove_group`, which has no such assertion, goes on to
`std::swap(groups[1], groups.back())`, an access outside the vector; on a classifier with
no groups `groups.size() - 1` wraps to 2^64 - 1 and `classifier_remove_group(0)` reaches
`groups[0]` of an empty vector. -/
theorem C11_remove_group_unchecked :
    classifier_lazy_add_value unit_model unit_classifier 1 0 =
        .fault "groupid out of bounds" unit_classifier ∧
      classifier_add_value Real.log unit_model unit_classifier 1 0 =
        .fault "groupid out of bounds" unit_classifier ∧
      classifier_remove_value Real.log unit_model unit_classifier 1 0 =
        .fault "groupid out of bounds" unit_classifier ∧
      classifier_remove_group unit_model unit_classifier 1 = none ∧
      classifier_remove_group unit_model unit_classifier 2 = none ∧
      classifier_remove_group unit_model (empty_classifier 1 false) 0 = none :=
  ⟨rfl, rfl, rfl, rfl, rfl, rfl⟩

/-- C12: for every model (every dim, every alphas, in particular positive ones) and every
log-gamma kernel, `score_group` of a group whose counts are all zero returns exactly 0; the
group that `group_init` produces is such a group. -/
theorem C12_score_group_empty (fast_lgamma : ℝ → ℝ) (m : DirichletDiscrete ℝ)
    (group : Group) (hm : m.WF) (hg : group.WF m) :
    ((∀ v, v < m.ndim → group.count v = 0) → score_group fast_lgamma m group = some 0) ∧
      ∃ g0, group_init m group = some g0 ∧ (∀ v, v < m.ndim → g0.count v = 0) ∧
        score_group fast_lgamma m g0 = some 0 := by
  have hα := ndim_le_alphas m hm
  have hn : m.ndim ≤ group.counts.length := by
    rw [hg.1]
    exact ndim_le_max_dim m hm
  refine ⟨score_group_zero m fast_lgamma group hα hn, ?_⟩
  obtain ⟨g0, h0, h1, h2, -⟩ := group_init_spec m group hn
  have hz : ∀ v, v < m.ndim → g0.count v = 0 := by
    intro v hv
    simp [Group.count, List.getD_eq_getElem?_getD, h2 v hv]
  exact ⟨g0, h0, hz, score_group_zero m fast_lgamma g0 hα (by omega) hz⟩

/-- Witness of C12 at the spec's scenario: `dim = 3`, `alphas = [1, 1, 1]`, the empty
group, log-gamma the logarithm of the Gamma function. -/
theorem C12_score_group_empty_witness :
    triple_model.WF ∧ (⟨[0, 0, 0]⟩ : Group).WF triple_model ∧
      (∀ v, v < triple_model.ndim → (⟨[0, 0, 0]⟩ : Group).count v = 0) ∧
      score_group (fun x => Real.log (Real.Gamma x)) triple_model ⟨[0, 0, 0]⟩ = some 0 := by
  have hg : (⟨[0, 0, 0]⟩ : Group).WF triple_model := by
    simp [Group.WF, triple_model, count_mod]
  have hz : ∀ v, v < triple_model.ndim → (⟨[0, 0, 0]⟩ : Group).count v = 0 := by
    intro v hv
    have : v = 0 ∨ v = 1 ∨ v = 2 := by
      simp [triple_model, DirichletDiscrete.ndim] at hv
      omega
    rcases this with rfl | rfl | rfl <;> rfl
  exact ⟨triple_model_wf, hg, hz,
    (C12_score_group_empty (fun x => Real.log (Real.Gamma x)) triple_model ⟨[0, 0, 0]⟩
      triple_model_wf hg).1 hz⟩

/-- C14: `group_merge` adds counts elementwise and only that.  For distinct groups A, B, C
(`& destin != & source` in every call): after `group_merge(A, B)` then `group_merge(C, A)`,
for every v < dim C.counts[v] = C0[v] + A0[v] + B0[v] in `count_t` arithmetic (mod 2^32);
merging A0 and B0 into C separately, in either order, gives the same group; the source is a
`const` argument; and applying `group_merge(A, B)` twice yields A0[v] + 2*B0[v] (mod 2^32),
which is the result of one merge exactly when every count of B is zero. -/
theorem C14_merge_adds_counts (m : DirichletDiscrete ℝ) (A B C : Group) (hm : m.WF)
    (hA : A.WF m) (hB : B.WF m) (hC : C.WF m) :
    ∃ A1 C1, group_merge m A B false = .done A1 ∧ group_merge m C A1 false = .done C1 ∧
      (∀ v, v < m.ndim →
        C1.count v = (C.count v + A.count v + B.count v) % count_mod) ∧
      (∃ C2 C3, group_merge m C A false = .done C2 ∧ group_merge m C2 B false = .done C3 ∧
        C3 = C1) ∧
      (∃ C4 C5, group_merge m C B false = .done C4 ∧ group_merge m C4 A false = .done C5 ∧
        C5 = C1) ∧
      (∃ A2, group_merge m A1 B false = .done A2 ∧
        (∀ v, v < m.ndim → A2.count v = (A.count v + 2 * B.count v) % count_mod) ∧
        (A2 = A1 ↔ ∀ v, v < m.ndim → B.count v = 0)) := by
  have hmax := ndim_le_max_dim m hm
  have lA : m.ndim ≤ A.counts.length := by rw [hA.1]; exact hmax
  have lB : m.ndim ≤ B.counts.length := by rw [hB.1]; exact hmax
  have lC : m.ndim ≤ C.counts.length := by rw [hC.1]; exact hmax
  have pl := plus_length m
  have hBlt : ∀ v, v < m.ndim → B.count v < count_mod := by
    intro v hv
    have hvl : v < B.counts.length := by omega
    simp only [Group.count, List.getD_eq_getElem _ _ hvl]
    exact hB.2 _ (List.getElem_mem _)
  refine ⟨Group.plus m A B, Group.plus m C (Group.plus m A B), group_merge_eq m A B lA lB,
    group_merge_eq m C _ lC (by rw [pl]; exact lA), ?_, ?_, ?_, ?_⟩
  · intro v hv
    rw [plus_count m C _ v (by omega), if_pos hv, plus_count m A B v (by omega), if_pos hv]
    simp only [count_mod]
    omega
  · refine ⟨Group.plus m C A, Group.plus m (Group.plus m C A) B, group_merge_eq m C A lC lA,
      group_merge_eq m _ B (by rw [pl]; exact lC) lB, ?_⟩
    apply group_ext _ _ (by simp only [pl])
    intro v hv
    simp only [pl] at hv
    rw [plus_count m _ B v (by rw [pl]; exact hv), plus_count m C A v hv,
      plus_count m C _ v hv]
    by_cases hvn : v < m.ndim
    · rw [if_pos hvn, if_pos hvn, if_pos hvn, plus_count m A B v (by omega), if_pos hvn]
      simp only [count_mod]
      omega
    · rw [if_neg hvn, if_neg hvn, if_neg hvn]
  · refine ⟨Group.plus m C B, Group.plus m (Group.plus m C B) A, group_merge_eq m C B lC lB,
      group_merge_eq m _ A (by rw [pl]; exact lC) lA, ?_⟩
    apply group_ext _ _ (by simp only [pl])
    intro v hv
    simp only [pl] at hv
    rw [plus_count m _ A v (by rw [pl]; exact hv), plus_count m C B v hv,
      plus_count m C _ v hv]
    by_cases hvn : v < m.ndim
    · rw [if_pos hvn, if_pos hvn, if_pos hvn, plus_count m A B v (by omega), if_pos hvn]
      simp only [count_mod]
      omega
    · rw [if_neg hvn, if_neg hvn, if_neg hvn]
  · refine ⟨Group.plus m (Group.plus m A B) B,
      group_merge_eq m _ B (by rw [pl]; exact lA) lB, ?_, ?_⟩
    · intro v hv
      rw [plus_count m _ B v (by rw [pl]; omega), if_pos hv, plus_count m A B v (by omega),
        if_pos hv]
      simp only [count_mod]
      omega
    · constructor
      · intro heq v hv
        have h1 := congrArg (fun g => Group.count g v) heq
        simp only at h1
        rw [plus_count m _ B v (by rw [pl]; omega), if_pos hv, plus_count m A B v (by omega),
          if_pos hv] at h1
        have h2 := hBlt v hv
        simp only [count_mod] at h1 h2
        omega
      · intro hz
        apply group_ext _ _ (by simp only [pl])
        intro v hv
        simp only [pl] at hv
        rw [plus_count m _ B v (by rw [pl]; exact hv), plus_count m A B v hv]
        by_cases hvn : v < m.ndim
        · rw [if_pos hvn, if_pos hvn, hz v hvn]
          simp
        · rw [if_neg hvn, if_neg hvn]

/-- Witness of C14 on `pair_model` with A = [1, 2], B = [3, 4], C = [5, 6]. -/
theorem C14_merge_adds_counts_witness :
    pair_model.WF ∧ (⟨[1, 2]⟩ : Group).WF pair_model ∧ (⟨[3, 4]⟩ : Group).WF pair_model ∧
      (⟨[5, 6]⟩ : Group).WF pair_model ∧
      ∃ A1 C1, group_merge pair_model ⟨[1, 2]⟩ ⟨[3, 4]⟩ false = .done A1 ∧
        group_merge pair_model ⟨[5, 6]⟩ A1 false = .done C1 ∧
        ∀ v, v < pair_model.ndim →
          C1.count v = ((⟨[5, 6]⟩ : Group).count v + (⟨[1, 2]⟩ : Group).count v +
            (⟨[3, 4]⟩ : Group).count v) % count_mod := by
  have h1 : (⟨[1, 2]⟩ : Group).WF pair_model := by simp [Group.WF, pair_model, count_mod]
  have h2 : (⟨[3, 4]⟩ : Group).WF pair_model := by simp [Group.WF, pair_model, count_mod]
  have h3 : (⟨[5, 6]⟩ : Group).WF pair_model := by simp [Group.WF, pair_model, count_mod]
  obtain ⟨A1, C1, e1, e2, e3, -⟩ := C14_merge_adds_counts pair_model ⟨[1, 2]⟩ ⟨[3, 4]⟩
    ⟨[5, 6]⟩ pair_model_wf h1 h2 h3
  exact ⟨pair_model_wf, h1, h2, h3, A1, C1, e1, e2, e3⟩

/-- C15 (as amended): `classifier_lazy_add_value(groupid, value)`, for groupid < G and value
in [0, dim), returns; it increments groups[groupid].counts[value] by one in `count_t`
arithmetic (by exactly one unless the count is 2^32 - 1, which wraps to 0) and sets
is_stale; every other count of every group, count_sums, every scores[v][g], every
scores_shift[g], alpha_sum and the group count are left unchanged. -/
theorem C15_lazy_add_value_frame (m : DirichletDiscrete ℝ) (c : Classifier ℝ)
    (gid v : Nat) (hm : m.WF) (hc : c.WF m) (hg : gid < c.groups.length)
    (hv : v < m.ndim) :
    ∃ t, classifier_lazy_add_value m c gid (v : ℤ) = .done t ∧ t.is_stale = true ∧
      (t.group gid).count v = ((c.group gid).count v + 1) % count_mod ∧
      ((c.group gid).count v + 1 < count_mod →
        (t.group gid).count v = (c.group gid).count v + 1) ∧
      (∀ g w, ¬ (g = gid ∧ w = v) → (t.group g).count w = (c.group g).count w) ∧
      t.groups.length = c.groups.length ∧ t.count_sums = c.count_sums ∧
      t.scores = c.scores ∧ t.scores_shift = c.scores_shift ∧
      t.alpha_sum = c.alpha_sum := by
  have h1 : v < (c.group gid).counts.length := by
    have := ndim_le_counts m c hm hc _ (group_mem c gid hg)
    omega
  have hgr : ∀ g, ({ c.poke gid v (((c.group gid).count v + 1) % count_mod) with
      is_stale := true } : Classifier ℝ).group g =
      (c.poke gid v (((c.group gid).count v + 1) % count_mod)).group g := fun g => rfl
  refine ⟨_, classifier_lazy_add_value_eq m c gid v hg hv h1, rfl, ?_, ?_, ?_,
    by simp [Classifier.poke], rfl, rfl, rfl, rfl⟩
  · rw [hgr, poke_count c gid v _ gid v hg h1]
    simp
  · intro hlt
    rw [hgr, poke_count c gid v _ gid v hg h1]
    simp [Nat.mod_eq_of_lt hlt]
  · intro g w hne
    rw [hgr, poke_count c gid v _ g w hg h1, if_neg hne]

/-- Witness of C15 at `unit_model`, `unit_classifier`, group 0, value 0. -/
theorem C15_lazy_add_value_frame_witness :
    unit_model.WF ∧ unit_classifier.WF unit_model ∧ 0 < unit_classifier.groups.length ∧
      0 < unit_model.ndim ∧
      ∃ t, classifier_lazy_add_value unit_model unit_classifier 0 ((0 : ℕ) : ℤ) = .done t ∧
        t.is_stale = true ∧
        (t.group 0).count 0 = ((unit_classifier.group 0).count 0 + 1) % count_mod := by
  obtain ⟨t, h1, h2, h3, -⟩ := C15_lazy_add_value_frame unit_model unit_classifier 0 0
    unit_model_wf unit_classifier_wf (by decide) (by decide)
  exact ⟨unit_model_wf, unit_classifier_wf, by decide, by decide, t, h1, h2, h3⟩

/-- C15 as stated fails at the top of `count_t`: on the classifier of `pair_model` whose
group has counts `[2^32 - 1, 0]`, `classifier_lazy_add_value(0, 0)` returns a classifier in
which counts[0] is 0, not 2^32 - 1 plus one. -/
theorem C15_lazy_add_value_wraps :
    pair_model.WF ∧ (full_classifier Real.log 0 4294967295).WF pair_model ∧
      ((full_classifier Real.log 0 4294967295).group 0).count 0 = 4294967295 ∧
      ∃ t, classifier_lazy_add_value pair_model (full_classifier Real.log 0 4294967295) 0 0 =
          .done t ∧
        (t.group 0).count 0 = 0 ∧
        (t.group 0).count 0 ≠
          ((full_classifier Real.log 0 4294967295).group 0).count 0 + 1 :=
  ⟨pair_model_wf, full_classifier_wf Real.log 0 4294967295 (by decide) (by decide), rfl,
    _, rfl, rfl, by decide⟩

/-- C16 (as amended): for every log-gamma kernel `score_group` returns the sum over v < dim of
[lgamma(alphas[v] + counts[v]) - lgamma(alphas[v])] plus lgamma(alpha_sum) -
lgamma(alpha_sum + count_sum), where alpha_sum is the sum of the alphas and count_sum is the
function's `count_t` accumulator of the counts (their sum, reduced mod 2^32; the sum itself
when that is below 2^32); with lgamma the logarithm of the Gamma function, dim = 3,
alphas = [1, 1, 1] and counts = [2, 0, 1] it returns log(1/30) = -log 30. -/
theorem C16_score_group_closed_form (lgamma : ℝ → ℝ) (m : DirichletDiscrete ℝ)
    (group : Group) (hm : m.WF) (hg : group.WF m) :
    score_group lgamma m group =
        some (∑ v in Finset.range m.ndim,
            (lgamma (m.alpha v + ((group.count v : ℕ) : ℝ)) - lgamma (m.alpha v)) +
          (lgamma m.alpha_total -
            lgamma (m.alpha_total + ((group.total m % count_mod : ℕ) : ℝ)))) ∧
      (group.total m < count_mod → group.total m % count_mod = group.total m) ∧
      score_group (fun x => Real.log (Real.Gamma x)) triple_model ⟨[2, 0, 1]⟩ =
        some (Real.log (1 / 30)) ∧
      Real.log (1 / 30) = -Real.log 30 := by
  refine ⟨score_group_spec m lgamma group (ndim_le_alphas m hm) ?_, Nat.mod_eq_of_lt,
    triple_score, ?_⟩
  · rw [hg.1]
    exact ndim_le_max_dim m hm
  · rw [one_div, Real.log_inv]

/-- Witness of C16 at the spec's scenario: `dim = 3`, `alphas = [1, 1, 1]`,
`counts = [2, 0, 1]`, log-gamma the logarithm of the Gamma function. -/
theorem C16_score_group_closed_form_witness :
    triple_model.WF ∧ (⟨[2, 0, 1]⟩ : Group).WF triple_model ∧
      score_group (fun x => Real.log (Real.Gamma x)) triple_model ⟨[2, 0, 1]⟩ =
        some (Real.log (1 / 30)) := by
  have hg : (⟨[2, 0, 1]⟩ : Group).WF triple_model := by
    simp [Group.WF, triple_model, count_mod]
  exact ⟨triple_model_wf, hg,
    (C16_score_group_closed_form (fun x => Real.log (Real.Gamma x)) triple_model ⟨[2, 0, 1]⟩
      triple_model_wf hg).2.2.1⟩

/-- C16 as stated fails when count_sum is the total of the counts: in `pair_model`
(dim = 2, alphas = [1, 1]) with counts `[2^32 - 1, 1]` the counts sum to 2^32, the
`count_t` accumulator of `score_group` wraps to 0, and the value returned differs from the
closed form evaluated with the total 2^32 (lgamma the logarithm of the Gamma function). -/
theorem C16_count_sum_wraps :
    pair_model.WF ∧ (⟨[4294967295, 1]⟩ : Group).WF pair_model ∧
      Group.total pair_model ⟨[4294967295, 1]⟩ = 4294967296 ∧
      ∃ s, score_group (fun x => Real.log (Real.Gamma x)) pair_model ⟨[4294967295, 1]⟩ =
          some s ∧
        s ≠ ∑ v in Finset.range pair_model.ndim,
            (Real.log (Real.Gamma (pair_model.alpha v +
                (((⟨[4294967295, 1]⟩ : Group).count v : ℕ) : ℝ))) -
              Real.log (Real.Gamma (pair_model.alpha v))) +
          (Real.log (Real.Gamma pair_model.alpha_total) -
            Real.log (Real.Gamma (pair_model.alpha_total +
              ((Group.total pair_model ⟨[4294967295, 1]⟩ : ℕ) : ℝ)))) := by
  have hg : (⟨[4294967295, 1]⟩ : Group).WF pair_model := by
    simp [Group.WF, pair_model, count_mod]
  have htot : Group.total pair_model ⟨[4294967295, 1]⟩ = 4294967296 := by
    have hn : pair_model.ndim = 2 := rfl
    simp [Group.total, hn, Finset.sum_range_succ, Group.count]
  exact ⟨pair_model_wf, hg, htot, wrapped_closed_form⟩

/-- C17 (as amended): with fast_lgamma the logarithm of the Gamma function and fast_log the
natural logarithm, for positive alphas, every value v in [0, dim) and every group whose
counts sum to less than 2^32 - 1, `group_add_value(v)`, both `score_group` calls and
`score_value(group, v)` return, and score_group(group after the addition) -
score_group(group) = score_value(group, v). -/
theorem C17_chain_rule (m : DirichletDiscrete ℝ) (group : Group) (uninit : Scorer ℝ)
    (v : Nat) (hm : m.WF) (hg : group.WF m) (hu : uninit.alphas.length = m.max_dim)
    (hpos : ∀ w, w < m.ndim → 0 < m.alpha w) (hv : v < m.ndim)
    (hlt : group.total m + 1 < count_mod) :
    ∃ g1 s1 s0 x, group_add_value m group (v : ℤ) = .done g1 ∧
      score_group (fun x => Real.log (Real.Gamma x)) m g1 = some s1 ∧
      score_group (fun x => Real.log (Real.Gamma x)) m group = some s0 ∧
      score_value Real.log m uninit group (v : ℤ) = .ret x ∧ s1 - s0 = x := by
  have hα := ndim_le_alphas m hm
  have hmax := ndim_le_max_dim m hm
  have hn : m.ndim ≤ group.counts.length := by
    rw [hg.1]
    exact hmax
  obtain ⟨s1, s0, h1, h0, hd⟩ := chain_rule m group v hv hα hn hpos hlt
  exact ⟨_, s1, s0, _, group_add_value_eq m group v hv (by omega), h1, h0,
    score_value_eq Real.log m uninit group v hv hα hn (by rw [hu]; exact hmax), hd⟩

/-- Witness of C17 at `pair_model`, the empty group and value 0. -/
theorem C17_chain_rule_witness :
    pair_model.WF ∧ (⟨[0, 0]⟩ : Group).WF pair_model ∧
      (∀ w, w < pair_model.ndim → 0 < pair_model.alpha w) ∧
      Group.total pair_model ⟨[0, 0]⟩ + 1 < count_mod ∧
      ∃ g1 s1 s0 x, group_add_value pair_model ⟨[0, 0]⟩ ((0 : ℕ) : ℤ) = .done g1 ∧
        score_group (fun x => Real.log (Real.Gamma x)) pair_model g1 = some s1 ∧
        score_group (fun x => Real.log (Real.Gamma x)) pair_model ⟨[0, 0]⟩ = some s0 ∧
        score_value Real.log pair_model ⟨0, [0, 0]⟩ ⟨[0, 0]⟩ ((0 : ℕ) : ℤ) = .ret x ∧
        s1 - s0 = x := by
  have hg : (⟨[0, 0]⟩ : Group).WF pair_model := by
    simp [Group.WF, pair_model, count_mod]
  have ht : Group.total pair_model ⟨[0, 0]⟩ + 1 < count_mod := by
    have hn : pair_model.ndim = 2 := rfl
    simp [Group.total, hn, Finset.sum_range_succ, Group.count, count_mod]
  exact ⟨pair_model_wf, hg, pair_model_pos, ht,
    C17_chain_rule pair_model ⟨[0, 0]⟩ ⟨0, [0, 0]⟩ 0 pair_model_wf hg rfl pair_model_pos
      (by decide) ht⟩

/-- C17 as stated fails when the sum of the counts passes 2^32: in `pair_model`
(dim = 2, alphas = [1, 1]) with counts `[2^32 - 1, 0]` and value 1, `group_add_value` gives
counts `[2^32 - 1, 1]`, whose `count_t` sum wraps to 0; score_group(after) -
score_group(before) is then log Gamma(2^32 + 1) >= 0, while score_value(group, 1) =
log(1 / (2^32 + 1)) < 0. -/
theorem C17_chain_rule_wraps :
    pair_model.WF ∧ (⟨[4294967295, 0]⟩ : Group).WF pair_model ∧
      (∀ w, w < pair_model.ndim → 0 < pair_model.alpha w) ∧
      ∃ g1 s1 s0 x, group_add_value pair_model ⟨[4294967295, 0]⟩ 1 = .done g1 ∧
        score_group (fun x => Real.log (Real.Gamma x)) pair_model g1 = some s1 ∧
        score_group (fun x => Real.log (Real.Gamma x)) pair_model ⟨[4294967295, 0]⟩ =
          some s0 ∧
        score_value Real.log pair_model ⟨0, [0, 0]⟩ ⟨[4294967295, 0]⟩ 1 = .ret x ∧
        x < 0 ∧ 0 ≤ s1 - s0 ∧ s1 - s0 ≠ x := by
  obtain ⟨s1, s0, x, h1, h0, hx, hneg, hpos⟩ := wrapped_scores
  have hg : (⟨[4294967295, 0]⟩ : Group).WF pair_model := by
    simp [Group.WF, pair_model, count_mod]
  exact ⟨pair_model_wf, hg, pair_model_pos, ⟨[4294967295, 1]⟩, s1, s0, x, rfl, h1, h0, hx,
    hneg, hpos, by linarith⟩

/-- C18, the code at the failing input, and the half of the claim that the code meets.
`classifier_add_value` names the missing member `classifier.count_sum`: no call of it
returns, and on the Fresh classifier `single_classifier` the call with groupid 0 and
value 0 has no result, so there is no state for `classifier_remove_value` to restore (it
has no result either).  For every group and every value in [0, dim), `group_add_value`
followed by `group_remove_value` does return the original group, a count of 2^32 - 1 (which
the addition wraps to 0) included. -/
theorem C18_round_trip_group_only (m : DirichletDiscrete ℝ) (group : Group) (v : Nat)
    (hm : m.WF) (hgr : group.WF m) (hv : v < m.ndim) :
    (∀ (log : ℝ → ℝ) (c : Classifier ℝ) (gid : Nat) (t : Classifier ℝ),
      classifier_add_value log m c gid (v : ℤ) ≠ .done t) ∧
    ((single_classifier Real.log).CacheInv Real.log pair_model ∧
      classifier_add_value Real.log pair_model (single_classifier Real.log) 0 0 =
        .undefined ∧
      classifier_remove_value Real.log pair_model (single_classifier Real.log) 0 0 =
        .undefined) ∧
    ∃ g1, group_add_value m group (v : ℤ) = .done g1 ∧
      (group.count v = 4294967295 → g1.count v = 0) ∧
      group_remove_value m g1 (v : ℤ) = .done group := by
  refine ⟨fun log c gid t => add_value_not_done log m c gid _ t,
    ⟨single_classifier_inv Real.log,
      add_value_undefined Real.log pair_model _ 0 0 (by decide) (by decide),
      remove_value_undefined Real.log pair_model _ 0 0 (by decide) (by decide)⟩, ?_⟩
  obtain ⟨g1, h1, h2⟩ := group_add_remove m group v hm hgr hv
  refine ⟨g1, h1, ?_, h2⟩
  intro hmax
  have hl : v < group.counts.length := by
    have := ndim_le_max_dim m hm
    have := hgr.1
    omega
  rw [group_add_value_eq m group v hv hl] at h1
  cases h1
  simp only [Group.count]
  rw [getD_set_counts _ _ _ _ hl, if_pos rfl]
  simp only [Group.count] at hmax
  rw [hmax]
  decide

/-- Witness of C18 at `pair_model`, the group with counts `[2^32 - 1, 0]` and value 0,
where the addition wraps. -/
theorem C18_round_trip_group_only_witness :
    pair_model.WF ∧ (⟨[4294967295, 0]⟩ : Group).WF pair_model ∧ 0 < pair_model.ndim ∧
      ∃ g1, group_add_value pair_model ⟨[4294967295, 0]⟩ ((0 : ℕ) : ℤ) = .done g1 ∧
        ((⟨[4294967295, 0]⟩ : Group).count 0 = 4294967295 → g1.count 0 = 0) ∧
        group_remove_value pair_model g1 ((0 : ℕ) : ℤ) = .done ⟨[4294967295, 0]⟩ := by
  have hg : (⟨[4294967295, 0]⟩ : Group).WF pair_model := by
    simp [Group.WF, pair_model, count_mod]
  exact ⟨pair_model_wf, hg, by decide,
    (C18_round_trip_group_only pair_model ⟨[4294967295, 0]⟩ 0 pair_model_wf hg
      (by decide)).2.2⟩

/-- C19, the code at the failing inputs.  The state that `classifier_init(1)`,
`classifier_lazy_add_value(0, 0)` and `classifier_refresh` reach on `pair_model` is
reachable and its arrays groups, count_sums, scores_shift and scores[v] (v < dim) all have
length G = 1; yet with groupid 0 < G, `classifier_lazy_add_value(0, -1)` passes both
assertions and indexes counts at -1, an access outside the array, and
`classifier_add_value(0, 0)` and `classifier_remove_value(0, 0)` have no result at all (they
name the missing member `classifier.count_sum`). -/
theorem C19_access_outside_array :
    Reachable pair_model ⟨0 + 1 + 1, [⟨[1, 0]⟩], [1],
        [[Real.log (1 + ((1 : ℕ) : ℝ))], [Real.log (1 + ((0 : ℕ) : ℝ))]],
        [Real.log (0 + 1 + 1 + ((1 : ℕ) : ℝ))], false⟩ ∧
      (⟨0 + 1 + 1, [⟨[1, 0]⟩], [1],
        [[Real.log (1 + ((1 : ℕ) : ℝ))], [Real.log (1 + ((0 : ℕ) : ℝ))]],
        [Real.log (0 + 1 + 1 + ((1 : ℕ) : ℝ))], false⟩ : Classifier ℝ).Parallel
        pair_model 1 ∧
      classifier_lazy_add_value pair_model ⟨0 + 1 + 1, [⟨[1, 0]⟩], [1],
        [[Real.log (1 + ((1 : ℕ) : ℝ))], [Real.log (1 + ((0 : ℕ) : ℝ))]],
        [Real.log (0 + 1 + 1 + ((1 : ℕ) : ℝ))], false⟩ 0 (-1) = .undefined ∧
      classifier_add_value Real.log pair_model ⟨0 + 1 + 1, [⟨[1, 0]⟩], [1],
        [[Real.log (1 + ((1 : ℕ) : ℝ))], [Real.log (1 + ((0 : ℕ) : ℝ))]],
        [Real.log (0 + 1 + 1 + ((1 : ℕ) : ℝ))], false⟩ 0 0 = .undefined ∧
      classifier_remove_value Real.log pair_model ⟨0 + 1 + 1, [⟨[1, 0]⟩], [1],
        [[Real.log (1 + ((1 : ℕ) : ℝ))], [Real.log (1 + ((0 : ℕ) : ℝ))]],
        [Real.log (0 + 1 + 1 + ((1 : ℕ) : ℝ))], false⟩ 0 0 = .undefined := by
  have hr : Reachable pair_model ⟨0 + 1 + 1, [⟨[1, 0]⟩], [1],
      [[Real.log (1 + ((1 : ℕ) : ℝ))], [Real.log (1 + ((0 : ℕ) : ℝ))]],
      [Real.log (0 + 1 + 1 + ((1 : ℕ) : ℝ))], false⟩ :=
    Reachable.refresh _ _ (tallied_reachable 0 (by decide)) tallied_refresh
  exact ⟨hr, (reachable_inv pair_model _ pair_model_wf hr).1.parallel, rfl,
    add_value_undefined Real.log pair_model _ 0 0 (by decide) (by decide),
    remove_value_undefined Real.log pair_model _ 0 0 (by decide) (by decide)⟩

/-- C20: with fast_log the natural logarithm, for dim >= 1, positive alphas and every
group, `score_value(group, v)` returns for every v in [0, dim), and the sum over v < dim of
exp(score_value(group, v)) is 1: the scores are the logarithms of a probability
distribution over the categories; `scorer_init` stores as alpha_sum the sum of the values
alphas[v] + counts[v] that `scorer_eval` divides. -/
theorem C20_scores_normalised (m : DirichletDiscrete ℝ) (group : Group)
    (uninit : Scorer ℝ) (hm : m.WF) (hg : group.WF m)
    (hu : uninit.alphas.length = m.max_dim) (hd : 1 ≤ m.dim)
    (hpos : ∀ w, w < m.ndim → 0 < m.alpha w) :
    (∃ scorer, scorer_init m uninit group = some scorer ∧
      scorer.alpha_sum =
        ∑ w in Finset.range m.ndim, (m.alpha w + ((group.count w : ℕ) : ℝ))) ∧
    ∃ f : Nat → ℝ,
      (∀ v, v < m.ndim → score_value Real.log m uninit group (v : ℤ) = .ret (f v)) ∧
      ∑ v in Finset.range m.ndim, Real.exp (f v) = 1 := by
  have hα := ndim_le_alphas m hm
  have hmax := ndim_le_max_dim m hm
  have hn : 0 < m.ndim := by
    unfold DirichletDiscrete.ndim
    omega
  have hgl : m.ndim ≤ group.counts.length := by
    rw [hg.1]
    exact hmax
  have hul : m.ndim ≤ uninit.alphas.length := by
    rw [hu]
    exact hmax
  obtain ⟨scorer, hs, hsum, -⟩ := scorer_init_spec m uninit group hα hgl hul
  refine ⟨⟨scorer, hs, hsum⟩,
    fun v => Real.log ((m.alpha v + ((group.count v : ℕ) : ℝ)) /
      ∑ w in Finset.range m.ndim, (m.alpha w + ((group.count w : ℕ) : ℝ))), ?_, ?_⟩
  · intro v hv
    exact score_value_eq Real.log m uninit group v hv hα hgl hul
  · exact exp_scores_sum m group hn hpos

/-- Witness of C20 at `pair_model` and the group with counts `[3, 4]`. -/
theorem C20_scores_normalised_witness :
    pair_model.WF ∧ (⟨[3, 4]⟩ : Group).WF pair_model ∧
      (⟨0, [0, 0]⟩ : Scorer ℝ).alphas.length = pair_model.max_dim ∧ 1 ≤ pair_model.dim ∧
      (∀ w, w < pair_model.ndim → 0 < pair_model.alpha w) ∧
      ∃ f : Nat → ℝ,
        (∀ v, v < pair_model.ndim →
          score_value Real.log pair_model ⟨0, [0, 0]⟩ ⟨[3, 4]⟩ (v : ℤ) = .ret (f v)) ∧
        ∑ v in Finset.range pair_model.ndim, Real.exp (f v) = 1 := by
  have hg : (⟨[3, 4]⟩ : Group).WF pair_model := by
    simp [Group.WF, pair_model, count_mod]
  exact ⟨pair_model_wf, hg, rfl, by decide, pair_model_pos,
    (C20_scores_normalised pair_model ⟨[3, 4]⟩ ⟨0, [0, 0]⟩ pair_model_wf hg rfl (by decide)
      pair_model_pos).2⟩

end Claims

end Distributions
